import Mathlib

/-!
Verification of the QA_Agent retrieval / generation / validation pipeline.

The definitions below are a shallow embedding of the Python sources under
`backend/services/` (notably `llm_service/prompt_utils.py`,
`llm_service/ranking.py`, `llm_service/validation.py`,
`llm_service/json_utils.py`, `llm_service/generate_test_cases.py`,
`semantic_matcher.py` and `deterministic_selenium_generator.py`).

Modelling conventions:
* Python `float` scores are modelled as `ℚ` (all constants in the code are
  short decimals, and the claims are about order comparisons and exact
  weighted sums, not about rounding).
* `math.log` is threaded through as an explicit parameter `lg : ℚ → ℚ`,
  since the claims never depend on its values.
* Embedding-based classifiers (the `SemanticMatcher` cosine similarities and
  the document-intelligence lookups) are threaded through as explicit oracle
  parameters; the code treats the embedding model as a black box.
* Python dicts with optional keys are modelled as structures of `Option`
  fields; `d.get(k, default)` becomes `Option.getD`.
* Strings are ASCII here (the pipeline feeds ASCII prompts and JSON); the
  `lower` and whitespace functions are the ASCII restrictions of Python
  semantics.
-/

namespace QAAgent

/-! ## Basic string machinery (ASCII model of the Python primitives) -/

/-- ASCII lower-casing of one character, the restriction of Python `str.lower`. -/
def lowerCh (c : Char) : Char :=
  if 'A' ≤ c ∧ c ≤ 'Z' then Char.ofNat (c.toNat + 32) else c

/-- ASCII `str.lower` on char lists. -/
def lowerL (l : List Char) : List Char := l.map lowerCh

/-- ASCII `str.lower`. -/
def lower (s : String) : String := ⟨lowerL s.data⟩

/-- Python regex `\s` over ASCII: space, tab, newline, carriage return, form
feed, vertical tab. -/
def isWs (c : Char) : Bool :=
  c = ' ' ∨ c = '\t' ∨ c = '\n' ∨ c = '\x0d' ∨ c = '\x0c' ∨ c = '\x0b'

/-- Python regex `\w` over ASCII: letters, digits, underscore. -/
def isWordCh (c : Char) : Bool :=
  ('a' ≤ c ∧ c ≤ 'z') ∨ ('A' ≤ c ∧ c ≤ 'Z') ∨ ('0' ≤ c ∧ c ≤ '9') ∨ c = '_'

def isDigitCh (c : Char) : Bool := '0' ≤ c ∧ c ≤ '9'

def isUpperCh (c : Char) : Bool := 'A' ≤ c ∧ c ≤ 'Z'

def isLowerAlnum (c : Char) : Bool := ('a' ≤ c ∧ c ≤ 'z') ∨ ('0' ≤ c ∧ c ≤ '9')

def isUpperAlnum (c : Char) : Bool := ('A' ≤ c ∧ c ≤ 'Z') ∨ ('0' ≤ c ∧ c ≤ '9')

/-- Does `needle` occur as a contiguous sublist of `haystack`?  This is the
Python substring test `needle in haystack`. -/
def subL (needle : List Char) : List Char → Bool
  | [] => needle.isEmpty
  | c :: rest => needle.isPrefixOf (c :: rest) || subL needle rest

/-- Python `needle in haystack` on strings. -/
def substrOf (needle haystack : String) : Bool := subL needle.data haystack.data

/-- Python `str.strip()`: remove leading and trailing whitespace. -/
def stripL (l : List Char) : List Char :=
  ((l.dropWhile isWs).reverse.dropWhile isWs).reverse

def strip (s : String) : String := ⟨stripL s.data⟩

/-- Python `sep.join(parts)`. -/
def joinSep (sep : String) (parts : List String) : String :=
  String.intercalate sep parts

/-- Python `str.startswith`. -/
def startsWith (pre s : String) : Bool := pre.data.isPrefixOf s.data

/-- Python `str.endswith`. -/
def endsWith (suf s : String) : Bool := suf.data.reverse.isPrefixOf s.data.reverse

/-- Maximal run: split `l` into the longest prefix satisfying `p` and the
rest. -/
def takeRun (p : Char → Bool) (l : List Char) : List Char × List Char :=
  (l.takeWhile p, l.dropWhile p)

theorem dropWhile_len_le (p : Char → Bool) (l : List Char) :
    (l.dropWhile p).length ≤ l.length := by
  induction l with
  | nil => simp [List.dropWhile]
  | cons c rest ih =>
    by_cases h : p c
    · simp only [List.dropWhile, h]
      exact Nat.le_trans ih (Nat.le_succ _)
    · simp [List.dropWhile, h]

/-! ## Regex scans used by the pipeline

Python `re.findall` scans left to right, emitting non-overlapping matches and
resuming after each match.  The three value patterns of
`llm_service/validation.py` / `config.py` and the two tokenizers of
`ranking.py` are implemented as direct scans.  Greedy/backtracking behaviour
is discharged statically: in each pattern the trailing context character can
never be rescued by giving back characters of the repeated class (the
analysis is recorded at each definition). -/

/-- One attempted match of `\$\d+(?:\.\d{2})?` at the head of `l`.
Returns (matched text, rest) on success.  The optional group `\.\d{2}` is
taken iff a dot followed by two digits is present (backtracking to the empty
option otherwise, exactly as the regex engine does). -/
def priceAt : List Char → Option (List Char × List Char)
  | '$' :: rest =>
    let ds := rest.takeWhile isDigitCh
    let tail := rest.dropWhile isDigitCh
    if ds.isEmpty then none
    else
      match tail with
      | '.' :: d1 :: d2 :: tl =>
        if isDigitCh d1 ∧ isDigitCh d2 then
          some ('$' :: ds ++ '.' :: d1 :: d2 :: [], tl)
        else some ('$' :: ds, tail)
      | _ => some ('$' :: ds, tail)
  | _ => none

/-- One attempted match of `\d+%` at the head of `l` (the digit run is
maximal; a shorter run would be followed by a digit, not `%`, so greedy
matching with backtracking and this scan agree). -/
def percentAt (l : List Char) : Option (List Char × List Char) :=
  let ds := l.takeWhile isDigitCh
  let tail := l.dropWhile isDigitCh
  if ds.isEmpty then none
  else
    match tail with
    | '%' :: tl => some (ds ++ ['%'], tl)
    | _ => none

/-- One attempted match of `\b[A-Z][A-Z0-9]{3,}\b` given the previous
character (`none` at the start of the text).  The left `\b` requires the
previous character to be a non-word character; the right `\b` requires the
character after the maximal `[A-Z0-9]` run to be a non-word character.  (Any
backtracked shorter run would end immediately before an `[A-Z0-9]` character,
which is a word character, so backtracking can never rescue the right `\b`.) -/
def codeAt (prev : Option Char) (l : List Char) : Option (List Char × List Char) :=
  match l with
  | c :: rest =>
    if ((match prev with | none => true | some p => !isWordCh p) && isUpperCh c) then
      let run := rest.takeWhile isUpperAlnum
      let tail := rest.dropWhile isUpperAlnum
      if (decide (3 ≤ run.length) && (match tail with | [] => true | t :: _ => !isWordCh t)) then
        some (c :: run, tail)
      else none
    else none
  | [] => none

/-- Generic `re.findall` scan driver: `att prev l` attempts a match at the
head of `l` (with `prev` the character before `l`); on failure the scan
advances one character, on success it resumes after the match.  The `fuel`
argument only serves termination: every attempted match of the scanners
above consumes at least one character of the text, so with `fuel` set to the
length of the text (done by `findall`) it is never exhausted early. -/
def scanAll (att : Option Char → List Char → Option (List Char × List Char)) :
    ℕ → Option Char → List Char → List (List Char)
  | 0, _, _ => []
  | _, _, [] => []
  | fuel + 1, prev, c :: rest =>
    match att prev (c :: rest) with
    | some (m, tail) =>
      m :: scanAll att fuel (some (match m.reverse with | [] => c | x :: _ => x)) tail
    | none => scanAll att fuel (some c) rest

/-- `re.findall` for one of the scanners above. -/
def findall (att : Option Char → List Char → Option (List Char × List Char))
    (l : List Char) : List (List Char) :=
  scanAll att l.length none l

/-- Maximal `\w+` runs (`re.findall(r'\w+', ...)`): at a word character the
whole maximal word run is the match (the pattern has no trailing context, so
greedy matching takes the full run and the scan resumes after it). -/
def wordsAux : List Char → List Char → List (List Char)
  | [], [] => []
  | [], cur => [cur.reverse]
  | c :: rest, cur =>
    if isWordCh c then wordsAux rest (c :: cur)
    else
      match cur with
      | [] => wordsAux rest []
      | _ => cur.reverse :: wordsAux rest []

/-- `re.findall(r'\w+', s)` as strings. -/
def wordsOf (s : String) : List String :=
  (wordsAux s.data []).map (fun w => (⟨w⟩ : String))

/-- Python `str.split()` (split on whitespace runs, no empties). -/
def splitWsAux : List Char → List Char → List String
  | [], [] => []
  | [], cur => [⟨cur.reverse⟩]
  | c :: rest, cur =>
    if isWs c then
      match cur with
      | [] => splitWsAux rest []
      | _ => (⟨cur.reverse⟩ : String) :: splitWsAux rest []
    else splitWsAux rest (c :: cur)

def splitWs (s : String) : List String := splitWsAux s.data []

/-! ## `llm_service/prompt_utils.py` -/

/-- The control characters replaced by a space in `sanitize_text`
(`[\x00-\x08\x0B\x0C\x0E-\x1F]`). -/
def isBadCtrl (c : Char) : Bool :=
  (c.toNat ≤ 0x08) ∨ c.toNat = 0x0B ∨ c.toNat = 0x0C ∨
    (0x0E ≤ c.toNat ∧ c.toNat ≤ 0x1F)

/-- `re.sub(r'\s+', ' ', ...)`: collapse every whitespace run to one space.
The boolean accumulator records whether the previous character was part of a
whitespace run already emitted. -/
def collapseWsAux : List Char → Bool → List Char
  | [], _ => []
  | c :: rest, prevWs =>
    if isWs c then
      if prevWs then collapseWsAux rest true
      else ' ' :: collapseWsAux rest true
    else c :: collapseWsAux rest false

/-- `prompt_utils.sanitize_text`. -/
def sanitize_text (s : String) : String :=
  if s.isEmpty then ""
  else
    let step1 := s.data.map (fun c => if isBadCtrl c then ' ' else c)
    ⟨stripL (collapseWsAux step1 false)⟩

/-- `prompt_utils.estimate_tokens`: `max(1, len(text) // 4)`. -/
def estimate_tokens (s : String) : ℕ := max 1 (s.length / 4)

/-- A retrieved chunk: a Python dict with optional keys, as produced by the
chunk store and annotated by the ranker. -/
structure Chunk where
  text : Option String := none
  source : Option String := none
  distance : Option ℚ := none
  doc_type : Option String := none
  hybrid_score : Option ℚ := none
  bm25_score : Option ℚ := none
  deriving DecidableEq

/-- The greedy accept loop of `truncate_context_smart` (`break` at the first
chunk whose estimate would push the running total over the budget). -/
def selectChunks (maxTokens : ℤ) : List Chunk → ℤ → List Chunk
  | [], _ => []
  | c :: rest, total =>
    let tok : ℤ := estimate_tokens (c.text.getD (""))
    if maxTokens < total + tok then []
    else c :: selectChunks maxTokens rest (total + tok)

/-- `prompt_utils.truncate_context_smart`: returns
`(context, was_truncated, used_chunks)`. -/
def truncate_context_smart (chunks : List Chunk) (maxTokens : ℤ) :
    String × Bool × List Chunk :=
  let selected := selectChunks maxTokens chunks 0
  let parts := selected.map (fun c =>
    ("[Source: ") ++ c.source.getD ("unknown") ++ ("]\n") ++
      sanitize_text (c.text.getD ("")) ++ ("\n"))
  (joinSep ("\n") parts, decide (selected.length < chunks.length), selected)

/-- `prompt_utils.deduplicate_chunks`: exact-duplicate elimination keyed by
`md5(text.strip().lower())`, first-seen order preserved.  The hash is
modelled by the hashed string itself (md5 is injective for the model). -/
def deduplicate_chunks (chunks : List Chunk) : List Chunk × ℕ :=
  let out := go chunks []
  (out, chunks.length - out.length)
where
  go : List Chunk → List String → List Chunk
    | [], _ => []
    | c :: rest, seen =>
      let h := lower (strip (c.text.getD ("")))
      if h ∈ seen then go rest seen else c :: go rest (h :: seen)

/-! ## `llm_service/ranking.py` -/

/-- The process-wide corpus statistics (`DF_MAP`, `TOTAL_DOCS`), passed
explicitly. -/
structure CorpusStats where
  dfMap : List (String × ℕ) := []
  totalDocs : ℕ := 0

/-- `ranking.calculate_bm25_score` with `math.log` abstracted as `lg`. -/
def calculate_bm25_score (lg : ℚ → ℚ) (stats : CorpusStats)
    (query document : String) : ℚ :=
  let query_terms := (wordsOf (lower query)).dedup
  let doc_terms := wordsOf (lower document)
  let doc_length : ℚ := doc_terms.length
  let avg_doc_length : ℚ := 500
  let k1 : ℚ := 3/2
  let b : ℚ := 3/4
  let total_docs_for_idf : ℚ := max stats.totalDocs 1
  query_terms.foldl (fun score term =>
    let tf : ℚ := doc_terms.count term
    if 0 < tf then
      let df : ℚ := ((stats.dfMap.lookup term).getD 0 : ℕ)
      let idf := lg ((1 + total_docs_for_idf) / (1 + df)) + 1
      let numerator := tf * (k1 + 1)
      let denominator := tf + k1 * (1 - b + b * (doc_length / avg_doc_length))
      score + idf * (numerator / denominator)
    else score) 0

/-- The document-type multipliers of `hybrid_rank_chunks`. -/
def docTypeWeight (t : String) : ℚ :=
  (((([("specification", (3/2 : ℚ)), ("validation_rules", 7/5),
      ("api_documentation", 13/10), ("ui_guidelines", 11/10),
      ("general", 1)] : List (String × ℚ))).lookup t).getD 1)

/-- The ranking weights (`weights` default of `hybrid_rank_chunks`). -/
structure RankWeights where
  embedding : ℚ := 1/2
  bm25 : ℚ := 3/10
  metadata : ℚ := 3/20
  phrase : ℚ := 1/20

/-- The adjacent-bigram phrase score of `hybrid_rank_chunks`: +0.25 for each
adjacent pair of lowercased query words found verbatim in the chunk text,
clamped to 1. -/
def phraseScore (query text : String) : ℚ :=
  let query_words := splitWs (lower query)
  if 2 ≤ query_words.length then
    min 1 ((query_words.zip query_words.tail).foldl (fun acc p =>
      if substrOf (p.1 ++ (" ") ++ p.2) (lower text) then acc + 1/4 else acc) 0)
  else min 1 0

/-- The loop body of `hybrid_rank_chunks`: `new_chunk = dict(chunk)` plus the
score computation and the three annotations (`doc_type`, `hybrid_score`,
`bm25_score`).  `classifyDoc` is `ranking.classify_document_type` (a semantic
matcher call with a keyword fallback), abstracted as an oracle. -/
def annotateChunk (lg : ℚ → ℚ) (classifyDoc : String → String)
    (stats : CorpusStats) (w : RankWeights) (query : String) (c : Chunk) : Chunk :=
  let embedding_score := 1 - c.distance.getD 1
  let text := c.text.getD ("")
  let bm25_score := calculate_bm25_score lg stats query text
  let bm25_normalized := min 1 (bm25_score / 10)
  let metadata_score : ℚ := 1/2 + (if 100 < text.length then 1/5 else 0) +
    (if 500 < text.length then 1/10 else 0)
  let doc_type := classifyDoc (c.source.getD (""))
  let phrase_score := phraseScore query text
  let hybrid_score :=
    (embedding_score * w.embedding + bm25_normalized * w.bm25 +
      metadata_score * w.metadata + phrase_score * w.phrase) * docTypeWeight doc_type
  { c with doc_type := some doc_type, hybrid_score := some hybrid_score,
           bm25_score := some bm25_score }

/-- `ranking.hybrid_rank_chunks`: annotate fresh copies, then stable sort
descending by `hybrid_score` (Python `list.sort(key=..., reverse=True)` is a
stable descending sort, modelled by a stable merge sort with the reversed
comparison). -/
def hybrid_rank_chunks (lg : ℚ → ℚ) (classifyDoc : String → String)
    (stats : CorpusStats) (w : RankWeights) (chunks : List Chunk)
    (query : String) : List Chunk :=
  (chunks.map (annotateChunk lg classifyDoc stats w query)).mergeSort
    (fun a b => decide (b.hybrid_score.getD 0 ≤ a.hybrid_score.getD 0))

/-- The result dict of `adaptive_test_generation_strategy`; keys that only
some branches set are `Option` fields. -/
structure GenStrategy where
  strategy : String
  confidence : ℚ
  recommendation : String
  should_proceed : Bool
  domain_relevance : Option ℚ := none
  has_specific_values : Option Bool := none
  has_validation_rules : Option Bool := none
  has_examples : Option Bool := none

/-- One attempted match of `\b[a-z0-9]{3,}\b` (domain-term extraction on the
lowercased prompt): left `\b` requires a non-word predecessor, the maximal
`[a-z0-9]` run must have length ≥ 3, and the right `\b` requires a non-word
successor (shorter backtracked runs end before an `[a-z0-9]` word character,
so they can never rescue the right `\b`). -/
def domainTermAt (prev : Option Char) (l : List Char) :
    Option (List Char × List Char) :=
  match l with
  | c :: rest =>
    if ((match prev with | none => true | some p => !isWordCh p) && isLowerAlnum c) then
      let run := rest.takeWhile isLowerAlnum
      let tail := rest.dropWhile isLowerAlnum
      if (decide (2 ≤ run.length) && (match tail with | [] => true | t :: _ => !isWordCh t)) then
        some (c :: run, tail)
      else none
    else none
  | [] => none

/-- The fixed stop-word list of `adaptive_test_generation_strategy`. -/
def commonWords : List String :=
  [("test"), ("case"), ("cases"), ("generate"), ("create"), ("make"), ("for"),
   ("the"), ("and"), ("that"), ("this"), ("with"), ("from"), ("will"),
   ("should"), ("would"), ("could"), ("have"), ("been"), ("which"), ("their"),
   ("what"), ("about"), ("when"), ("where"), ("there"), ("some"), ("into"),
   ("than"), ("them"), ("these"), ("those"), ("your"), ("write"), ("using"),
   ("verify"), ("check"), ("validate"), ("ensure"), ("positive"), ("negative"),
   ("scenario"), ("step"), ("steps"), ("result"), ("expected"), ("outcome"),
   ("feature"), ("function"), ("system"), ("application")]

/-- The de-duplicated domain terms of the prompt
(`set(re.findall(r'\b[a-z0-9]{3,}\b', prompt_lower)) - common_words`). -/
def promptDomainTerms (prompt : String) : List String :=
  (((findall domainTermAt (lower prompt).data).map
      (fun w => (⟨w⟩ : String))).dedup).filter (fun t => t ∉ commonWords)

/-- The concatenated lowercased chunk text used by the strategy selector. -/
def strategyAllText (chunks : List Chunk) : String :=
  lower (joinSep (" ") (chunks.map (fun c => c.text.getD (""))))

/-- `domain_overlap_ratio`: fraction of domain terms occurring anywhere in
the concatenated chunk text (0 when there are no domain terms). -/
def domain_overlap_ratio (chunks : List Chunk) (prompt : String) : ℚ :=
  let terms := promptDomainTerms prompt
  let matched := (terms.filter (fun t => substrOf t (strategyAllText chunks))).length
  if terms.length = 0 then 0 else (matched : ℚ) / terms.length

/-- Does any alternative of `\$\d+|\d+%|[A-Z]{2,}\d+|P\d{3}` match at the
head of `l`?  (Only existence is used by the strategy selector.) -/
def specificAtHead (l : List Char) : Bool :=
  (priceAt l).isSome || (percentAt l).isSome ||
  (let run := l.takeWhile isUpperCh
   decide (2 ≤ run.length) &&
     (match l.dropWhile isUpperCh with
      | d :: _ => isDigitCh d
      | [] => false)) ||
  (match l with
   | 'P' :: d1 :: d2 :: d3 :: _ => isDigitCh d1 && isDigitCh d2 && isDigitCh d3
   | _ => false)

/-- `bool(re.search(...))` for the specifics pattern: some position matches. -/
def hasSpecificValues (text : String) : Bool :=
  go text.data
where
  go : List Char → Bool
    | [] => false
    | c :: rest => specificAtHead (c :: rest) || go rest

def ruleKeywords : List String :=
  [("must be"), ("should be"), ("required field"), ("limit"), ("constraint"),
   ("validation"), ("error message"), ("minimum"), ("maximum")]

def exampleKeywords : List String :=
  [("example"), ("e.g."), ("for instance"), ("such as")]

/-- `ranking.adaptive_test_generation_strategy`. -/
def adaptive_test_generation_strategy (chunks : List Chunk) (prompt : String) :
    GenStrategy :=
  if chunks.isEmpty then
    { strategy := ("abort"), confidence := 0,
      recommendation := ("No relevant documentation found."),
      should_proceed := false }
  else
    let all_text := strategyAllText chunks
    let ratio := domain_overlap_ratio chunks prompt
    if ratio < 3/10 then
      { strategy := ("abort"), confidence := 0,
        recommendation := ("Out-of-domain request."),
        should_proceed := false, domain_relevance := some ratio }
    else
      let total_score := (chunks.map (fun c => c.hybrid_score.getD 0)).sum
      let avg_score := if chunks.length = 0 then 0 else total_score / chunks.length
      let has_specifics := hasSpecificValues all_text
      let has_rules := ruleKeywords.any (fun kw => substrOf kw all_text)
      let has_examples := exampleKeywords.any (fun kw => substrOf kw all_text)
      let confidence := min 1
        (ratio * (1/2) + avg_score * (1/4) +
          (if has_specifics then 3/20 else 0) +
          (if has_rules then 2/25 else 0) +
          (if has_examples then 1/50 else 0))
      let (strategy, recommendation, should_proceed) :=
        if confidence < 2/5 then
          (("abort"), ("Documentation quality too low."), false)
        else if confidence < 3/5 then
          (("minimal"), ("Low confidence. Generate basic test cases with warnings."), true)
        else if confidence < 4/5 then
          (("standard"), ("Moderate confidence. Standard test case generation."), true)
        else
          (("comprehensive"), ("High confidence. Comprehensive test coverage possible."), true)
      { strategy := strategy, confidence := confidence,
        recommendation := recommendation, should_proceed := should_proceed,
        has_specific_values := some has_specifics,
        has_validation_rules := some has_rules,
        has_examples := some has_examples }

/-- Modelled from the spec claim wording for C6 only (the clamped variant of
the embedding component, `clamp` to `[0,1]`); the source has no clamp.  Used
to compare the spec reading against `annotateChunk`. -/
def clamp01 (x : ℚ) : ℚ := min 1 (max 0 x)

/-- The C6 spec-reading variant of `annotateChunk`: identical except that the
embedding component is clamped to `[0,1]`. -/
def annotateChunkClamped (lg : ℚ → ℚ) (classifyDoc : String → String)
    (stats : CorpusStats) (w : RankWeights) (query : String) (c : Chunk) : Chunk :=
  let embedding_score := clamp01 (1 - c.distance.getD 1)
  let text := c.text.getD ("")
  let bm25_score := calculate_bm25_score lg stats query text
  let bm25_normalized := min 1 (bm25_score / 10)
  let metadata_score : ℚ := 1/2 + (if 100 < text.length then 1/5 else 0) +
    (if 500 < text.length then 1/10 else 0)
  let doc_type := classifyDoc (c.source.getD (""))
  let phrase_score := phraseScore query text
  let hybrid_score :=
    (embedding_score * w.embedding + bm25_normalized * w.bm25 +
      metadata_score * w.metadata + phrase_score * w.phrase) * docTypeWeight doc_type
  { c with doc_type := some doc_type, hybrid_score := some hybrid_score,
           bm25_score := some bm25_score }

/-- The C6 spec-reading variant of `hybrid_rank_chunks`. -/
def hybrid_rank_chunks_clamped (lg : ℚ → ℚ) (classifyDoc : String → String)
    (stats : CorpusStats) (w : RankWeights) (chunks : List Chunk)
    (query : String) : List Chunk :=
  (chunks.map (annotateChunkClamped lg classifyDoc stats w query)).mergeSort
    (fun a b => decide (b.hybrid_score.getD 0 ≤ a.hybrid_score.getD 0))

/-! ## `llm_service/validation.py` -/

/-- Lexicographic (code-point) string order, Python `str` comparison. -/
def lexLe : List Char → List Char → Bool
  | [], _ => true
  | _ :: _, [] => false
  | a :: as, b :: bs => if a = b then lexLe as bs else decide (a < b)

/-- Stable insertion into an ascending list (used to model Python
`sorted`). -/
def insertBy (le : String → String → Bool) (s : String) : List String → List String
  | [] => [s]
  | t :: rest => if le s t then s :: t :: rest else t :: insertBy le s rest

/-- Python `sorted` (the inputs it is applied to here are duplicate-free, so
any correct sort agrees with it). -/
def sortBy (le : String → String → Bool) (l : List String) : List String :=
  l.foldr (insertBy le) []

/-- The `test_steps` value of a generated test-case dict: absent, a raw
string, or a list of strings. -/
inductive StepsField where
  | missing : StepsField
  | strVal : String → StepsField
  | listVal : List String → StepsField
  deriving DecidableEq

/-- A generated test case (a Python dict; absent keys are `none` /
`StepsField.missing`).  The underscore-prefixed bookkeeping keys of the
pipeline are ordinary fields here. -/
structure TestCase where
  test_id : Option String := none
  feature : Option String := none
  test_scenario : Option String := none
  test_steps : StepsField := .missing
  expected_result : Option String := none
  test_type : Option String := none
  priority : Option String := none
  grounded_in : Option String := none
  needs_review : Option Bool := none
  _action : Option String := none
  _hallucination_warning : Option String := none
  _review_reason : Option String := none
  _quality_score : Option ℚ := none
  deriving DecidableEq

/-- Python `' '.join(x)` for the `test_steps` slot: joining a list joins its
elements, joining a string joins its characters. -/
def stepsJoined : StepsField → String
  | .missing => ""
  | .listVal l => joinSep (" ") l
  | .strVal s => joinSep (" ") (s.data.map (fun c => (⟨[c]⟩ : String)))

/-- The steps as a list (after schema fixing the slot is always a list). -/
def stepsList : StepsField → List String
  | .listVal l => l
  | _ => []

/-- Split on `[\n;]+` (the `test_steps` string coercion); `re.split` pieces
are then stripped and the empties discarded by the comprehension. -/
def splitStepSeps (s : String) : List String :=
  go s.data []
where
  go : List Char → List Char → List String
    | [], [] => []
    | [], cur => [⟨cur.reverse⟩]
    | c :: rest, cur =>
      if c = '\n' ∨ c = ';' then
        match cur with
        | [] => go rest []
        | _ => (⟨cur.reverse⟩ : String) :: go rest []
      else go rest (c :: cur)

/-- The `test_steps` string-to-list coercion of `validate_test_case_schema`:
split, strip, drop empties, take 6, default to two placeholder steps. -/
def coerceSteps (s : String) : List String :=
  let parts := ((splitStepSeps s).map strip).filter (fun p => ¬ p.isEmpty) |>.take 6
  if parts.isEmpty then [("Step 1"), ("Step 2")] else parts

/-- Falsiness of a required string field (`not test_case[f]`). -/
def strFalsy (v : Option String) : Bool :=
  match v with
  | none => true
  | some s => s.isEmpty

/-- Fix one required string field, producing the placeholder and the issue
tag when missing or empty. -/
def fixRequired (v : Option String) (name : String) : Option String × List String :=
  if strFalsy v then (some (("[MISSING: ") ++ name ++ ("]")), [("missing:") ++ name])
  else (v, [])

/-- The schema-enforcement half of `validate_test_case_schema` (everything
before the hallucination scan): required-field placeholders, `test_steps`
coercion, enum coercions for `test_type`/`priority`, `grounded_in`
backfill. -/
def applySchemaFixes (tc : TestCase) (retrieved_chunks : List Chunk) :
    TestCase × List String :=
  let (tid, i1) := fixRequired tc.test_id ("test_id")
  let (fea, i2) := fixRequired tc.feature ("feature")
  let (sce, i3) := fixRequired tc.test_scenario ("test_scenario")
  let (steps0, i4) :=
    match tc.test_steps with
    | .missing => (StepsField.strVal (("[MISSING: test_steps]")), [("missing:test_steps")])
    | .strVal s =>
      if s.isEmpty then (StepsField.strVal (("[MISSING: test_steps]")), [("missing:test_steps")])
      else (StepsField.strVal s, [])
    | .listVal l =>
      if l.isEmpty then (StepsField.strVal (("[MISSING: test_steps]")), [("missing:test_steps")])
      else (StepsField.listVal l, [])
  let (exp, i5) := fixRequired tc.expected_result ("expected_result")
  let (tty, i6) := fixRequired tc.test_type ("test_type")
  let (pri, i7) := fixRequired tc.priority ("priority")
  let steps :=
    match steps0 with
    | .listVal l => StepsField.listVal l
    | .strVal s => StepsField.listVal (coerceSteps s)
    | .missing => StepsField.listVal (coerceSteps (""))
  let tty2 :=
    if tty = some ("positive") ∨ tty = some ("negative") ∨ tty = some ("boundary") ∨
        tty = some ("edge_case") then tty
    else some ("positive")
  let pri2 :=
    if pri = some ("high") ∨ pri = some ("medium") ∨ pri = some ("low") then pri
    else some ("medium")
  let gnd :=
    if strFalsy tc.grounded_in then
      match retrieved_chunks with
      | [] => some ("document.txt")
      | c :: _ => some (c.source.getD ("unknown"))
    else tc.grounded_in
  ({ tc with test_id := tid, feature := fea, test_scenario := sce,
             test_steps := steps, expected_result := exp, test_type := tty2,
             priority := pri2, grounded_in := gnd },
   i1 ++ i2 ++ i3 ++ i4 ++ i5 ++ i6 ++ i7)

/-- The lowercased concatenated chunk text used by the hallucination scan. -/
def contextTextOf (retrieved_chunks : List Chunk) : String :=
  lower (joinSep (" ") (retrieved_chunks.map (fun c => c.text.getD (""))))

/-- `content_text`: scenario, expected result and joined steps of the
(schema-fixed) test case. -/
def contentTextOf (tc : TestCase) : String :=
  (tc.test_scenario.getD ("")) ++ (" ") ++ (tc.expected_result.getD ("")) ++ (" ") ++
    stepsJoined tc.test_steps

/-- The `code` blacklist of `config.VALIDATION_PATTERNS` (the `price` and
`percentage` patterns carry no blacklist). -/
def codeBlacklist : List String :=
  [("STEP"), ("TEST"), ("HTTP"), ("JSON"), ("NOTE"), ("TODO"), ("FAIL"),
   ("PASS"), ("MISSING"), ("POST"), ("GET"), ("PUT"), ("DELETE"), ("TRUE"),
   ("FALSE"), ("NULL")]

/-- Drop a `.00` suffix from a price check value. -/
def stripCents (s : String) : String :=
  if endsWith ((".00")) s then ⟨s.data.take (s.data.length - 3)⟩ else s

/-- The fabricated-value scan of `validate_test_case_schema`: extracted
currency / percentage / uppercase-code tokens of the content text that
survive the blacklist, the negative-test-type code exemption and the
zero-cost `$0` exemption, and do not occur (case-insensitively) in the
concatenated chunk text.  `zc` is the semantic matcher's
`is_validation_context_zero_cost` decision, an embedding-dependent oracle. -/
def fabricatedValues (zc : String → Bool) (tc : TestCase)
    (retrieved_chunks : List Chunk) : List String :=
  let context_text := contextTextOf retrieved_chunks
  let content := (contentTextOf tc).data
  let prices := (findall (fun _ l => priceAt l) content).map (fun m => (⟨m⟩ : String))
  let pcts := (findall (fun _ l => percentAt l) content).map (fun m => (⟨m⟩ : String))
  let codes := (findall codeAt content).map (fun m => (⟨m⟩ : String))
  let isNeg := tc.test_type = some ("negative")
  prices.filter (fun v =>
    let cv := stripCents (lower v)
    if cv = ("$0") ∧ zc context_text then false
    else ¬ substrOf cv context_text) ++
  pcts.filter (fun v => ¬ substrOf (lower v) context_text) ++
  codes.filter (fun v =>
    if v ∈ codeBlacklist then false
    else if isNeg then false
    else ¬ substrOf (lower v) context_text)

/-- `validation.validate_test_case_schema`. -/
def validate_test_case_schema (zc : String → Bool) (tc : TestCase)
    (retrieved_chunks : List Chunk) : TestCase × List String :=
  let tc1 := (applySchemaFixes tc retrieved_chunks).1
  let issues := (applySchemaFixes tc retrieved_chunks).2
  let fab := fabricatedValues zc tc1 retrieved_chunks
  if fab.isEmpty then (tc1, issues)
  else
    ({ tc1 with _action := some ("drop"),
                _hallucination_warning :=
                  some (("fabricated: ") ++ joinSep ((", ")) (fab.take 5)) },
     issues ++ [("hallucination")])

/-- One attempted match of the `has_verbatim_evidence` alternation
`(\$\d+(?:\.\d{2})?|\d+%|\b[A-Z][A-Z0-9]{4,}\b)` (alternatives tried left
to right; the code run here is `{4,}`). -/
def verbatimAt (prev : Option Char) (l : List Char) :
    Option (List Char × List Char) :=
  match priceAt l with
  | some r => some r
  | none =>
    match percentAt l with
    | some r => some r
    | none =>
      match l with
      | c :: rest =>
        if ((match prev with | none => true | some p => !isWordCh p) && isUpperCh c) then
          let run := rest.takeWhile isUpperAlnum
          let tail := rest.dropWhile isUpperAlnum
          if (decide (4 ≤ run.length) && (match tail with | [] => true | t :: _ => !isWordCh t)) then
            some (c :: run, tail)
          else none
        else none
      | [] => none

/-- A canonical `json.dumps` of the test-case dict, with the present keys in
schema order (only the extracted value tokens of the dump matter, and those
are insensitive to key order). -/
def tcDumps (tc : TestCase) : String :=
  joinSep (" ") ([tc.test_id.getD (""), tc.feature.getD (""),
    tc.test_scenario.getD (""), stepsJoined tc.test_steps,
    tc.expected_result.getD (""), tc.test_type.getD (""),
    tc.priority.getD (""), tc.grounded_in.getD (""),
    tc._hallucination_warning.getD (""), tc._review_reason.getD ("")])

/-- `validation.has_verbatim_evidence`. -/
def has_verbatim_evidence (zc : String → Bool) (tc : TestCase)
    (used_chunks : List Chunk) : Bool :=
  let context := joinSep (" ") (used_chunks.map (fun c => lower (c.text.getD (""))))
  let tokens := (((findall verbatimAt (tcDumps tc).data).map
    (fun m => (⟨m⟩ : String)))).dedup
  if tokens.isEmpty then true
  else tokens.any (fun t =>
    substrOf (lower t) context ∨
      ((lower t = ("$0") ∨ lower t = ("$0.00")) ∧ zc context))

/-- The verbatim-evidence flagging applied to every kept case of the
validation stage. -/
def reviewAdjust (zc : String → Bool) (used_chunks : List Chunk)
    (validated : TestCase) : TestCase :=
  if has_verbatim_evidence zc validated used_chunks then validated
  else { validated with _review_reason := some (("No verbatim evidence found in documentation")), needs_review := some true }

/-- The per-case validation stage of `generate_test_cases` (lines 392-408):
schema-validate each case, exclude the ones marked `_action = drop`
(collecting their ids), flag the survivors lacking verbatim evidence. -/
def validationStage (zc : String → Bool) (cases : List TestCase)
    (used_chunks : List Chunk) : List TestCase × List String :=
  match cases with
  | [] => ([], [])
  | tc :: rest =>
    let acc := validationStage zc rest used_chunks
    let validated := (validate_test_case_schema zc tc used_chunks).1
    if validated._action = some ("drop") then
      (acc.1, (validated.test_id.getD ("unknown")) :: acc.2)
    else (reviewAdjust zc used_chunks validated :: acc.1, acc.2)

/-- The duplicate signature of `detect_semantic_duplicates`: the distinct
`\w+` words of length > 4 of scenario-plus-steps, sorted (Python `sorted`,
i.e. ascending lexicographic order), first 25. -/
def sigOf (tc : TestCase) : List String :=
  let sig_words := (wordsOf (lower ((tc.test_scenario.getD ("")) ++ (" ") ++
    stepsJoined tc.test_steps))).dedup
  (sortBy (fun a b => lexLe a.data b.data)
    (sig_words.filter (fun w => 4 < w.length))).take 25

/-- Modelled from the spec claim wording for C5 only: the signature built
from the 25 longest distinct words (ties broken lexicographically, which the
spec leaves open; the comparison instance below makes the two signatures
differ for every tie-break).  Compare `sigOf`. -/
def sigSpecLongest (tc : TestCase) : List String :=
  let sig_words := (wordsOf (lower ((tc.test_scenario.getD ("")) ++ (" ") ++
    stepsJoined tc.test_steps))).dedup
  (sortBy (fun a b =>
      if a.length = b.length then lexLe a.data b.data
      else decide (b.length < a.length))
    (sig_words.filter (fun w => 4 < w.length))).take 25

/-- The scan of `detect_semantic_duplicates` (`seen_signatures` is only ever
used for membership, so it is carried as a list of signatures). -/
def detectDupGo : List TestCase → ℕ → List (List String) → List ℕ
  | [], _, _ => []
  | tc :: rest, i, seen =>
    let sig := sigOf tc
    if sig ∈ seen then i :: detectDupGo rest (i + 1) seen
    else detectDupGo rest (i + 1) (sig :: seen)

/-- `validation.detect_semantic_duplicates`: indices whose signature was
seen at an earlier index. -/
def detect_semantic_duplicates (test_cases : List TestCase) : List ℕ :=
  detectDupGo test_cases 0 []

/-- The duplicate-removal comprehension of `generate_test_cases` (line 522). -/
def removeDuplicateCases (cases : List TestCase) : List TestCase :=
  ((cases.enum).filter (fun p => p.1 ∉ detect_semantic_duplicates cases)).map
    (fun p => p.2)

/-- `%03d` (three-digit zero padding, plain decimal beyond). -/
def pad3 (n : ℕ) : String :=
  if n < 1000 then
    ⟨[Nat.digitChar (n / 100), Nat.digitChar (n / 10 % 10), Nat.digitChar (n % 10)]⟩
  else Nat.repr n

def tcIdFormat (n : ℕ) : String := ("TC-") ++ pad3 n

/-- `enumerate(test_cases, 1)` with renumbering (the `isinstance` guard is
vacuous here: every element of the typed list is a dict). -/
def renumberFrom (k : ℕ) : List TestCase → List TestCase
  | [] => []
  | tc :: rest => { tc with test_id := some (tcIdFormat k) } :: renumberFrom (k + 1) rest

/-- `validation.ensure_unique_test_ids`. -/
def ensure_unique_test_ids (test_cases : List TestCase) : List TestCase :=
  renumberFrom 1 test_cases

/-- The tail of the `generate_test_cases` pipeline (lines 519-525):
semantic-duplicate removal followed by the final renumbering pass. -/
def finalizeCases (cases : List TestCase) : List TestCase :=
  ensure_unique_test_ids (removeDuplicateCases cases)

/-- 25 distinct words of strictly increasing lengths 5..29 (used to separate
the lexicographic-first-25 signature from the 25-longest signature). -/
def cWordsList : List String := (List.range 25).map (fun k => ⟨List.replicate (5 + k) 'c'⟩)

def dWord : String := ⟨List.replicate 30 'd'⟩

def eWord : String := ⟨List.replicate 30 'e'⟩

/-- Concrete case for C5: 26 distinct long words; the lexicographically
first 25 are the `c`-words, while the longest word is `dWord`. -/
def tcDupA : TestCase :=
  { test_id := some ("TC-001"), test_scenario := some (joinSep (" ") (cWordsList ++ [dWord])) }

/-- Same `c`-words but the longest word differs (`eWord`). -/
def tcDupB : TestCase :=
  { test_id := some ("TC-002"), test_scenario := some (joinSep (" ") (cWordsList ++ [eWord])) }

/-- A zero-cost oracle that never classifies a context as zero-cost (used in
concrete instantiations). -/
def zcNever : String → Bool := fun _ => false

/-- The retrieved chunk of the spec's C1 scenario. -/
def chunkPromo : Chunk :=
  { text := some ("Discount code SAVE10 gives 10% off"), source := some ("promo.md") }

/-- A test case grounded in the chunk (cites `SAVE10` and `10%`). -/
def tcSave10 : TestCase :=
  { test_id := some ("TC-001"), feature := some ("Discounts"),
    test_scenario := some ("Apply SAVE10 to the cart"),
    test_steps := .listVal [("Enter SAVE10"), ("Click apply")],
    expected_result := some ("10% discount is applied"),
    test_type := some ("positive"), priority := some ("high"),
    grounded_in := some ("promo.md") }

/-- The same case citing the fabricated `SAVE20` / `20%`. -/
def tcSave20 : TestCase :=
  { tcSave10 with test_scenario := some ("Apply SAVE20 to the cart"),
                  test_steps := StepsField.listVal [("Enter SAVE20"), ("Click apply")],
                  expected_result := some ("20% discount is applied") }

/-! ## `semantic_matcher.py`

The embedding model is a black box; its cosine similarity is the oracle
field `sim` (and `submitSim` stands for similarity against the fixed mean
submit-intent embedding of `_find_submit_button_semantic`).  The matcher
methods below are the source functions over that oracle. -/

structure Matcher where
  sim : String → String → ℚ
  submitSim : String → ℚ

/-- `max` of the similarities of `t` against a list of intent phrases,
starting from 0 (the accumulator initialisation of every matcher method). -/
def maxSim (m : Matcher) (t : String) (intents : List String) : ℚ :=
  intents.foldl (fun acc i => max acc (m.sim t i)) 0

def verificationIntents : List String :=
  [("verify check assert validate confirm"),
   ("ensure make sure that if whether"),
   ("expect should must display show"),
   ("see observe notice detect"),
   ("error message warning alert notification"),
   ("success confirmation completed finished"),
   ("disabled enabled visible hidden"),
   ("displayed shown appears rendered"),
   ("applied correctly successfully properly")]

def verActionIntents : List String :=
  [("click press tap submit"), ("fill enter type input"),
   ("select choose pick opt"), ("open close start stop")]

/-- `SemanticMatcher.is_verification_step`. -/
def is_verification_step (m : Matcher) (step_text : String) : Bool × ℚ :=
  let step_lower := lower (strip step_text)
  if substrOf ("check if") step_lower ∨ substrOf ("check that") step_lower ∨
      substrOf ("check whether") step_lower then
    (true, 19/20)
  else
    let maxVer := maxSim m step_lower verificationIntents
    let maxAct := maxSim m step_lower verActionIntents
    (decide (3/10 < maxVer ∧ maxAct + 2/25 < maxVer), maxVer)

def buttonIntents : List String :=
  [("click button press tap"), ("submit form send data"),
   ("proceed continue next forward"), ("confirm okay accept approve"),
   ("add insert create new"), ("trigger activate execute run"),
   ("push hit apply go"), ("launch start begin initiate"),
   ("process complete finish done"), ("purchase buy checkout pay")]

/-- `SemanticMatcher.match_button_action` (threshold 0.35). -/
def match_button_action (m : Matcher) (step_text : String) : Bool × ℚ :=
  let mx := maxSim m (lower step_text) buttonIntents
  (decide (7/20 < mx), mx)

def selectIntents : List String :=
  [("select choose pick option"), ("dropdown menu list picker"),
   ("opt for go with use"), ("set to change to switch to"),
   ("filter by sort by group by")]

/-- `SemanticMatcher.match_select_action` (threshold 0.25). -/
def match_select_action (m : Matcher) (step_text : String) : Bool × ℚ :=
  let mx := maxSim m (lower step_text) selectIntents
  (decide (1/4 < mx), mx)

/-- Best label of a labelled intent map under strict improvement (the
`if similarity > best_score` scan shared by the matcher's classifiers). -/
def bestLabel (m : Matcher) (t : String) (intents : List (String × String))
    (initLabel : String) : String × ℚ :=
  intents.foldl (fun best p =>
    let s := m.sim t p.2
    if best.2 < s then (p.1, s) else best) (initLabel, 0)

def checkboxPurposeIntents : List (String × String) :=
  [(("terms"), ("accept terms and conditions legal agreement policy")),
   (("newsletter"), ("subscribe to newsletter email updates marketing")),
   (("consent"), ("consent to data usage privacy agreement permissions")),
   (("notification"), ("enable notifications alerts push messages")),
   (("feature"), ("enable feature option preference setting"))]

/-- Replace `-` and `_` by spaces (attribute-name normalisation). -/
def dashToSpace (s : String) : String :=
  ⟨s.data.map (fun c => if c = '-' ∨ c = '_' then ' ' else c)⟩

/-- Truthiness of an optional string attribute (`attrs.get(k)` used in a
boolean position). -/
def strTruthy (v : Option String) : Bool :=
  match v with
  | none => false
  | some s => ¬ s.isEmpty

/-- `SemanticMatcher.match_checkbox_purpose`. -/
def match_checkbox_purpose (m : Matcher) (label id name : Option String) :
    String × ℚ :=
  let parts := (if strTruthy label then [label.getD ("")] else []) ++
    (if strTruthy id then [dashToSpace (id.getD (""))] else []) ++
    (if strTruthy name then [dashToSpace (name.getD (""))] else [])
  if parts.isEmpty then (("unknown"), 0)
  else bestLabel m (lower (joinSep (" ") parts)) checkboxPurposeIntents ("unknown")

def inputPurposeIntents : List (String × String) :=
  [(("email"), ("email address electronic mail contact")),
   (("phone"), ("phone number telephone mobile contact")),
   (("postal"), ("zip code postal code location address")),
   (("promo"), ("promo code coupon discount voucher gift card referral reward offer")),
   (("payment"), ("credit card payment billing card number cvv expiry")),
   (("search"), ("search query find lookup")),
   (("date"), ("date calendar appointment schedule")),
   (("password"), ("password secret credentials secure")),
   (("name"), ("name full name first name last name")),
   (("address"), ("address street city location"))]

/-- `SemanticMatcher.detect_input_purpose` (description parts in source
order: placeholder, id, name, aria_label, type). -/
def detect_input_purpose (m : Matcher)
    (placeholder id name aria ty : Option String) : String × ℚ :=
  let parts := (if strTruthy placeholder then [placeholder.getD ("")] else []) ++
    (if strTruthy id then [dashToSpace (id.getD (""))] else []) ++
    (if strTruthy name then [dashToSpace (name.getD (""))] else []) ++
    (if strTruthy aria then [aria.getD ("")] else []) ++
    (if strTruthy ty then [ty.getD ("")] else [])
  if parts.isEmpty then (("text"), 0)
  else bestLabel m (lower (joinSep (" ") parts)) inputPurposeIntents ("text")

/-- `SemanticMatcher.match_radio_option_intent` for one candidate option
(the generator always passes a single-option list built from the radio's
id/value/name; the `label` key is absent there). -/
def match_radio_option_intent (m : Matcher) (step_text : String)
    (id value : Option String) : Option String :=
  let parts := (if strTruthy value then [value.getD ("")] else []) ++
    (if strTruthy id then [dashToSpace (id.getD (""))] else [])
  if parts.isEmpty then none
  else
    let score := m.sim (lower step_text) (lower (joinSep (" ") parts))
    let best := if 0 < score then (id, score) else (none, 0)
    if 2/5 < best.2 then best.1 else none

def docTypeIntents : List (String × String) :=
  [(("specification"), ("product requirements features functionality specification guideline standard blueprint architecture schema definition")),
   (("validation_rules"), ("validation rules constraints checks policy verify sanitize validate compliance regulation requirement")),
   (("api_documentation"), ("api endpoint rest graphql webhook openapi swagger microservice service integration protocol")),
   (("ui_guidelines"), ("ui ux design interface mockup wireframe prototype component layout theme style visual brand"))]

/-- `SemanticMatcher.classify_document_type` (threshold 0.38, fallback
`general` with score 0.3). -/
def classify_document_type_m (m : Matcher) (source : String) : String × ℚ :=
  let best := bestLabel m (lower (source ++ (" "))) docTypeIntents ("general")
  if best.2 < 19/50 then (("general"), 3/10) else best

/-! ## `deterministic_selenium_generator.py`: element inventory and scanners -/

/-- An option of a `<select>`: the parser may deliver strings or dicts; for
the dict form `raw` stands for Python `str(opt)` (used only as a last-resort
display value). -/
inductive OptVal where
  | s : String → OptVal
  | o : Option String → Option String → String → OptVal
  deriving DecidableEq

/-- `opt.get('text', opt.get('value', str(opt)))` after the
string-vs-dict normalisation. -/
def normalizeOpt : OptVal → String
  | .s v => v
  | .o t v raw => t.getD (v.getD raw)

structure InputEl where
  id : Option String := none
  name : Option String := none
  type : Option String := none
  placeholder : Option String := none
  value : Option String := none
  deriving DecidableEq

structure SelectEl where
  id : Option String := none
  name : Option String := none
  options : List OptVal := []
  deriving DecidableEq

structure CheckboxEl where
  id : Option String := none
  label : Option String := none
  name : Option String := none
  deriving DecidableEq

/-- A button; `cls` is the `class` attribute (a Lean keyword). -/
structure ButtonEl where
  id : Option String := none
  text : Option String := none
  cls : Option String := none
  type : Option String := none
  onclick : Option String := none
  disabled : Bool := false
  deriving DecidableEq

structure DynEl where
  id : Option String := none
  deriving DecidableEq

structure HtmlStructure where
  inputs : List InputEl := []
  selects : List SelectEl := []
  checkboxes : List CheckboxEl := []
  buttons : List ButtonEl := []
  dynamic_elements : List DynEl := []
  success_elements : List DynEl := []

/-- The document-intelligence collaborator
(`extract_valid_input_value(purpose, field_name, attrs)`), a black-box
lookup over the loaded support documents. -/
structure DocIntel where
  extract_valid_input_value : String → String → InputEl → Option String × ℚ

/-- The random source: `randint` is `random.randint` and `digits n` the
`n`-digit string substituted for `{random:n}` (draw statefulness is
immaterial to the claims and abstracted away). -/
structure Rng where
  randint : ℕ → ℕ → ℕ
  digits : ℕ → String

def pad2 (n : ℕ) : String := if n < 10 then ("0") ++ Nat.repr n else Nat.repr n

def emailVal (rng : Rng) : String :=
  ("test_") ++ Nat.repr (rng.randint 100 999) ++ ("@example.com")

def phoneVal (rng : Rng) : String := ("555") ++ rng.digits 7

def zipVal (rng : Rng) : String := rng.digits 5

def dateVal (rng : Rng) : String :=
  ("2024-") ++ pad2 (rng.randint 1 12) ++ ("-") ++ pad2 (rng.randint 1 28)

def passwordVal (rng : Rng) : String := ("Test@") ++ Nat.repr (rng.randint 100 999)

def couponVal (rng : Rng) : String := ("TEST") ++ rng.digits 4

/-- `re.sub(r'^\d+\.?\s*', '', step)`: strip a leading step number (digits,
optional dot, whitespace); anchored, so at most one substitution. -/
def cleanStepOf (step : String) : String :=
  match step.data with
  | c :: _ =>
    if isDigitCh c then
      let r1 := step.data.dropWhile isDigitCh
      let r2 := match r1 with
        | '.' :: t => t
        | _ => r1
      ⟨r2.dropWhile isWs⟩
    else step
  | [] => step

/-- Case-insensitive literal prefix match, returning the rest. -/
def stripPrefixCI : List Char → List Char → Option (List Char)
  | [], l => some l
  | _, [] => none
  | a :: as, c :: cs => if lowerCh c = a then stripPrefixCI as cs else none

/-- One attempted match of `attr\s*[=:\s]\s*['\"]([^'\"]+)['\"]`
(`re.IGNORECASE`) at the head of `l`.  The separator run must contain a `=`
or `:` amid whitespace, or be pure whitespace of length ≥ 1; the captured
value is the maximal run of non-quote characters and the closing quote may
be of either kind. -/
def attrValAt (attr : List Char) (l : List Char) : Option String :=
  match stripPrefixCI attr l with
  | none => none
  | some rest =>
    let ws1 := rest.takeWhile isWs
    let r1 := rest.dropWhile isWs
    let afterSep : Option (List Char) :=
      match r1 with
      | c :: r2 => if c = '=' ∨ c = ':' then some (r2.dropWhile isWs)
                   else if ws1.isEmpty then none else some r1
      | [] => if ws1.isEmpty then none else some []
    match afterSep with
    | none => none
    | some r3 =>
      match r3 with
      | q :: r4 =>
        if q = '\x27' ∨ q = '"' then
          let content := r4.takeWhile (fun d => ¬ (d = '\x27' ∨ d = '"'))
          let after := r4.dropWhile (fun d => ¬ (d = '\x27' ∨ d = '"'))
          if content.isEmpty then none
          else
            match after with
            | e :: _ => if e = '\x27' ∨ e = '"' then some ⟨content⟩ else none
            | [] => none
        else none
      | [] => none

/-- `re.search` for the quoted-attribute pattern: first position where it
matches. -/
def attrSearch (attr : String) (s : String) : Option String :=
  go s.data
where
  go : List Char → Option String
    | [] => none
    | c :: rest =>
      match attrValAt (lowerL attr.data) (c :: rest) with
      | some v => some v
      | none => go rest

/-- `re.findall(r'\d+', s)`: maximal digit runs. -/
def digitRuns (s : String) : List String :=
  go s.data
where
  go : List Char → List String
    | [] => []
    | c :: rest =>
      if isDigitCh c then
        (⟨c :: rest.takeWhile isDigitCh⟩ : String) ::
          go (rest.dropWhile isDigitCh)
      else go rest
  termination_by l => l.length
  decreasing_by
    · have := dropWhile_len_le isDigitCh rest
      simp only [List.length_cons]
      omega
    · simp [List.length_cons]

/-- `re.search(r'\b([A-Z0-9]{4,})\b', s)`: first boundary-delimited
uppercase-alphanumeric run of length ≥ 4 (shorter backtracked runs end
before a word character, so they can never rescue the right boundary). -/
def codeSearch (s : String) : Option String :=
  go none s.data
where
  go : Option Char → List Char → Option String
    | _, [] => none
    | prev, c :: rest =>
      if ((match prev with | none => true | some p => !isWordCh p) && isUpperAlnum c) then
        let run := rest.takeWhile isUpperAlnum
        let tail := rest.dropWhile isUpperAlnum
        if (decide (3 ≤ run.length) && (match tail with | [] => true | t :: _ => !isWordCh t)) then
          some ⟨c :: run⟩
        else go (some c) rest
      else go (some c) rest

/-- `re.search(r'\b(P\d{3})\b', s, re.IGNORECASE)`: first `P`/`p` followed by
exactly three digits, boundary-delimited. -/
def productSearch (s : String) : Option String :=
  go none s.data
where
  go : Option Char → List Char → Option String
    | _, [] => none
    | prev, c :: rest =>
      if ((match prev with | none => true | some p => !isWordCh p) &&
          (c = 'P' ∨ c = 'p')) then
        match rest with
        | d1 :: d2 :: d3 :: tail =>
          if (isDigitCh d1 && isDigitCh d2 && isDigitCh d3 &&
              (match tail with | [] => true | t :: _ => !isWordCh t)) then
            some ⟨[c, d1, d2, d3]⟩
          else go (some c) rest
        | _ => go (some c) rest
      else go (some c) rest

/-- `re.search(r'search for (.+?)(?:\s|$)', s)`: after the literal, the lazy
group takes one character and extends only until a whitespace character (or
the end) follows. -/
def searchTermOf (s : String) : Option String :=
  go s.data
where
  go : List Char → Option String
    | [] => none
    | c :: rest =>
      match stripPrefixCI (("search for ").data) (c :: rest) with
      | some after =>
        match after with
        | [] => go rest
        | a :: tail => some ⟨a :: tail.takeWhile (fun d => !isWs d)⟩
      | none => go rest

/-- ASCII uppercase (Python `str.upper`). -/
def upperStr (s : String) : String :=
  ⟨s.data.map (fun c => if 'a' ≤ c ∧ c ≤ 'z' then Char.ofNat (c.toNat - 32) else c)⟩

/-! ## `deterministic_selenium_generator.py`: the per-step classifier -/

/-- Branch 2/3 of the step classifier: first matching `<select>`; returns
`(select id, chosen option)`.  `useExplicit` is true for the intent-gated
pass (which also honours an explicit `id="..."` from the step text). -/
def selTry (useExplicit : Bool) (explicit_id : Option String)
    (filled : List String) (step_lower : String) :
    List SelectEl → Option (String × String)
  | [] => none
  | sel :: rest =>
    let sel_id := sel.id.getD ("")
    if sel_id.isEmpty ∨ sel_id ∈ filled then
      selTry useExplicit explicit_id filled step_lower rest
    else
      let normalized := sel.options.map normalizeOpt
      let id_match := substrOf (lower sel_id) step_lower ∨
        substrOf (lower (sel.name.getD (""))) step_lower
      let option_match := normalized.any (fun o =>
        ¬ o.isEmpty ∧ substrOf (lower o) step_lower)
      let explicit_id_match := useExplicit &&
        (match explicit_id with
         | some t => decide (lower t = lower sel_id)
         | none => false)
      if explicit_id_match ∨ id_match ∨ option_match then
        let selected :=
          match normalized.find? (fun o => ¬ o.isEmpty ∧ substrOf (lower o) step_lower) with
          | some o => o
          | none => normalized.headD ("")
        some (sel_id, selected)
      else selTry useExplicit explicit_id filled step_lower rest

/-- Branch 4: first matching checkbox id. -/
def cbTry (m : Matcher) (filled : List String) (step_lower : String) :
    List CheckboxEl → Option String
  | [] => none
  | cb :: rest =>
    let cb_id := cb.id.getD ("")
    if cb_id.isEmpty ∨ cb_id ∈ filled then cbTry m filled step_lower rest
    else
      let label := cb.label.getD ("")
      let id_match := substrOf (lower cb_id) step_lower
      let label_match := ¬ label.isEmpty ∧ (splitWs label).any (fun w =>
        3 < w.length ∧ substrOf (lower w) step_lower)
      let pr := match_checkbox_purpose m cb.label cb.id cb.name
      let semantic_match := 2/5 < pr.2 ∧ substrOf (lower cb_id) step_lower
      if id_match ∨ label_match ∨ semantic_match then some cb_id
      else cbTry m filled step_lower rest

def applyKeywords : List String := [("apply"), ("submit"), ("validate")]

def resultKeywords : List String := [("result"), ("message"), ("status")]

/-- The promo follow-up of branch 5: click the apply/submit/validate button
(if one with an id exists) and wait for a result/message/status dynamic
element. -/
def applyBtnLines (hs : HtmlStructure) : List String :=
  match hs.buttons.find? (fun b => applyKeywords.any (fun kw =>
    substrOf kw (lower (b.id.getD (""))) ∨ substrOf kw (lower (b.text.getD ("")))))
  with
  | some b =>
    if strTruthy b.id then
      (("    page.click_button('") ++ b.id.getD ("") ++ ("')")) ::
        (match hs.dynamic_elements.find? (fun d => resultKeywords.any (fun kw =>
          substrOf kw (lower (d.id.getD ("")))))
         with
         | some d => [("    page.wait_for_element('") ++ d.id.getD ("") ++ ("')")]
         | none => [])
    else []
  | none => []

/-- The fill value of branch 5 (input-type heuristics, promo-code lookup,
pattern generation). -/
def inputFillValue (m : Matcher) (di : DocIntel) (rng : Rng) (inp : InputEl)
    (clean_step : String) (numeric : List String) : String :=
  let inp_id := inp.id.getD ("")
  let input_type := inp.type.getD ("text")
  if input_type = ("number") ∧ ¬ numeric.isEmpty then numeric.headD ("")
  else if input_type = ("email") then emailVal rng
  else if input_type = ("tel") ∨ substrOf ("phone") (lower inp_id) then phoneVal rng
  else if substrOf ("zip") (lower inp_id) ∨ substrOf ("postal") (lower inp_id) then zipVal rng
  else if substrOf ("date") input_type then dateVal rng
  else if substrOf ("search") (lower inp_id) then
    (searchTermOf (lower clean_step)).getD ("test")
  else
    let pr := detect_input_purpose m inp.placeholder inp.id inp.name none (some input_type)
    if pr.1 = ("promo") ∧ 1/2 < pr.2 then
      let dv := di.extract_valid_input_value ("promo") inp_id inp
      if strTruthy dv.1 ∧ 7/10 < dv.2 then dv.1.getD ("")
      else
        match codeSearch clean_step with
        | some code => code
        | none => couponVal rng
    else if input_type = ("password") then passwordVal rng
    else ("Test Value")

/-- Branch 5: first matching text input; returns the emitted lines and the
filled id. -/
def inpTry (m : Matcher) (di : DocIntel) (rng : Rng) (hs : HtmlStructure)
    (filled : List String) (clean_step step_lower : String)
    (numeric : List String) : List InputEl → Option (List String × String)
  | [] => none
  | inp :: rest =>
    let inp_id := inp.id.getD ("")
    let inp_name := inp.name.getD ("")
    let inp_type := inp.type.getD ("text")
    if inp_type = ("checkbox") ∨ inp_type = ("radio") then
      inpTry m di rng hs filled clean_step step_lower numeric rest
    else if inp_id.isEmpty ∨ inp_id ∈ filled then
      inpTry m di rng hs filled clean_step step_lower numeric rest
    else
      let id_match := substrOf (lower inp_id) step_lower
      let name_match := ¬ inp_name.isEmpty ∧ substrOf (lower inp_name) step_lower
      if id_match ∨ name_match then
        let value := inputFillValue m di rng inp clean_step numeric
        let pr2 := detect_input_purpose m inp.placeholder inp.id inp.name none none
        let extra := if pr2.1 = ("promo") ∧ 1/2 < pr2.2 then applyBtnLines hs else []
        some ([("    # ") ++ clean_step,
               ("    page.fill_input_field('") ++ inp_id ++ ("', '") ++ value ++ ("')")] ++
              extra ++ [("")], inp_id)
      else inpTry m di rng hs filled clean_step step_lower numeric rest

/-- Branch 6: first matching radio input id (`step` is the unclean original
step text, as passed to `match_radio_option_intent` in the source). -/
def radioTry (m : Matcher) (filled : List String) (step step_lower : String) :
    List InputEl → Option String
  | [] => none
  | inp :: rest =>
    if ¬ (inp.type = some ("radio")) then radioTry m filled step step_lower rest
    else
      let radio_id := inp.id.getD ("")
      let radio_name := inp.name.getD ("")
      let radio_value := inp.value.getD ("")
      if radio_id.isEmpty ∨ radio_id ∈ filled then
        radioTry m filled step step_lower rest
      else
        let id_match := substrOf (lower radio_id) step_lower
        let value_match := ¬ radio_value.isEmpty ∧ substrOf (lower radio_value) step_lower
        -- `name_match` is computed in the source but absent from its `if`
        let _name_match := ¬ radio_name.isEmpty ∧ substrOf (lower radio_name) step_lower
        let semantic_match :=
          match match_radio_option_intent m step inp.id inp.value with
          | some x => decide (x = radio_id)
          | none => false
        if id_match ∨ value_match ∨ semantic_match = true then some radio_id
        else radioTry m filled step step_lower rest

/-- Branch 7: first matching button and its emitted click lines; returns
`(lines, ids to mark filled)`. -/
def btnTry (clean_step step_lower : String)
    (target_id target_class product_id : Option String)
    (filled : List String) : List ButtonEl → Option (List String × List String)
  | [] => none
  | btn :: rest =>
    let btn_id := btn.id.getD ("")
    let btn_text := btn.text.getD ("")
    let btn_cls := btn.cls.getD ("")
    let btn_onclick := btn.onclick.getD ("")
    if ¬ btn_id.isEmpty ∧ btn_id ∈ filled then
      btnTry clean_step step_lower target_id target_class product_id filled rest
    else
      let explicit_id_match := target_id.isSome ∧ ¬ btn_id.isEmpty ∧
        lower (target_id.getD ("")) = lower btn_id
      let explicit_cls_match := target_class.isSome ∧ ¬ btn_cls.isEmpty ∧
        substrOf (lower (target_class.getD (""))) (lower btn_cls)
      let onclick_product := product_id.isSome ∧ ¬ btn_onclick.isEmpty ∧
        substrOf (upperStr (product_id.getD (""))) (upperStr btn_onclick)
      let id_match := target_id.isNone ∧ ¬ btn_id.isEmpty ∧
        substrOf (lower btn_id) step_lower
      let text_match := ¬ btn_text.isEmpty ∧ substrOf (lower btn_text) step_lower
      let cls_match := target_class.isNone ∧ ¬ btn_cls.isEmpty ∧
        (splitWs btn_cls).any (fun c => substrOf (lower c) step_lower)
      if explicit_id_match ∨ explicit_cls_match ∨ onclick_product ∨ id_match ∨
          text_match ∨ cls_match then
        let act :=
          if ¬ btn_id.isEmpty then
            ([("    page.click_button('") ++ btn_id ++ ("')")], [btn_id])
          else if onclick_product ∧ product_id.isSome then
            ([("    page.click_button_by_onclick('") ++ product_id.getD ("") ++ ("')")], [])
          else if explicit_cls_match ∨ (target_class.isSome ∧ ¬ btn_cls.isEmpty) then
            let use_cls := if target_class.isSome then target_class.getD ("")
                           else (splitWs btn_cls).headD ("")
            ([("    page.click_button_by_class('") ++ use_cls ++ ("')")], [])
          else if ¬ btn_text.isEmpty then
            ([("    page.click_button_by_text('") ++ btn_text ++ ("')")], [])
          else if ¬ btn_cls.isEmpty then
            ([("    page.click_button_by_class('") ++ (splitWs btn_cls).headD ("") ++ ("')")], [])
          else ([], [])
        some (([("    # ") ++ clean_step] ++ act.1 ++ [("")]), act.2)
      else btnTry clean_step step_lower target_id target_class product_id filled rest

/-- A candidate element of the generic embedding fallback (branch 8), a copy
of the element with its tag. -/
inductive Cand where
  | inp : InputEl → Cand
  | btn : ButtonEl → Cand
  | sel : SelectEl → Cand
  deriving DecidableEq

/-- The synthetic description of `_find_semantic_match` (tag, then the
present attributes in source order; the option list is rendered for the
oracle the way `str(...)` would in spirit). -/
def candDesc : Cand → String
  | .inp e =>
    ("input ") ++
    (if strTruthy e.id then ("id='") ++ e.id.getD ("") ++ ("' ") else ("")) ++
    (if strTruthy e.name then ("name='") ++ e.name.getD ("") ++ ("' ") else ("")) ++
    (if strTruthy e.placeholder then ("placeholder='") ++ e.placeholder.getD ("") ++ ("' ") else (""))
  | .btn e =>
    ("button ") ++
    (if strTruthy e.text then ("text='") ++ e.text.getD ("") ++ ("' ") else ("")) ++
    (if strTruthy e.id then ("id='") ++ e.id.getD ("") ++ ("' ") else ("")) ++
    (if strTruthy e.cls then ("class='") ++ e.cls.getD ("") ++ ("' ") else ("")) ++
    (if strTruthy e.onclick then ("onclick='") ++ e.onclick.getD ("") ++ ("' ") else (""))
  | .sel e =>
    ("select ") ++
    (if strTruthy e.id then ("id='") ++ e.id.getD ("") ++ ("' ") else ("")) ++
    (if strTruthy e.name then ("name='") ++ e.name.getD ("") ++ ("' ") else ("")) ++
    (if e.options.isEmpty then ("")
     else ("options='") ++ joinSep ((", ")) (e.options.map normalizeOpt) ++ ("'"))

/-- `np.argmax` scan of `_find_semantic_match`: first candidate of maximal
similarity, accepted at `>= threshold`. -/
def findSemanticMatch (m : Matcher) (step_text : String) (cands : List Cand)
    (threshold : ℚ) : Option Cand :=
  match cands with
  | [] => none
  | c0 :: rest =>
    let best := rest.foldl (fun acc c =>
      let s := m.sim step_text (candDesc c)
      if acc.2 < s then (c, s) else acc) (c0, m.sim step_text (candDesc c0))
    if threshold ≤ best.2 then some best.1 else none

def finalActionIntents : List String :=
  [("submit the form"), ("complete the action"), ("finalize transaction"),
   ("proceed with operation"), ("confirm and continue"), ("finish the process")]

/-- `_is_final_action_step`: maximal similarity to the finalize intents. -/
def isFinalActionScore (m : Matcher) (step_text : String) : ℚ :=
  maxSim m step_text finalActionIntents

def negativeActions : List String :=
  [("cancel"), ("back"), ("close"), ("abort"), ("dismiss"), ("exit"),
   ("quit"), ("reject"), ("decline"), ("delete"), ("remove"), ("discard"),
   ("clear"), ("reset")]

/-- Camel-case splitting `re.sub(r'([a-z])([A-Z])', r'\1 \2', s)` (the scan
resumes after each replaced pair). -/
def camelSplit : List Char → List Char
  | [] => []
  | [c] => [c]
  | a :: b :: rest =>
    if ('a' ≤ a ∧ a ≤ 'z') ∧ ('A' ≤ b ∧ b ≤ 'Z') then
      a :: ' ' :: b :: camelSplit rest
    else a :: camelSplit (b :: rest)

/-- The button description of `_find_submit_button_semantic`. -/
def submitDesc (b : ButtonEl) : String :=
  let parts :=
    (if strTruthy b.text then [b.text.getD ("")] else []) ++
    (if strTruthy b.onclick then
      [⟨camelSplit (((b.onclick.getD ("")).data).filter
        (fun c => ¬ (c = '(' ∨ c = ')' ∨ c = ';' ∨ c = '"')))⟩]
     else []) ++
    (if strTruthy b.id then [dashToSpace (b.id.getD (""))] else []) ++
    (if strTruthy b.cls then [dashToSpace (b.cls.getD (""))] else [])
  lower (joinSep (" ") parts)

/-- `_find_submit_button_semantic`: prefer an explicit `type="submit"`
button; otherwise rank the describable buttons by similarity to the mean
submit intent, skipping negative-action buttons and boosting type `button`
and `onclick` handlers; accept above 0.30, else fall back to the last
button. -/
def findSubmitButton (m : Matcher) (hs : HtmlStructure) : Option ButtonEl :=
  match hs.buttons with
  | [] => none
  | _ =>
    match hs.buttons.find? (fun b => b.type = some ("submit")) with
    | some b => some b
    | none =>
      let valid := hs.buttons.filter (fun b => ¬ (submitDesc b).isEmpty)
      if valid.isEmpty then none
      else
        let best := valid.foldl (fun acc b =>
          if negativeActions.any (fun neg =>
              substrOf neg (lower (b.text.getD (""))) ∨
              substrOf neg (lower (b.id.getD ("")))) then acc
          else
            let s0 := m.submitSim (submitDesc b)
            let s1 := if b.type = some ("button") then s0 * (11/10) else s0
            let s2 := if strTruthy b.onclick then s1 * (23/20) else s1
            if acc.2 < s2 then (some b, s2) else acc)
          ((none : Option ButtonEl), (-1 : ℚ))
        if 3/10 < best.2 then best.1 else hs.buttons.getLast?

/-- The branch-9 fill value by input type. -/
def finalFillValue (rng : Rng) (ty : String) : String :=
  if ty = ("email") then emailVal rng
  else if ty = ("tel") then phoneVal rng
  else if ty = ("number") then ("1")
  else ("Test Value")

/-- The branch-8 emission: lines and ids to mark for the semantically
matched element. -/
def semanticEmit (rng : Rng) (clean_step : String) (c : Cand) :
    List String × List String :=
  let elem_id := match c with
    | .inp e => e.id.getD ("")
    | .btn e => e.id.getD ("")
    | .sel e => e.id.getD ("")
  let tagName := match c with
    | .inp _ => ("input")
    | .btn _ => ("button")
    | .sel _ => ("select")
  let display := if ¬ elem_id.isEmpty then elem_id
    else match c with
      | .btn e => e.text.getD ("N/A")
      | _ => ("N/A")
  let header := ("    # ") ++ clean_step ++ (" (Semantic Match: ") ++ tagName ++
    (" ") ++ display ++ (")")
  match c with
  | .btn e =>
    if ¬ elem_id.isEmpty then
      ([header, ("    page.click_button('") ++ elem_id ++ ("')"), ("")], [elem_id])
    else if strTruthy e.text then
      ([header, ("    page.click_button_by_text('") ++ e.text.getD ("") ++ ("')"), ("")], [])
    else if strTruthy e.cls then
      ([header, ("    page.click_button_by_class('") ++ (splitWs (e.cls.getD (""))).headD ("") ++ ("')"), ("")], [])
    else
      match e.onclick with
      | some oc =>
        (match productSearch oc with
         | some pid => ([header, ("    page.click_button_by_onclick('") ++ pid ++ ("')"), ("")], [])
         | none => ([header, ("")], []))
      | none => ([header, ("")], [])
  | .inp e =>
    let val := finalFillValue rng (e.type.getD ("text"))
    ([header, ("    page.fill_input_field('") ++ elem_id ++ ("', '") ++ val ++ ("')"), ("")], [elem_id])
  | .sel e =>
    let val := match e.options.headD (OptVal.s ("")) with
      | .s v => v
      | .o _ v _ => v.getD ("")
    let val := if e.options.isEmpty then ("") else val
    ([header, ("    page.select_dropdown_option('") ++ elem_id ++ ("', '") ++ val ++ ("')"), ("")], [elem_id])

/-- Branch 9: the implicit-submit emission (fill remaining simple inputs
with defaults, check remaining terms/consent checkboxes, click the best
submit button).  Takes and returns the full accumulated body, since the
blank-line guard inspects the last line emitted so far. -/
def finalActionEmit (m : Matcher) (rng : Rng) (hs : HtmlStructure)
    (filled : List String) (clean_step : String) (body : List String) :
    List String :=
  let fills := (hs.inputs.filter (fun inp =>
      strTruthy inp.id ∧ inp.id.getD ("") ∉ filled ∧
        (inp.type.getD ("text")) ∈ [("text"), ("email"), ("tel"), ("number")])).map
    (fun inp => ("    page.fill_input_field('") ++ inp.id.getD ("") ++ ("', '") ++
      finalFillValue rng (inp.type.getD ("text")) ++ ("')"))
  let checks := (hs.checkboxes.filter (fun cb =>
      strTruthy cb.id ∧ cb.id.getD ("") ∉ filled ∧
        [("term"), ("agree"), ("accept"), ("consent")].any (fun kw =>
          substrOf kw (lower (cb.label.getD ("")))))).map
    (fun cb => ("    page.check_checkbox('") ++ cb.id.getD ("") ++ ("')"))
  let body1 := body ++ fills ++ checks
  let body2 := if ¬ body1.isEmpty ∧ body1.getLast? ≠ some ("") then body1 ++ [("")] else body1
  match findSubmitButton m hs with
  | some sb =>
    let sid := sb.id.getD ("")
    let stext := sb.text.getD ("")
    let scls := sb.cls.getD ("")
    let clickLines :=
      if ¬ sid.isEmpty then
        (if sb.disabled then [("    page.wait_button_enabled('") ++ sid ++ ("')")] else []) ++
          [("    page.click_button('") ++ sid ++ ("')")]
      else if ¬ stext.isEmpty then [("    page.click_button_by_text('") ++ stext ++ ("')")]
      else if ¬ scls.isEmpty then
        [("    page.click_button_by_class('") ++ (splitWs scls).headD ("") ++ ("')")]
      else []
    body2 ++ [("    # ") ++ clean_step] ++ clickLines ++ [("")]
  | none => body2

/-- One iteration of the `_generate_generic_fallback` step loop: the
priority-ordered classifier cascade (verification, gated select, fallback
select, checkbox, text input, radio, button, generic embedding fallback,
final action).  State is `(filled_fields, body)`. -/
def processStep (m : Matcher) (di : DocIntel) (rng : Rng) (hs : HtmlStructure)
    (st : List String × List String) (step : String) : List String × List String :=
  let filled := st.1
  let body := st.2
  let clean_step := cleanStepOf step
  let step_lower := lower clean_step
  let explicit_id := attrSearch ("id") clean_step
  let explicit_cls := attrSearch ("class") clean_step
  let numeric := digitRuns clean_step
  let ver := is_verification_step m clean_step
  if ver.1 ∧ 3/10 < ver.2 then
    (filled, body ++ [("    # VERIFICATION: ") ++ clean_step,
                      ("    # TODO: Implement assertion for this verification step"), ("")])
  else
    let selGated :=
      if (match_select_action m step_lower).1 then
        selTry true explicit_id filled step_lower hs.selects
      else none
    match selGated with
    | some r =>
      (filled ++ [r.1],
       body ++ [("     # ") ++ clean_step,
                ("    page.select_dropdown_option('") ++ r.1 ++ ("', '") ++ r.2 ++ ("')"), ("")])
    | none =>
      match selTry false none filled step_lower hs.selects with
      | some r =>
        (filled ++ [r.1],
         body ++ [("     # ") ++ clean_step,
                  ("    page.select_dropdown_option('") ++ r.1 ++ ("', '") ++ r.2 ++ ("')"), ("")])
      | none =>
        match cbTry m filled step_lower hs.checkboxes with
        | some cb_id =>
          (filled ++ [cb_id],
           body ++ [("    # ") ++ clean_step,
                    ("    page.check_checkbox('") ++ cb_id ++ ("')"), ("")])
        | none =>
          match inpTry m di rng hs filled clean_step step_lower numeric hs.inputs with
          | some r => (filled ++ [r.2], body ++ r.1)
          | none =>
            match radioTry m filled step step_lower hs.inputs with
            | some radio_id =>
              (filled ++ [radio_id],
               body ++ [("    # ") ++ clean_step,
                        ("    page.select_radio('") ++ radio_id ++ ("')"), ("")])
            | none =>
              let btnGated :=
                if (match_button_action m step_lower).1 then
                  btnTry clean_step step_lower explicit_id explicit_cls
                    (productSearch clean_step) filled hs.buttons
                else none
              match btnGated with
              | some r => (filled ++ r.2, body ++ r.1)
              | none =>
                let cands :=
                  (hs.inputs.filter (fun e => strTruthy e.id ∧ e.id.getD ("") ∉ filled)).map Cand.inp ++
                  (hs.buttons.filter (fun e => ¬ (strTruthy e.id ∧ e.id.getD ("") ∈ filled))).map Cand.btn ++
                  (hs.selects.filter (fun e => strTruthy e.id ∧ e.id.getD ("") ∉ filled)).map Cand.sel
                match findSemanticMatch m step_lower cands (7/20) with
                | some c =>
                  let r := semanticEmit rng clean_step c
                  (filled ++ r.2, body ++ r.1)
                | none =>
                  if 7/20 < isFinalActionScore m step_lower then
                    (filled, finalActionEmit m rng hs filled clean_step body)
                  else (filled, body)

/-- A test step of a generated case: the dicts occasionally produced by the
model carry a `description` key (`raw` stands for `str(step)`). -/
inductive StepItem where
  | s : String → StepItem
  | d : Option String → String → StepItem

def normalizeStepItem : StepItem → String
  | .s v => v
  | .d desc raw => desc.getD raw

/-- `DeterministicSeleniumGenerator._generate_generic_fallback`: normalise
the steps and run the per-step classifier cascade over them. -/
def generate_generic_fallback (m : Matcher) (di : DocIntel) (rng : Rng)
    (hs : HtmlStructure) (steps : List StepItem) : List String :=
  ((steps.map normalizeStepItem).foldl (processStep m di rng hs) ([], [])).2

/-! ## JSON: values, strict parser (model of `json.loads`), and the repair
utilities of `llm_service/json_utils.py`

Numbers are kept as exact lexeme parts.  String escapes cover the JSON
simple escapes and non-surrogate `\uXXXX`; lone surrogates (which CPython
would keep) have no `Char` representation and make the model parser fail —
no theorem below depends on an input containing `\u`. -/

inductive JValue where
  | null : JValue
  | bool : Bool → JValue
  | num : Bool → List Char → List Char → List Char → JValue
  | str : String → JValue
  | arr : List JValue → JValue
  | obj : List (String × JValue) → JValue

/-- JSON whitespace (`json.loads` skips exactly space, tab, newline,
carriage return). -/
def isJsonWs (c : Char) : Bool :=
  c = ' ' ∨ c = '\t' ∨ c = '\n' ∨ c = '\x0d'

def hexVal (c : Char) : Option ℕ :=
  if '0' ≤ c ∧ c ≤ '9' then some (c.toNat - '0'.toNat)
  else if 'a' ≤ c ∧ c ≤ 'f' then some (c.toNat - 'a'.toNat + 10)
  else if 'A' ≤ c ∧ c ≤ 'F' then some (c.toNat - 'A'.toNat + 10)
  else none

/-- Strict JSON string body parser (input begins after the opening quote). -/
def parseStr : List Char → Option (String × List Char)
  | [] => none
  | c :: rest =>
    if c = '"' then some (("") , rest)
    else if c = '\\' then
      match rest with
      | [] => none
      | e :: r2 =>
        let esc : Option Char :=
          if e = '"' then some '"'
          else if e = '\\' then some '\\'
          else if e = '/' then some '/'
          else if e = 'b' then some '\x08'
          else if e = 'f' then some '\x0c'
          else if e = 'n' then some '\n'
          else if e = 'r' then some '\x0d'
          else if e = 't' then some '\t'
          else none
        match esc with
        | some ch => (parseStr r2).map (fun p => (⟨ch :: p.1.data⟩, p.2))
        | none =>
          if e = 'u' then
            match r2 with
            | h1 :: h2 :: h3 :: h4 :: r3 =>
              match hexVal h1, hexVal h2, hexVal h3, hexVal h4 with
              | some a, some b, some c2, some d =>
                let n := ((a * 16 + b) * 16 + c2) * 16 + d
                if n.isValidChar then
                  (parseStr r3).map (fun p => (⟨Char.ofNat n :: p.1.data⟩, p.2))
                else none
              | _, _, _, _ => none
            | _ => none
          else none
    else if c.toNat < 0x20 then none
    else (parseStr rest).map (fun p => (⟨c :: p.1.data⟩, p.2))

/-- Fraction and exponent tail of a strict JSON number. -/
def parseFracExp (neg : Bool) (ip : List Char) (l : List Char) :
    Option (JValue × List Char) :=
  let fr : Option (List Char × List Char) :=
    match l with
    | '.' :: t =>
      let ds := t.takeWhile isDigitCh
      if ds.isEmpty then none else some (ds, t.dropWhile isDigitCh)
    | _ => some ([], l)
  match fr with
  | none => none
  | some (frac, l2) =>
    match l2 with
    | e :: t2 =>
      if e = 'e' ∨ e = 'E' then
        let (sgn, t3) : List Char × List Char :=
          match t2 with
          | '+' :: u => (['+'], u)
          | '-' :: u => (['-'], u)
          | _ => ([], t2)
        let ds := t3.takeWhile isDigitCh
        if ds.isEmpty then none
        else some (JValue.num neg ip frac (e :: sgn ++ ds), t3.dropWhile isDigitCh)
      else some (JValue.num neg ip frac [], l2)
    | [] => some (JValue.num neg ip frac [], l2)

/-- Strict JSON number parser (`-?(0|[1-9][0-9]*)(\.[0-9]+)?([eE][+-]?[0-9]+)?`). -/
def parseNum (l : List Char) : Option (JValue × List Char) :=
  let (neg, l1) : Bool × List Char :=
    match l with
    | '-' :: t => (true, t)
    | _ => (false, l)
  match l1 with
  | '0' :: t => parseFracExp neg ['0'] t
  | c :: t =>
    if isDigitCh c then
      parseFracExp neg (c :: t.takeWhile isDigitCh) (t.dropWhile isDigitCh)
    else none
  | [] => none

mutual

/-- Strict JSON value parser; the fuel only bounds recursion depth and is
set generously by `jsonLoads`. -/
def parseVal : ℕ → List Char → Option (JValue × List Char)
  | 0, _ => none
  | f + 1, l =>
    match l.dropWhile isJsonWs with
    | 'n' :: 'u' :: 'l' :: 'l' :: r => some (JValue.null, r)
    | 't' :: 'r' :: 'u' :: 'e' :: r => some (JValue.bool true, r)
    | 'f' :: 'a' :: 'l' :: 's' :: 'e' :: r => some (JValue.bool false, r)
    | '"' :: r => (parseStr r).map (fun p => (JValue.str p.1, p.2))
    | '\x7b' :: r =>
      (match r.dropWhile isJsonWs with
       | '\x7d' :: r2 => some (JValue.obj [], r2)
       | _ => parseObjItems f r [])
    | '[' :: r =>
      (match r.dropWhile isJsonWs with
       | ']' :: r2 => some (JValue.arr [], r2)
       | _ => parseArrItems f r [])
    | c :: r => if c = '-' ∨ isDigitCh c then parseNum (c :: r) else none
    | [] => none

/-- Array items (after `[`, when the array is not empty). -/
def parseArrItems : ℕ → List Char → List JValue → Option (JValue × List Char)
  | 0, _, _ => none
  | f + 1, l, acc =>
    match parseVal f l with
    | none => none
    | some (v, r) =>
      match r.dropWhile isJsonWs with
      | ',' :: r2 => parseArrItems f r2 (v :: acc)
      | ']' :: r2 => some (JValue.arr (acc.reverse ++ [v]), r2)
      | _ => none

/-- Object items (after `{`, when the object is not empty). -/
def parseObjItems : ℕ → List Char → List (String × JValue) →
    Option (JValue × List Char)
  | 0, _, _ => none
  | f + 1, l, acc =>
    match l.dropWhile isJsonWs with
    | '"' :: r1 =>
      (match parseStr r1 with
       | none => none
       | some (k, r2) =>
         match r2.dropWhile isJsonWs with
         | ':' :: r3 =>
           (match parseVal f r3 with
            | none => none
            | some (v, r4) =>
              match r4.dropWhile isJsonWs with
              | ',' :: r5 => parseObjItems f r5 ((k, v) :: acc)
              | '\x7d' :: r5 => some (JValue.obj (acc.reverse ++ [(k, v)]), r5)
              | _ => none)
         | _ => none)
    | _ => none

end

/-- `json.loads`: parse one value, then require only whitespace to follow. -/
def jsonLoads (s : String) : Option JValue :=
  match parseVal (s.length + 1) s.data with
  | some (v, rest) => if (rest.dropWhile isJsonWs).isEmpty then some v else none
  | none => none

/-! ## `llm_service/json_utils.py` -/

/-- The scan of `re.sub(r',\s*([}\]])', r'\1', text)` as a one-pass state
machine: `pending = some buf` holds a comma followed by whitespace (stored
reversed) whose fate depends on the next non-whitespace character — dropped
before a closer, re-emitted verbatim otherwise.  Equivalent to the regex
sub: a match attempt at a comma succeeds iff the next non-whitespace
character is `}` or `]` (backtracking inside `\s*` cannot help, since every
shorter whitespace run is followed by a whitespace character, which is not a
closer), and the scan resumes after the emitted closer. -/
def sccGo : Option (List Char) → List Char → List Char
  | none, [] => []
  | some buf, [] => buf.reverse
  | none, c :: rest =>
    if c = ',' then sccGo (some [c]) rest
    else c :: sccGo none rest
  | some buf, c :: rest =>
    if c = '\x7d' ∨ c = ']' then c :: sccGo none rest
    else if isWs c then sccGo (some (c :: buf)) rest
    else if c = ',' then buf.reverse ++ sccGo (some [c]) rest
    else buf.reverse ++ (c :: sccGo none rest)

def subCommaClose (l : List Char) : List Char := sccGo none l

/-- The scan of `re.sub(r'}\s*{', '},{', text)` as the same kind of state
machine: a pending `}` plus whitespace becomes `},{` when the next
non-whitespace character is `{` (the whitespace is dropped), and is
re-emitted verbatim otherwise. -/
def bbGo : Option (List Char) → List Char → List Char
  | none, [] => []
  | some buf, [] => buf.reverse
  | none, c :: rest =>
    if c = '\x7d' then bbGo (some [c]) rest
    else c :: bbGo none rest
  | some buf, c :: rest =>
    if c = '\x7b' then '\x7d' :: ',' :: '\x7b' :: bbGo none rest
    else if isWs c then bbGo (some (c :: buf)) rest
    else if c = '\x7d' then buf.reverse ++ bbGo (some [c]) rest
    else buf.reverse ++ (c :: bbGo none rest)

def subBraceBrace (l : List Char) : List Char := bbGo none l

/-- `json_utils.repair_json`. -/
def repair_json (text : String) : String :=
  let t1 := subBraceBrace (subCommaClose text.data)
  let t2 :=
    if t1.count '\x7d' < t1.count '\x7b' then
      t1 ++ List.replicate (t1.count '\x7b' - t1.count '\x7d') '\x7d'
    else t1
  let t3 :=
    if t2.count ']' < t2.count '[' then
      t2 ++ List.replicate (t2.count '[' - t2.count ']') ']'
    else t2
  let cleaned := stripL t3
  let wrap :=
    (match cleaned with | '\x7b' :: _ => true | _ => false) &&
    (match cleaned.reverse with | '\x7d' :: _ => true | _ => false) &&
    !(match cleaned with | '[' :: _ => true | _ => false)
  if wrap then ⟨'[' :: cleaned ++ [']']⟩ else ⟨cleaned⟩

/-- Python `str.replace(needle, "")` (the scan skips each occurrence; the
`fuel` is only for termination — every skip consumes at least one character,
so `removeAll` never exhausts it). -/
def removeAllF (needle : List Char) : ℕ → List Char → List Char
  | 0, l => l
  | _, [] => []
  | f + 1, c :: rest =>
    if needle.isPrefixOf (c :: rest) ∧ ¬ needle.isEmpty then
      removeAllF needle f ((c :: rest).drop needle.length)
    else c :: removeAllF needle f rest

def removeAll (needle l : List Char) : List Char := removeAllF needle l.length l

/-- The index of the first occurrence of `c`. -/
def firstIdx (c : Char) (l : List Char) : Option ℕ := l.findIdx? (· = c)

/-- The index of the last occurrence of `c`. -/
def lastIdx (c : Char) (l : List Char) : Option ℕ :=
  match (l.reverse.findIdx? (· = c)) with
  | some j => some (l.length - 1 - j)
  | none => none

/-- The greedy span `first open ... last close` used by the `[...]` / `{...}`
extraction regexes and by `aggressive_json_extraction` (`find`/`rfind`):
present iff the first opener has some closer after it, in which case the
match runs to the last closer of the whole text. -/
def extractSpan (o c : Char) (l : List Char) : Option (List Char) :=
  match firstIdx o l, lastIdx c l with
  | some i, some j => if i < j then some ((l.drop i).take (j - i + 1)) else none
  | _, _ => none

/-- `json_utils.extract_json_from_response` (stop token `</END_JSON>`). -/
def extract_json_from_response (text : String) : String :=
  let t := removeAll (("</END_JSON>").data) text.data
  match extractSpan '[' ']' t with
  | some m => ⟨m⟩
  | none =>
    match extractSpan '\x7b' '\x7d' t with
    | some m => ⟨m⟩
    | none => ⟨t⟩

/-- `json_utils.aggressive_json_extraction` (`find('[')`/`rfind(']')`
require `end > start`, exactly the span condition above). -/
def aggressive_json_extraction (raw_text : String) : String :=
  match extractSpan '[' ']' raw_text.data with
  | some m => repair_json ⟨m⟩
  | none =>
    match extractSpan '\x7b' '\x7d' raw_text.data with
    | some m => repair_json ⟨m⟩
    | none => ("[]")

/-- The non-greedy `\{[\s\S]*?\}` matches of `re.finditer`: from each `{`
(outside a previous match) to the nearest following `}` (`fuel` is for
termination only — every span consumes at least one character). -/
def lazySpansF : ℕ → List Char → List (List Char)
  | 0, _ => []
  | _, [] => []
  | f + 1, c :: rest =>
    if c = '\x7b' then
      match rest.findIdx? (· = '\x7d') with
      | some j => ('\x7b' :: (rest.take j) ++ ['\x7d']) :: lazySpansF f (rest.drop (j + 1))
      | none => []
    else lazySpansF f rest

def lazyBraceSpans (l : List Char) : List (List Char) := lazySpansF l.length l

/-- A parsed test-case dict. -/
abbrev JObj := List (String × JValue)

/-- Python dict lookup on an object decoded from JSON (duplicate keys: the
last wins). -/
def objGetLast (o : JObj) (k : String) : Option JValue :=
  (o.filter (fun p => p.1 = k)).getLast?.map (fun p => p.2)

/-- Dict assignment (key order is immaterial to every claim; the updated
key is re-appended). -/
def objSet (o : JObj) (k : String) (v : JValue) : JObj :=
  o.filter (fun p => p.1 ≠ k) ++ [(k, v)]

/-- `json_utils.secondary_json_format_pass`: repair and parse each lazy
`{...}` span, collecting dicts (flattening parsed lists), stopping once 10
are collected. -/
def secondaryCollect (acc : List JObj) (m : List Char) : List JObj :=
  match jsonLoads (repair_json ⟨m⟩) with
  | some (JValue.obj o) => acc ++ [o]
  | some (JValue.arr xs) => acc ++ xs.filterMap (fun v =>
      match v with
      | JValue.obj o => some o
      | _ => none)
  | _ => acc

def secondaryGo : List (List Char) → List JObj → List JObj
  | [], acc => acc
  | m :: rest, acc =>
    let acc2 := secondaryCollect acc m
    if 10 ≤ acc2.length then acc2 else secondaryGo rest acc2

def secondary_json_format_pass (raw_text : String) : List JObj :=
  secondaryGo (lazyBraceSpans raw_text.data) []

/-! ## The response-normalization portion of
`generate_test_cases.generate_test_cases` (lines 179-376) -/

/-- Its three outcomes: the unparseable-JSON payload (empty case list), the
AI/ML-unavailable payload (empty case list), or a case list. -/
inductive NormOutcome where
  | parseError : String → NormOutcome
  | unavailable : String → NormOutcome
  | cases : List JObj → NormOutcome

/-- The `test_cases` list of the returned payload. -/
def outcomeCases : NormOutcome → List JObj
  | .cases l => l
  | _ => []

/-- The `isinstance` cascade over the parsed response (lines 209-236).  (A
`test_cases` key holding a non-list is iterated by Python — lists yield
elements, strings yield characters; other scalars would raise, but every
theorem below stays on inputs that cannot reach an object here.) -/
def casesFromJson (j : JValue) : List JValue :=
  match j with
  | JValue.arr xs => xs
  | JValue.obj o =>
    (match objGetLast o (("test_cases")) with
     | some (JValue.arr xs) => xs
     | some (JValue.str s) => s.data.map (fun c => JValue.str ⟨[c]⟩)
     | some v => [v]
     | none => if 0 < o.length then [JValue.obj o] else [])
  | JValue.str s =>
    let stripped := strip s
    if ((match stripped.data with | '[' :: _ => true | _ => false) &&
        (match stripped.data.reverse with | ']' :: _ => true | _ => false)) ||
       ((match stripped.data with | '\x7b' :: _ => true | _ => false) &&
        (match stripped.data.reverse with | '\x7d' :: _ => true | _ => false)) then
      match jsonLoads stripped with
      | some (JValue.arr xs) => xs
      | some (JValue.obj o) => [JValue.obj o]
      | _ => []
    else []
  | _ => []

/-- The string-item recovery of the normalization loop (lines 243-265). -/
def normalizeItem (v : JValue) : Option JObj :=
  match v with
  | JValue.obj o => some o
  | JValue.str s =>
    let cand := strip s
    if ((match cand.data with | '\x7b' :: _ => true | _ => false) &&
        (match cand.data.reverse with | '\x7d' :: _ => true | _ => false)) then
      match jsonLoads (repair_json cand) with
      | some (JValue.obj o) => some o
      | _ => none
    else none
  | _ => none

/-- Split on `[\n;>|]+` (the dict-level `test_steps` coercion of lines
267-271). -/
def splitStepSeps2 (s : String) : List String :=
  go s.data []
where
  go : List Char → List Char → List String
    | [], [] => []
    | [], cur => [⟨cur.reverse⟩]
    | c :: rest, cur =>
      if c = '\n' ∨ c = ';' ∨ c = '>' ∨ c = '|' then
        match cur with
        | [] => go rest []
        | _ => (⟨cur.reverse⟩ : String) :: go rest []
      else go rest (c :: cur)

/-- The dict-level `test_steps` string-to-list coercion. -/
def coerceObjSteps (o : JObj) : JObj :=
  match objGetLast o (("test_steps")) with
  | some (JValue.str s) =>
    let steps := (((splitStepSeps2 s).map strip).filter (fun p => ¬ p.isEmpty)).take 6
    let steps := if steps.isEmpty then [("Step 1"), ("Step 2")] else steps
    objSet o (("test_steps")) (JValue.arr (steps.map JValue.str))
  | _ => o

/-- Split on newlines (`str.splitlines`; `\r` remnants are removed by the
per-line `strip` applied at every use). -/
def splitLines (s : String) : List String :=
  go s.data []
where
  go : List Char → List Char → List String
    | [], [] => []
    | [], cur => [⟨cur.reverse⟩]
    | c :: rest, cur =>
      if c = '\n' then (⟨cur.reverse⟩ : String) :: go rest []
      else go rest (c :: cur)

/-- `re.sub(r"^(User\s+)", "", line, flags=re.IGNORECASE)`. -/
def stripUserPrefix (s : String) : String :=
  match stripPrefixCI (("user").data) s.data with
  | some rest =>
    (match rest with
     | c :: _ => if isWs c then ⟨rest.dropWhile isWs⟩ else s
     | [] => s)
  | none => s

/-- `re.sub(r"\.\.\.$", "", line)`. -/
def stripEllipsis (s : String) : String :=
  if endsWith (("...")) s then ⟨s.data.take (s.data.length - 3)⟩ else s

/-- The synthesized fallback test case of lines 361-374 (reachable only when
`used_chunks` is empty — see `normalizeResponse`). -/
def synthesizedCase (prompt : String) (step_lines : List String) : JObj :=
  [(("test_id"), JValue.str (("TC-001"))),
   (("feature"), JValue.str (("Form Validation"))),
   (("test_scenario"), JValue.str ⟨(strip prompt).data.take 160⟩),
   (("test_steps"), JValue.arr (step_lines.map JValue.str)),
   (("expected_result"), JValue.str (("Form submission completes successfully with expected behavior"))),
   (("test_type"), JValue.str (("positive"))),
   (("priority"), JValue.str (("high"))),
   (("grounded_in"), JValue.str (("unknown"))),
   (("_fallback_synthesized"), JValue.bool true),
   (("_aiml_semantic_extraction"), JValue.bool true),
   (("_review_reason"), JValue.str (("Synthesized using AI/ML semantic extraction due to unparseable LLM output"))),
   (("needs_review"), JValue.bool true)]

/-- The response-normalization cascade of `generate_test_cases` (lines
179-376), from the raw backend text to the payload.  Uncaught Python
exceptions are the `Except.error` case: the semantic-synthesis path calls
`classify_document_type` without unpacking its `(type, score)` tuple and
then calls `.lower()` on the tuple (line 345), so it raises `AttributeError`
whenever `used_chunks` is non-empty (contrast the correctly unpacked call in
`ranking.classify_document_type`). -/
def normalizeResponse (avail : Bool) (m : Matcher) (used_chunks : List Chunk)
    (prompt : String) (raw_response : String) : Except String NormOutcome :=
  let response_text := repair_json (extract_json_from_response raw_response)
  let parsed : Option JValue :=
    match jsonLoads response_text with
    | some j => some j
    | none => jsonLoads (aggressive_json_extraction raw_response)
  match parsed with
  | none => .ok (.parseError (("LLM returned unparseable JSON")))
  | some response_json =>
    let test_cases := casesFromJson response_json
    let dicts := (test_cases.filterMap normalizeItem).map coerceObjSteps
    let tc2 :=
      if dicts.isEmpty then
        match jsonLoads (aggressive_json_extraction raw_response) with
        | some (JValue.arr xs) => xs.filterMap (fun v =>
            match v with
            | JValue.obj o => some o
            | _ => none)
        | some (JValue.obj o) => [o]
        | _ => []
      else dicts
    let tc3 := if tc2.isEmpty then secondary_json_format_pass raw_response else tc2
    if ¬ tc3.isEmpty then .ok (.cases tc3)
    else if avail = false then
      .ok (.unavailable (("LLM output unparseable and AI/ML fallback unavailable")))
    else
      let raw_lines := ((splitLines raw_response).map strip).filter (fun l => ¬ l.isEmpty)
      let kept := raw_lines.filter (fun ln =>
        (is_verification_step m ln).1 ∨ (match_button_action m ln).1 ∨
          (match_select_action m ln).1)
      let step_lines := (kept.map (fun ln => stripUserPrefix (stripEllipsis ln))).take 8
      let step_lines := if step_lines.isEmpty then
          [("Navigate to the application page"), ("Complete the required form fields")]
        else step_lines
      if ¬ used_chunks.isEmpty then
        .error (("AttributeError: tuple object has no attribute lower"))
      else .ok (.cases [synthesizedCase prompt step_lines])

/-! ## Heap model for frame properties of `hybrid_rank_chunks`

Python chunk dicts are heap objects; `hybrid_rank_chunks` receives a list of
references, copies each dict (`new_chunk = dict(chunk)`), writes the
annotations to the copy only, and sorts a fresh list of the copies.  The
heap is a map from addresses to chunk values together with an allocation
watermark: every live input address is below `next`, and an allocation
returns the watermark as the fresh address. -/

structure Heap where
  mem : ℕ → Chunk
  next : ℕ

/-- Allocate a fresh object, returning the new heap and its address. -/
def Heap.alloc (h : Heap) (c : Chunk) : Heap × ℕ :=
  ({ mem := fun q => if q = h.next then c else h.mem q, next := h.next + 1 }, h.next)

/-- The annotation loop of `hybrid_rank_chunks` on the heap: read the input
dict, allocate the annotated copy, never write to an existing address. -/
def hybridRankLoop (lg : ℚ → ℚ) (cls : String → String) (stats : CorpusStats)
    (w : RankWeights) (query : String) : Heap → List ℕ → Heap × List ℕ
  | h, [] => (h, [])
  | h, p :: rest =>
    let a := Heap.alloc h (annotateChunk lg cls stats w query (h.mem p))
    let r := hybridRankLoop lg cls stats w query a.1 rest
    (r.1, a.2 :: r.2)

/-- `hybrid_rank_chunks` on the heap: annotate fresh copies of the input
chunks, then sort the fresh list of copies by `hybrid_score` (descending,
stable). -/
def hybrid_rank_chunks_heap (lg : ℚ → ℚ) (cls : String → String)
    (stats : CorpusStats) (w : RankWeights) (h : Heap) (ptrs : List ℕ)
    (query : String) : Heap × List ℕ :=
  let r := hybridRankLoop lg cls stats w query h ptrs
  (r.1, r.2.mergeSort (fun a b =>
    decide ((r.1.mem b).hybrid_score.getD 0 ≤ (r.1.mem a).hybrid_score.getD 0)))

/-! ## The input class of claim C9

Compact serializations of JSON arrays of flat string-valued objects, the
damage the claim describes (a trailing comma before each object's `}` and the
single closing `]` removed), and the value such an array parses to. -/

/-- Characters allowed in the keys and values of the C9 input class: no
quote, backslash, brace, bracket, comma or control character. -/
def tameCh (c : Char) : Bool :=
  decide (0x20 ≤ c.toNat ∧ c ≠ '"' ∧ c ≠ '\\' ∧ c ≠ '\x7b' ∧ c ≠ '\x7d' ∧
    c ≠ '[' ∧ c ≠ ']' ∧ c ≠ ',')

/-- `",".join` (compact JSON item separator). -/
def joinComma : List (List Char) → List Char
  | [] => []
  | [x] => x
  | x :: y :: rest => x ++ ',' :: joinComma (y :: rest)

/-- One serialized `"key":"value"` pair. -/
def dumpPair (p : List Char × List Char) : List Char :=
  '"' :: p.1 ++ '"' :: ':' :: '"' :: p.2 ++ ['"']

/-- The serialized pair list of one object. -/
def pairsDump (o : List (List Char × List Char)) : List Char :=
  joinComma (o.map dumpPair)

/-- A serialized object. -/
def objDump (o : List (List Char × List Char)) : List Char :=
  '\x7b' :: pairsDump o ++ ['\x7d']

/-- A serialized object with the trailing comma before its `}`. -/
def objDumpDamaged (o : List (List Char × List Char)) : List Char :=
  '\x7b' :: pairsDump o ++ [',', '\x7d']

/-- The damaged serialization of the whole array: trailing commas and the
closing `]` dropped. -/
def dumpArrDamaged (L : List (List (List Char × List Char))) : List Char :=
  '[' :: joinComma (L.map objDumpDamaged)

/-- The intact serialization of the whole array. -/
def dumpArrClean (L : List (List (List Char × List Char))) : List Char :=
  '[' :: joinComma (L.map objDump) ++ [']']

/-- The dict an object serializes. -/
def objJ (o : List (List Char × List Char)) : JValue :=
  JValue.obj (o.map (fun p => (⟨p.1⟩, JValue.str ⟨p.2⟩)))

/-- The list-of-dicts value the array serializes. -/
def arrJ (L : List (List (List Char × List Char))) : JValue :=
  JValue.arr (L.map objJ)

/-! ## Theorems -/

/-- Helper for C4: the greedy accept loop keeps the running total of chunk
token estimates within the budget. -/
theorem selectChunks_sum_le (m : ℤ) (l : List Chunk) (total : ℤ) (h : total ≤ m) :
    total + ((selectChunks m l total).map
      (fun c => (estimate_tokens (c.text.getD ("")) : ℤ))).sum ≤ m := by
  induction l generalizing total with
  | nil => simpa [selectChunks] using h
  | cons c rest ih =>
    by_cases hb : m < total + (estimate_tokens (c.text.getD ("")) : ℤ)
    · simpa [selectChunks, hb] using h
    · have := ih (total + (estimate_tokens (c.text.getD ("")) : ℤ)) (by omega)
      simp only [selectChunks, hb, if_false, List.map_cons, List.sum_cons]
      omega

/-- C3: out-of-domain gate.  For every non-empty chunk list and prompt whose
computed `domain_overlap_ratio` is below 0.3, the strategy selector returns
`should_proceed = false` with strategy `abort`. -/
theorem C3_abort_on_low_domain_overlap (chunks : List Chunk) (prompt : String)
    (hne : chunks ≠ []) (hlow : domain_overlap_ratio chunks prompt < 3/10) :
    (adaptive_test_generation_strategy chunks prompt).should_proceed = false ∧
    (adaptive_test_generation_strategy chunks prompt).strategy = ("abort") := by
  have hne' : chunks.isEmpty = false := by
    cases chunks with
    | nil => exact absurd rfl hne
    | cons a l => rfl
  constructor <;> simp [adaptive_test_generation_strategy, hne', hlow]

/-- Witness for C3 at a concrete out-of-domain input. -/
theorem C3_witness :
    (adaptive_test_generation_strategy [{ text := some ("banana") }] ("test case")).should_proceed = false ∧
    (adaptive_test_generation_strategy [{ text := some ("banana") }] ("test case")).strategy = ("abort") := by
  refine C3_abort_on_low_domain_overlap _ _ (by decide) ?_
  have h : promptDomainTerms ("test case") = [] := by decide
  simp [domain_overlap_ratio, h]

/-- C4 as stated is false on the code: the greedy loop bounds the sum of the
per-chunk raw-text estimates, but the returned context string carries
`[Source: ...]` headers, so its own estimated token count can exceed the
budget.  With one 4-character chunk and `max_tokens = 1` the chunk is
accepted (estimate 1 ≤ 1) yet the returned context has estimate 5. -/
theorem C4_counterexample :
    ¬ (∀ (chunks : List Chunk) (m : ℤ),
        ((estimate_tokens (truncate_context_smart chunks m).1 : ℤ) ≤ m)) := by
  intro h
  have h1 := h [{ text := some ("aaaa") }] 1
  have h2 : estimate_tokens (truncate_context_smart [{ text := some ("aaaa") }] 1).1 = 5 := by
    decide
  rw [h2] at h1
  omega

/-- C4 amended: the token budget bounds the sum of the per-chunk token
estimates (`len(text)//4`, minimum 1) of the chunks actually used by
`truncate_context_smart` (for a non-negative budget), not the estimate of
the assembled context string. -/
theorem C4_used_chunks_token_bound (chunks : List Chunk) (m : ℤ) (hm : 0 ≤ m) :
    (((truncate_context_smart chunks m).2.2).map
      (fun c => (estimate_tokens (c.text.getD ("")) : ℤ))).sum ≤ m := by
  have := selectChunks_sum_le m chunks 0 hm
  simpa [truncate_context_smart] using this

/-- Witness for C4 amended at a concrete input. -/
theorem C4_witness :
    (((truncate_context_smart [{ text := some ("aaaa") }, { text := some ("bbbb") }] 1).2.2).map
      (fun c => (estimate_tokens (c.text.getD ("")) : ℤ))).sum ≤ 1 :=
  C4_used_chunks_token_bound _ 1 (by decide)

/-- C6 as stated is false on the code: `hybrid_rank_chunks` uses
`1 - distance` with no clamping.  For a supplied distance of 2 (outside
`[0,1]`) and an empty query, the produced `hybrid_score` is `-17/40`,
while the clamped reading of the spec would give `3/40`; in particular the
negative score is impossible under any `[0,1]` embedding component, since
all other components are non-negative. -/
theorem C6_counterexample :
    ((hybrid_rank_chunks (fun _ => 0) (fun _ => ("general")) {} {}
        [{ distance := some 2 }] ("")).map (fun c => c.hybrid_score) = [some (-17/40)]) ∧
    ((hybrid_rank_chunks_clamped (fun _ => 0) (fun _ => ("general")) {} {}
        [{ distance := some 2 }] ("")).map (fun c => c.hybrid_score) = [some (3/40)]) ∧
    ¬ ((-17 : ℚ)/40 = 3/40) ∧ ¬ ((0:ℚ) ≤ -17/40) := by
  have hdt : docTypeWeight ("general") = 1 := by decide
  refine ⟨?_, ?_, by norm_num, by norm_num⟩
  all_goals
    simp [hybrid_rank_chunks, hybrid_rank_chunks_clamped, annotateChunk,
      annotateChunkClamped, List.mergeSort_singleton, calculate_bm25_score,
      phraseScore, wordsOf, wordsAux, lower, lowerL, splitWs, splitWsAux,
      hdt, clamp01]
    norm_num

/-- C6 amended: the embedding component entering the weighted sum is exactly
`1 - distance` with no clamping (so it leaves `[0,1]` whenever the supplied
distance does): every chunk returned by `hybrid_rank_chunks` is the
annotated copy of an input chunk whose `hybrid_score` is the weighted sum
built from the unclamped `1 - distance`. -/
theorem C6_embedding_component_unclamped (lg : ℚ → ℚ) (cls : String → String)
    (stats : CorpusStats) (w : RankWeights) (chunks : List Chunk) (query : String) :
    ∀ c' ∈ hybrid_rank_chunks lg cls stats w chunks query,
      ∃ c ∈ chunks, c' = annotateChunk lg cls stats w query c ∧
        c'.hybrid_score = some
          (((1 - c.distance.getD 1) * w.embedding +
            min 1 (calculate_bm25_score lg stats query (c.text.getD ("")) / 10) * w.bm25 +
            (1/2 + (if 100 < (c.text.getD ("")).length then 1/5 else 0) +
              (if 500 < (c.text.getD ("")).length then (1:ℚ)/10 else 0)) * w.metadata +
            phraseScore query (c.text.getD ("")) * w.phrase) *
            docTypeWeight (cls (c.source.getD ("")))) := by
  intro c' hc'
  have hmem : c' ∈ chunks.map (annotateChunk lg cls stats w query) :=
    (List.mergeSort_perm _ _).mem_iff.mp hc'
  obtain ⟨c, hc, rfl⟩ := List.mem_map.mp hmem
  exact ⟨c, hc, rfl, rfl⟩

/-- Witness for C6 amended at a concrete chunk. -/
theorem C6_witness :
    ∃ c ∈ [({ distance := some 2 } : Chunk)],
      annotateChunk (fun _ => 0) (fun _ => ("general")) {} {} ("") ({ distance := some 2 } : Chunk) =
        annotateChunk (fun _ => 0) (fun _ => ("general")) {} {} ("") c ∧
      (annotateChunk (fun _ => 0) (fun _ => ("general")) {} {} ("") ({ distance := some 2 } : Chunk)).hybrid_score = some
          (((1 - c.distance.getD 1) * ({} : RankWeights).embedding +
            min 1 (calculate_bm25_score (fun _ => 0) {} ("") (c.text.getD ("")) / 10) * ({} : RankWeights).bm25 +
            (1/2 + (if 100 < (c.text.getD ("")).length then 1/5 else 0) +
              (if 500 < (c.text.getD ("")).length then (1:ℚ)/10 else 0)) * ({} : RankWeights).metadata +
            phraseScore ("") (c.text.getD ("")) * ({} : RankWeights).phrase) *
            docTypeWeight (("general"))) :=
  C6_embedding_component_unclamped (fun _ => 0) (fun _ => ("general")) {} {} [{ distance := some 2 }] ("")
    (annotateChunk (fun _ => 0) (fun _ => ("general")) {} {} ("") { distance := some 2 })
    (by simp [hybrid_rank_chunks, List.mergeSort_singleton])

/-- Helper for C1: the validation stage processes each case independently
(the fold distributes over append). -/
theorem validationStage_append (zc : String → Bool) (l1 l2 : List TestCase)
    (cs : List Chunk) :
    (validationStage zc (l1 ++ l2) cs).1 =
      (validationStage zc l1 cs).1 ++ (validationStage zc l2 cs).1 := by
  induction l1 with
  | nil => rfl
  | cons tc rest ih =>
    simp only [List.cons_append, validationStage]
    by_cases h : ((validate_test_case_schema zc tc cs).1)._action = some ("drop")
    · simp [h, ih]
    · simp [h, ih]

/-- Helper for C1: schema fixing does not touch the `_action` marker. -/
theorem applySchemaFixes_action (tc : TestCase) (cs : List Chunk) :
    ((applySchemaFixes tc cs).1)._action = tc._action := rfl

/-- Helper for C1: a case marked dropped is skipped by the stage. -/
theorem validationStage_cons_drop (zc : String → Bool) (tc : TestCase)
    (post : List TestCase) (cs : List Chunk)
    (h : (validate_test_case_schema zc tc cs).1._action = some ("drop")) :
    (validationStage zc (tc :: post) cs).1 = (validationStage zc post cs).1 := by
  simp [validationStage, h]

/-- Helper for C1: a case not marked dropped is kept by the stage (with the
verbatim-evidence adjustment applied). -/
theorem validationStage_cons_keep (zc : String → Bool) (tc : TestCase)
    (post : List TestCase) (cs : List Chunk)
    (h : ¬ (validate_test_case_schema zc tc cs).1._action = some ("drop")) :
    (validationStage zc (tc :: post) cs).1 =
      reviewAdjust zc cs ((validate_test_case_schema zc tc cs).1) ::
        (validationStage zc post cs).1 := by
  simp [validationStage, h]

/-- C1: hallucination drop.  If the fabricated-value scan of a (schema-fixed)
test case against the retrieved chunks is non-empty — a currency, percentage
or uppercase-code token not appearing case-insensitively in the chunk text,
surviving the blacklist, the negative-type code exemption and the zero-cost
`$0` exemption — the case is marked `_action = drop`, the `hallucination`
issue is recorded, and the case is excluded from the validation stage's
returned list (in any batch position).  If the scan is empty, this check
leaves `_action` unchanged, and a case not already marked dropped is kept in
the returned list. -/
theorem C1_hallucination_drop (zc : String → Bool) (tc : TestCase)
    (cs : List Chunk) (pre post : List TestCase) :
    ((fabricatedValues zc (applySchemaFixes tc cs).1 cs ≠ []) →
      (validate_test_case_schema zc tc cs).1._action = some ("drop") ∧
      ("hallucination") ∈ (validate_test_case_schema zc tc cs).2 ∧
      (validationStage zc (pre ++ tc :: post) cs).1 =
        (validationStage zc pre cs).1 ++ (validationStage zc post cs).1) ∧
    ((fabricatedValues zc (applySchemaFixes tc cs).1 cs = []) →
      (validate_test_case_schema zc tc cs).1._action = tc._action ∧
      (tc._action ≠ some ("drop") →
        ∃ v2, (validationStage zc (pre ++ tc :: post) cs).1 =
          (validationStage zc pre cs).1 ++ v2 :: (validationStage zc post cs).1)) := by
  have hsplit : (validationStage zc (pre ++ tc :: post) cs).1 =
      (validationStage zc pre cs).1 ++ (validationStage zc (tc :: post) cs).1 :=
    validationStage_append zc pre (tc :: post) cs
  constructor
  · intro hfab
    have hne : ((fabricatedValues zc (applySchemaFixes tc cs).1 cs).isEmpty) = false := by
      cases hfe : fabricatedValues zc (applySchemaFixes tc cs).1 cs with
      | nil => exact absurd hfe hfab
      | cons a l => rfl
    have hv : (validate_test_case_schema zc tc cs).1._action = some ("drop") := by
      simp only [validate_test_case_schema, hne, Bool.false_eq_true, if_false]
    refine ⟨hv, ?_, ?_⟩
    · simp only [validate_test_case_schema, hne, Bool.false_eq_true, if_false]
      simp
    · rw [hsplit, validationStage_cons_drop zc tc post cs hv]
  · intro hfab
    have hie : ((fabricatedValues zc (applySchemaFixes tc cs).1 cs).isEmpty) = true := by
      rw [hfab]; rfl
    have hv : (validate_test_case_schema zc tc cs).1 = (applySchemaFixes tc cs).1 := by
      simp only [validate_test_case_schema, hie, if_true]
    refine ⟨by rw [hv]; exact applySchemaFixes_action tc cs, fun hnd => ?_⟩
    have hva : ¬ (validate_test_case_schema zc tc cs).1._action = some ("drop") := by
      rw [hv, applySchemaFixes_action]; exact hnd
    exact ⟨reviewAdjust zc cs ((validate_test_case_schema zc tc cs).1),
      by rw [hsplit, validationStage_cons_keep zc tc post cs hva]⟩

/-- Helper for C2: `str.replace` only deletes characters. -/
theorem removeAllF_subset (needle : List Char) :
    ∀ (f : ℕ) (l : List Char) (c : Char), c ∈ removeAllF needle f l → c ∈ l
  | 0, [], _, h => h
  | 0, _ :: _, _, h => h
  | _ + 1, [], c, h => absurd h (List.not_mem_nil c)
  | f + 1, a :: rest, c, h => by
    simp only [removeAllF] at h
    split at h
    · exact List.drop_subset _ _ (removeAllF_subset needle f _ c h)
    · rcases List.mem_cons.mp h with rfl | h2
      · exact List.mem_cons_self _ _
      · exact List.mem_cons_of_mem _ (removeAllF_subset needle f rest c h2)

/-- Helper for C2: a predicate holding nowhere gives no find index. -/
theorem findIdx?_none_of_all {p : Char → Bool} :
    ∀ l : List Char, (∀ c ∈ l, p c = false) → l.findIdx? p = none := by
  intro l h
  induction l with
  | nil => rfl
  | cons a rest ih =>
    have ha := h a (List.mem_cons_self _ _)
    simp only [List.findIdx?_cons, ha, ite_false, Nat.zero_add]
    have := ih (fun c hc => h c (List.mem_cons_of_mem _ hc))
    simp [List.findIdx?_succ, this]

/-- Helper for C2: the comma-before-closer scan only deletes characters. -/
theorem sccGo_subset (l : List Char) :
    ∀ (st : Option (List Char)) (c : Char),
      c ∈ sccGo st l → c ∈ (st.getD []) ++ l := by
  induction l with
  | nil =>
    intro st c h
    cases st with
    | none => simp [sccGo] at h
    | some buf =>
      simp only [sccGo] at h
      simpa using List.mem_reverse.mp h
  | cons a rest ih =>
    intro st c h
    cases st with
    | none =>
      simp only [sccGo] at h
      split at h
      · have h1 := ih (some [a]) c h
        simp only [Option.getD, List.singleton_append] at h1
        simpa using h1
      · rcases List.mem_cons.mp h with rfl | h2
        · simp
        · have h1 := ih none c h2
          simp only [Option.getD, List.nil_append] at h1
          simp [h1]
    | some buf =>
      simp only [sccGo] at h
      split at h
      · rcases List.mem_cons.mp h with rfl | h2
        · simp
        · have h1 := ih none c h2
          simp only [Option.getD, List.nil_append] at h1
          simp [h1]
      · split at h
        · have h1 := ih (some (a :: buf)) c h
          simp only [Option.getD] at h1
          rcases List.mem_append.mp h1 with h2 | h3
          · rcases List.mem_cons.mp h2 with rfl | h4
            · simp
            · simp [h4]
          · simp [h3]
        · split at h
          · rcases List.mem_append.mp h with h1 | h2
            · simp [List.mem_reverse.mp h1]
            · have h3 := ih (some [a]) c h2
              simp only [Option.getD, List.singleton_append] at h3
              rcases List.mem_cons.mp h3 with rfl | h4
              · simp
              · simp [h4]
          · rcases List.mem_append.mp h with h1 | h2
            · simp [List.mem_reverse.mp h1]
            · rcases List.mem_cons.mp h2 with rfl | h3
              · simp
              · have h4 := ih none c h3
                simp only [Option.getD, List.nil_append] at h4
                simp [h4]

/-- Helper for C2: the brace-brace scan only deletes characters, inserts
commas, or re-emits a pending closing brace. -/
theorem bbGo_subset (l : List Char) :
    ∀ (st : Option (List Char)) (c : Char),
      c ∈ bbGo st l → c = ',' ∨ c = '\x7d' ∨ c ∈ (st.getD []) ++ l := by
  induction l with
  | nil =>
    intro st c h
    cases st with
    | none => simp [bbGo] at h
    | some buf =>
      simp only [bbGo] at h
      exact Or.inr (Or.inr (by simpa using List.mem_reverse.mp h))
  | cons a rest ih =>
    intro st c h
    cases st with
    | none =>
      simp only [bbGo] at h
      split at h
      · rcases ih (some [a]) c h with h1 | h1 | h1
        · exact Or.inl h1
        · exact Or.inr (Or.inl h1)
        · simp only [Option.getD, List.singleton_append] at h1
          exact Or.inr (Or.inr (by simpa using h1))
      · rcases List.mem_cons.mp h with rfl | h2
        · exact Or.inr (Or.inr (by simp))
        · rcases ih none c h2 with h1 | h1 | h1
          · exact Or.inl h1
          · exact Or.inr (Or.inl h1)
          · simp only [Option.getD, List.nil_append] at h1
            exact Or.inr (Or.inr (by simp [h1]))
    | some buf =>
      simp only [bbGo] at h
      split at h
      · rename_i ha
        rcases List.mem_cons.mp h with rfl | h2
        · exact Or.inr (Or.inl rfl)
        · rcases List.mem_cons.mp h2 with rfl | h3
          · exact Or.inl rfl
          · rcases List.mem_cons.mp h3 with rfl | h4
            · exact Or.inr (Or.inr (by simp [ha]))
            · rcases ih none c h4 with h1 | h1 | h1
              · exact Or.inl h1
              · exact Or.inr (Or.inl h1)
              · simp only [Option.getD, List.nil_append] at h1
                exact Or.inr (Or.inr (by simp [h1]))
      · split at h
        · rcases ih (some (a :: buf)) c h with h1 | h1 | h1
          · exact Or.inl h1
          · exact Or.inr (Or.inl h1)
          · simp only [Option.getD] at h1
            rcases List.mem_append.mp h1 with h2 | h3
            · rcases List.mem_cons.mp h2 with rfl | h4
              · exact Or.inr (Or.inr (by simp))
              · exact Or.inr (Or.inr (by simp [h4]))
            · exact Or.inr (Or.inr (by simp [h3]))
        · split at h
          · rcases List.mem_append.mp h with h1 | h2
            · exact Or.inr (Or.inr (by simp [List.mem_reverse.mp h1]))
            · rcases ih (some [a]) c h2 with h1 | h1 | h1
              · exact Or.inl h1
              · exact Or.inr (Or.inl h1)
              · simp only [Option.getD, List.singleton_append] at h1
                rcases List.mem_cons.mp h1 with rfl | h4
                · exact Or.inr (Or.inr (by simp))
                · exact Or.inr (Or.inr (by simp [h4]))
          · rcases List.mem_append.mp h with h1 | h2
            · exact Or.inr (Or.inr (by simp [List.mem_reverse.mp h1]))
            · rcases List.mem_cons.mp h2 with rfl | h3
              · exact Or.inr (Or.inr (by simp))
              · rcases ih none c h3 with h1 | h1 | h1
                · exact Or.inl h1
                · exact Or.inr (Or.inl h1)
                · simp only [Option.getD, List.nil_append] at h1
                  exact Or.inr (Or.inr (by simp [h1]))

/-- Helper for C2: `strip` only deletes characters. -/
theorem stripL_subset (l : List Char) (c : Char) (h : c ∈ stripL l) : c ∈ l := by
  simp only [stripL] at h
  have h1 := List.mem_reverse.mp h
  have h2 := (List.dropWhile_sublist _).subset h1
  have h3 := List.mem_reverse.mp h2
  exact (List.dropWhile_sublist _).subset h3

/-- Helper for C2: `repair_json` introduces no `[`, `{` or `\` into a text
free of them (commas and closing braces are the only insertions of the two
regex passes, the count-based appends are vacuous without openers, and the
object-wrap needs a leading `{`). -/
theorem repair_json_free (s : String)
    (h : ∀ c ∈ s.data, c ≠ '[' ∧ c ≠ '\x7b' ∧ c ≠ '\\') :
    ∀ c ∈ (repair_json s).data, c ≠ '[' ∧ c ≠ '\x7b' ∧ c ≠ '\\' := by
  have ht1 : ∀ d ∈ subBraceBrace (subCommaClose s.data),
      d ≠ '[' ∧ d ≠ '\x7b' ∧ d ≠ '\\' := by
    intro d hd
    rcases bbGo_subset _ none d hd with rfl | rfl | hd2
    · exact ⟨by decide, by decide, by decide⟩
    · exact ⟨by decide, by decide, by decide⟩
    · simp only [Option.getD, List.nil_append] at hd2
      have hd3 := sccGo_subset _ none d hd2
      simp only [Option.getD, List.nil_append] at hd3
      exact h d hd3
  have hcb : (subBraceBrace (subCommaClose s.data)).count '\x7b' = 0 :=
    List.count_eq_zero.mpr (fun hmem => (ht1 _ hmem).2.1 rfl)
  have hob : (subBraceBrace (subCommaClose s.data)).count '[' = 0 :=
    List.count_eq_zero.mpr (fun hmem => (ht1 _ hmem).1 rfl)
  have hwrap : (match stripL (subBraceBrace (subCommaClose s.data)) with
      | '\x7b' :: _ => true | _ => false) = false := by
    split
    · rename_i tail heq
      have : '\x7b' ∈ stripL (subBraceBrace (subCommaClose s.data)) := by
        rw [heq]; exact List.mem_cons_self _ _
      exact absurd rfl (ht1 _ (stripL_subset _ _ this)).2.1
    · rfl
  have hrepair : repair_json s = ⟨stripL (subBraceBrace (subCommaClose s.data))⟩ := by
    unfold repair_json
    simp [hcb, hob, hwrap]
  intro c hc
  rw [hrepair] at hc
  exact ht1 c (stripL_subset _ _ hc)

/-- Helper for C2: the string parser copies its characters from the input
(when no escape sequence can fire). -/
theorem parseStr_content :
    ∀ (l : List Char) (s : String) (r : List Char),
      parseStr l = some (s, r) → ('\\' ∉ l) → ∀ c ∈ s.data, c ∈ l
  | [], _, _, h, _, _, _ => by simp [parseStr] at h
  | a :: rest, s, r, h, hnb, c, hc => by
    unfold parseStr at h
    split at h
    · rename_i ha
      simp only [Option.some.injEq, Prod.mk.injEq] at h
      obtain ⟨rfl, rfl⟩ := h
      have hemp : ("" : String).data = [] := rfl
      rw [hemp] at hc
      exact absurd hc (List.not_mem_nil c)
    · split at h
      · rename_i ha hb
        exact absurd (by rw [hb]; exact List.mem_cons_self _ _) hnb
      · split at h
        · simp at h
        · match hp : parseStr rest with
          | none => rw [hp] at h; simp at h
          | some (s1, r1) =>
            rw [hp] at h
            simp only [Option.map_some', Option.some.injEq, Prod.mk.injEq] at h
            obtain ⟨rfl, rfl⟩ := h
            rcases List.mem_cons.mp hc with rfl | hc2
            · exact List.mem_cons_self _ _
            · have hnb2 : '\\' ∉ rest := fun hm => hnb (List.mem_cons_of_mem _ hm)
              exact List.mem_cons_of_mem _
                (parseStr_content rest s1 r1 hp hnb2 c hc2)

/-- Helper for C2: the number parser only builds number values. -/
theorem parseFracExp_shape (neg : Bool) (ip l : List Char) (v : JValue)
    (r : List Char) (h : parseFracExp neg ip l = some (v, r)) :
    ∃ a b c d, v = JValue.num a b c d := by
  simp only [parseFracExp] at h
  split at h
  · simp at h
  · split at h
    · split at h
      · split at h
        · simp at h
        · simp only [Option.some.injEq, Prod.mk.injEq] at h
          exact ⟨_, _, _, _, h.1.symm⟩
      · simp only [Option.some.injEq, Prod.mk.injEq] at h
        exact ⟨_, _, _, _, h.1.symm⟩
    · simp only [Option.some.injEq, Prod.mk.injEq] at h
      exact ⟨_, _, _, _, h.1.symm⟩

/-- Helper for C2: `parseNum` only builds number values. -/
theorem parseNum_shape (l : List Char) (v : JValue) (r : List Char)
    (h : parseNum l = some (v, r)) : ∃ a b c d, v = JValue.num a b c d := by
  simp only [parseNum] at h
  split at h
  · exact parseFracExp_shape _ _ _ _ _ h
  · split at h
    · exact parseFracExp_shape _ _ _ _ _ h
    · simp at h
  · simp at h

/-- Helper for C2: on input free of `[`, `{` and `\`, a successful parse
yields no array and no object, and a string value copies its characters from
the input. -/
theorem parseVal_free_shape (f : ℕ) (l : List Char) (v : JValue) (r : List Char)
    (h : parseVal f l = some (v, r))
    (hfree : ∀ c ∈ l, c ≠ '[' ∧ c ≠ '\x7b' ∧ c ≠ '\\') :
    (∀ xs, v ≠ JValue.arr xs) ∧ (∀ o, v ≠ JValue.obj o) ∧
      (∀ t, v = JValue.str t → ∀ c ∈ t.data, c ∈ l) := by
  match f with
  | 0 => simp [parseVal] at h
  | f + 1 =>
    simp only [parseVal] at h
    split at h
    · simp only [Option.some.injEq, Prod.mk.injEq] at h
      obtain ⟨rfl, rfl⟩ := h.symm
      exact ⟨fun _ => by simp, fun _ => by simp, fun _ ht => by simp at ht⟩
    · simp only [Option.some.injEq, Prod.mk.injEq] at h
      obtain ⟨rfl, rfl⟩ := h.symm
      exact ⟨fun _ => by simp, fun _ => by simp, fun _ ht => by simp at ht⟩
    · simp only [Option.some.injEq, Prod.mk.injEq] at h
      obtain ⟨rfl, rfl⟩ := h.symm
      exact ⟨fun _ => by simp, fun _ => by simp, fun _ ht => by simp at ht⟩
    · rename_i r1 heq
      match hp : parseStr r1 with
      | none => rw [hp] at h; simp at h
      | some (s1, r2) =>
        rw [hp] at h
        simp only [Option.map_some', Option.some.injEq, Prod.mk.injEq] at h
        obtain ⟨rfl, rfl⟩ := h.symm
        refine ⟨fun _ => by simp, fun _ => by simp, fun t ht c hc => ?_⟩
        obtain rfl : s1 = t := by injection ht
        have hsub : '"' :: r1 ⊆ l := by
          rw [← heq]; exact (List.dropWhile_sublist _).subset
        have hnb : '\\' ∉ r1 := fun hm =>
          (hfree '\\' (hsub (List.mem_cons_of_mem _ hm))).2.2 rfl
        exact hsub (List.mem_cons_of_mem _ (parseStr_content r1 s1 r2 hp hnb c hc))
    · rename_i r1 heq
      have : '\x7b' ∈ l := (List.dropWhile_sublist _).subset
        (by rw [heq]; exact List.mem_cons_self _ _)
      exact absurd rfl (hfree _ this).2.1
    · rename_i r1 heq
      have : '[' ∈ l := (List.dropWhile_sublist _).subset
        (by rw [heq]; exact List.mem_cons_self _ _)
      exact absurd rfl (hfree _ this).1
    · split at h
      · obtain ⟨a, b, c0, d, rfl⟩ := parseNum_shape _ _ _ h
        exact ⟨fun _ => by simp, fun _ => by simp, fun _ ht => by simp at ht⟩
      · simp at h
    · simp at h

/-- Helper for C2: `json.loads` on text free of `[`, `{` and `\` never
yields a list or a dict, and a string result draws its characters from the
input. -/
theorem jsonLoads_free_shape (s : String)
    (hfree : ∀ c ∈ s.data, c ≠ '[' ∧ c ≠ '\x7b' ∧ c ≠ '\\') (v : JValue)
    (h : jsonLoads s = some v) :
    (∀ xs, v ≠ JValue.arr xs) ∧ (∀ o, v ≠ JValue.obj o) ∧
      (∀ t, v = JValue.str t → ∀ c ∈ t.data, c ∈ s.data) := by
  unfold jsonLoads at h
  split at h
  · rename_i v0 rest hp
    split at h
    · obtain rfl : v0 = v := by injection h
      exact parseVal_free_shape _ _ _ _ hp hfree
    · simp at h
  · simp at h

/-- Helper for C2: the `isinstance` cascade on a value parsed from text free
of `[`, `{` and `\` yields no test-case candidates (no list, no dict, and a
string never passes the bracket/brace head test). -/
theorem casesFromJson_free (s : String)
    (hfree : ∀ c ∈ s.data, c ≠ '[' ∧ c ≠ '\x7b' ∧ c ≠ '\\') (v : JValue)
    (h : jsonLoads s = some v) : casesFromJson v = [] := by
  obtain ⟨harr, hobj, hstr⟩ := jsonLoads_free_shape s hfree v h
  match v with
  | JValue.null => rfl
  | JValue.bool b => rfl
  | JValue.num a b c d => rfl
  | JValue.arr xs => exact absurd rfl (harr xs)
  | JValue.obj o => exact absurd rfl (hobj o)
  | JValue.str t =>
    have hcontent : ∀ c ∈ (strip t).data, c ∈ s.data := fun c hc =>
      hstr t rfl c (stripL_subset _ _ hc)
    have h1 : (match (strip t).data with | '[' :: _ => true | _ => false) = false := by
      split
      · rename_i tail heq
        have : '[' ∈ (strip t).data := by rw [heq]; exact List.mem_cons_self _ _
        exact absurd rfl (hfree _ (hcontent _ this)).1
      · rfl
    have h2 : (match (strip t).data with | '\x7b' :: _ => true | _ => false) = false := by
      split
      · rename_i tail heq
        have : '\x7b' ∈ (strip t).data := by rw [heq]; exact List.mem_cons_self _ _
        exact absurd rfl (hfree _ (hcontent _ this)).2.1
      · rfl
    simp only [casesFromJson, h1, h2, Bool.false_and, Bool.or_self]
    rfl

/-- Helper for C2: a span needs its opener. -/
theorem extractSpan_none_of_first (o c : Char) (l : List Char)
    (h : firstIdx o l = none) : extractSpan o c l = none := by
  unfold extractSpan
  rw [h]

/-- Helper for C2: with no opening bracket or brace, both extraction regexes
miss and `extract_json_from_response` returns the stop-token-stripped text,
itself still free of `[`, `{` and `\`. -/
theorem extract_free (text : String)
    (hfree : ∀ c ∈ text.data, c ≠ '[' ∧ c ≠ '\x7b' ∧ c ≠ '\\') :
    extract_json_from_response text =
      ⟨removeAll (("</END_JSON>").data) text.data⟩ ∧
    ∀ c ∈ removeAll (("</END_JSON>").data) text.data,
      c ≠ '[' ∧ c ≠ '\x7b' ∧ c ≠ '\\' := by
  have htfree : ∀ c ∈ removeAll (("</END_JSON>").data) text.data,
      c ≠ '[' ∧ c ≠ '\x7b' ∧ c ≠ '\\' := fun c hc =>
    hfree c (removeAllF_subset _ _ _ c hc)
  refine ⟨?_, htfree⟩
  have hf1 : firstIdx '[' (removeAll (("</END_JSON>").data) text.data) = none :=
    findIdx?_none_of_all _ (fun c hc => decide_eq_false (htfree c hc).1)
  have hf2 : firstIdx '\x7b' (removeAll (("</END_JSON>").data) text.data) = none :=
    findIdx?_none_of_all _ (fun c hc => decide_eq_false (htfree c hc).2.1)
  have hs1 := extractSpan_none_of_first '[' ']' _ hf1
  have hs2 := extractSpan_none_of_first '\x7b' '\x7d' _ hf2
  simp only [extract_json_from_response]
  rw [hs1, hs2]

/-- Helper for C2: with no opening bracket or brace,
`aggressive_json_extraction` falls through to the empty-array literal. -/
theorem aggressive_free (text : String)
    (hfree : ∀ c ∈ text.data, c ≠ '[' ∧ c ≠ '\x7b' ∧ c ≠ '\\') :
    aggressive_json_extraction text = ("[]") := by
  have hf1 : firstIdx '[' text.data = none :=
    findIdx?_none_of_all _ (fun c hc => decide_eq_false (hfree c hc).1)
  have hf2 : firstIdx '\x7b' text.data = none :=
    findIdx?_none_of_all _ (fun c hc => decide_eq_false (hfree c hc).2.1)
  have hs1 := extractSpan_none_of_first '[' ']' _ hf1
  have hs2 := extractSpan_none_of_first '\x7b' '\x7d' _ hf2
  simp only [aggressive_json_extraction]
  rw [hs1, hs2]

/-- Helper for C2: the lazy `{...}` spans of a brace-free text are empty. -/
theorem lazySpansF_free :
    ∀ (f : ℕ) (l : List Char), ('\x7b' ∉ l) → lazySpansF f l = []
  | 0, [], _ => rfl
  | 0, _ :: _, _ => rfl
  | _ + 1, [], _ => rfl
  | f + 1, c :: rest, h => by
    have hc : ¬ c = '\x7b' := fun e => h (e ▸ List.mem_cons_self _ _)
    simp only [lazySpansF, hc, if_false]
    exact lazySpansF_free f rest (fun m => h (List.mem_cons_of_mem _ m))

/-- Helper for C2: the secondary format pass finds nothing in a brace-free
text. -/
theorem secondary_free (text : String)
    (hfree : ∀ c ∈ text.data, c ≠ '[' ∧ c ≠ '\x7b' ∧ c ≠ '\\') :
    secondary_json_format_pass text = [] := by
  have : lazyBraceSpans text.data = [] :=
    lazySpansF_free _ _ (fun hm => (hfree _ hm).2.1 rfl)
  simp [secondary_json_format_pass, this, secondaryGo]

/-- Helper for C2: the synthesized fallback case is flagged for review. -/
theorem synthesizedCase_needs_review (p : String) (steps : List String) :
    objGetLast (synthesizedCase p steps) (("needs_review")) =
      some (JValue.bool true) := rfl

/-- C2: the response-normalization cascade is claimed never to raise: on raw
text with no JSON structure it should return an empty sequence or a single
synthesized `needs_review=true` case.  On any raw text free of `[`, `{` and
`\` (so every extraction, repair and parse stage yields no candidate cases),
the code (i) returns the unavailable payload when the semantant-matcher
dependency is off, (ii) returns exactly one synthesized case flagged
`needs_review=true` when it is on and `used_chunks` is empty, but (iii)
raises `AttributeError` when it is on and `used_chunks` is non-empty,
because line 345 of `generate_test_cases.py` calls `.lower()` on the
un-unpacked `(type, score)` tuple returned by `classify_document_type` —
contradicting the never-throws contract. -/
theorem C2_normalizer_throws_with_chunks (m : Matcher) (used_chunks : List Chunk)
    (prompt raw : String)
    (hfree : ∀ c ∈ raw.data, c ≠ '[' ∧ c ≠ '\x7b' ∧ c ≠ '\\') :
    (normalizeResponse false m used_chunks prompt raw =
      .ok (.unavailable (("LLM output unparseable and AI/ML fallback unavailable")))) ∧
    (used_chunks = [] → ∃ steps,
      normalizeResponse true m used_chunks prompt raw =
        .ok (.cases [synthesizedCase prompt steps]) ∧
      objGetLast (synthesizedCase prompt steps) (("needs_review")) =
        some (JValue.bool true)) ∧
    (used_chunks ≠ [] → normalizeResponse true m used_chunks prompt raw =
      .error (("AttributeError: tuple object has no attribute lower"))) := by
  obtain ⟨hex, htfree⟩ := extract_free raw hfree
  have hrfree : ∀ c ∈ (repair_json ⟨removeAll (("</END_JSON>").data) raw.data⟩).data,
      c ≠ '[' ∧ c ≠ '\x7b' ∧ c ≠ '\\' := repair_json_free _ htfree
  have hAgg := aggressive_free raw hfree
  have hsec := secondary_free raw hfree
  have hempty : jsonLoads (("[]")) = some (JValue.arr []) := rfl
  have hcasesnil : casesFromJson (JValue.arr []) = [] := rfl
  rcases hload : jsonLoads (repair_json ⟨removeAll (("</END_JSON>").data) raw.data⟩)
    with _ | j
  · refine ⟨?_, ?_, ?_⟩
    · simp [normalizeResponse, hex, hload, hAgg, hempty, hsec, hcasesnil]
    · rintro rfl
      exact ⟨_, by
        simp [normalizeResponse, hex, hload, hAgg, hempty, hsec, hcasesnil]
        rfl, synthesizedCase_needs_review prompt _⟩
    · intro hne
      rcases used_chunks with _ | ⟨c0, cs⟩
      · exact absurd rfl hne
      · simp [normalizeResponse, hex, hload, hAgg, hempty, hsec, hcasesnil]
  · have hcs := casesFromJson_free _ hrfree j hload
    refine ⟨?_, ?_, ?_⟩
    · simp [normalizeResponse, hex, hload, hcs, hAgg, hempty, hsec]
    · rintro rfl
      exact ⟨_, by
        simp [normalizeResponse, hex, hload, hcs, hAgg, hempty, hsec]
        rfl, synthesizedCase_needs_review prompt _⟩
    · intro hne
      rcases used_chunks with _ | ⟨c0, cs⟩
      · exact absurd rfl hne
      · simp [normalizeResponse, hex, hload, hcs, hAgg, hempty, hsec]

/-- Witness for C2, exhibiting the bug on the spec's own example: raw text
`"not json at all"` with the AI/ML dependency available and one retrieved
chunk makes the cascade raise instead of returning a payload. -/
theorem C2_witness :
    (∀ c ∈ ("not json at all").data, c ≠ '[' ∧ c ≠ '\x7b' ∧ c ≠ '\\') ∧
    normalizeResponse true ⟨fun _ _ => 0, fun _ => 0⟩ [chunkPromo] ("p")
        ("not json at all") =
      .error (("AttributeError: tuple object has no attribute lower")) :=
  ⟨by decide,
   (C2_normalizer_throws_with_chunks ⟨fun _ _ => 0, fun _ => 0⟩ [chunkPromo]
      ("p") ("not json at all") (by decide)).2.2 (by simp)⟩

/-- Helper for C8: a step classified as a verification step always carries
confidence above the 0.30 gate of the generator (0.95 on the literal
`check if/that/whether` path; on the embedding path the classifier itself
requires the similarity to exceed 0.30). -/
theorem is_verification_step_conf (m : Matcher) (t : String)
    (h : (is_verification_step m t).1 = true) :
    3/10 < (is_verification_step m t).2 := by
  by_cases hlit : substrOf ("check if") (lower (strip t)) ∨
      substrOf ("check that") (lower (strip t)) ∨
      substrOf ("check whether") (lower (strip t))
  · simp only [is_verification_step, if_pos hlit]
    norm_num
  · simp only [is_verification_step, if_neg hlit] at h ⊢
    have := of_decide_eq_true h
    exact this.1

/-- C8: a step the semantic matcher classifies as a verification step
(similarity above the 0.30 threshold with the required margin over the
action intents, or a literal `check if`/`check that`/`check whether`) makes
the deterministic step mapper emit exactly the comment placeholder — two
comment lines and a blank — and no `page.` action (no click, fill, select
or check), leaving the filled-field set unchanged. -/
theorem C8_verification_step_no_action (m : Matcher) (di : DocIntel)
    (rng : Rng) (hs : HtmlStructure) (filled body : List String)
    (step : String)
    (h : (is_verification_step m (cleanStepOf step)).1 = true) :
    processStep m di rng hs (filled, body) step =
      (filled,
       body ++ [("    # VERIFICATION: ") ++ cleanStepOf step,
                ("    # TODO: Implement assertion for this verification step"), ("")]) ∧
    (∀ l ∈ [("    # VERIFICATION: ") ++ cleanStepOf step,
            ("    # TODO: Implement assertion for this verification step"), ("")],
      startsWith ("    page.") l = false) := by
  constructor
  · simp only [processStep]
    rw [if_pos ⟨h, is_verification_step_conf m _ h⟩]
  · intro l hl
    rcases List.mem_cons.mp hl with rfl | hl2
    · rfl
    · rcases List.mem_cons.mp hl2 with rfl | hl3
      · rfl
      · rcases List.mem_cons.mp hl3 with rfl | hl4
        · rfl
        · exact absurd hl4 (List.not_mem_nil _)

/-- Witness for C8 at a concrete literal verification step. -/
theorem C8_witness :
    processStep ⟨fun _ _ => 0, fun _ => 0⟩ ⟨fun _ _ _ => (none, 0)⟩
        ⟨fun a _ => a, fun _ => ("")⟩ {} ([], []) ("Check if the error message appears") =
      ([],
       [] ++ [("    # VERIFICATION: ") ++ cleanStepOf ("Check if the error message appears"),
              ("    # TODO: Implement assertion for this verification step"), ("")]) ∧
    (∀ l ∈ [("    # VERIFICATION: ") ++ cleanStepOf ("Check if the error message appears"),
            ("    # TODO: Implement assertion for this verification step"), ("")],
      startsWith ("    page.") l = false) :=
  C8_verification_step_no_action ⟨fun _ _ => 0, fun _ => 0⟩ ⟨fun _ _ _ => (none, 0)⟩
    ⟨fun a _ => a, fun _ => ("")⟩ {} [] [] ("Check if the error message appears") (by decide)

/-- Helper for C10: the annotation loop leaves every pre-existing address
untouched, only moves the watermark up, returns fresh addresses only, and
stores at each returned address the annotated copy of the corresponding
input chunk. -/
theorem hybridRankLoop_frame (lg : ℚ → ℚ) (cls : String → String)
    (stats : CorpusStats) (w : RankWeights) (query : String) :
    ∀ (ptrs : List ℕ) (h : Heap),
      (∀ q, q < h.next →
        ((hybridRankLoop lg cls stats w query h ptrs).1).mem q = h.mem q) ∧
      h.next ≤ (hybridRankLoop lg cls stats w query h ptrs).1.next ∧
      (∀ r ∈ (hybridRankLoop lg cls stats w query h ptrs).2, h.next ≤ r)
  | [], h => by simp [hybridRankLoop]
  | p :: rest, h => by
    have ih := hybridRankLoop_frame lg cls stats w query rest
      (Heap.alloc h (annotateChunk lg cls stats w query (h.mem p))).1
    simp only [hybridRankLoop]
    obtain ⟨ihf, ihn, ihm⟩ := ih
    have hnext : (Heap.alloc h (annotateChunk lg cls stats w query (h.mem p))).1.next
        = h.next + 1 := rfl
    refine ⟨?_, ?_, ?_⟩
    · intro q hq
      rw [ihf q (by rw [hnext]; omega)]
      show (if q = h.next then _ else h.mem q) = h.mem q
      rw [if_neg (by omega)]
    · omega
    · intro r hr
      rcases List.mem_cons.mp hr with rfl | hr2
      · exact Nat.le_refl _
      · have := ihm r hr2
        omega

/-- C10: `hybrid_rank_chunks` never mutates its input.  After the call,
every pre-existing heap object (in particular every input chunk dict) is
unchanged, and every address in the returned list is fresh (allocated by the
call), so the `hybrid_score`/`bm25_score`/`doc_type` annotations were
written only to fresh copies.  (The input address list itself is passed by
value and trivially unchanged in this model.) -/
theorem C10_hybrid_rank_no_mutation (lg : ℚ → ℚ) (cls : String → String)
    (stats : CorpusStats) (w : RankWeights) (h : Heap) (ptrs : List ℕ)
    (query : String) :
    (∀ q, q < h.next →
      ((hybrid_rank_chunks_heap lg cls stats w h ptrs query).1).mem q = h.mem q) ∧
    (∀ r ∈ (hybrid_rank_chunks_heap lg cls stats w h ptrs query).2, h.next ≤ r) := by
  obtain ⟨hf, hn, hm⟩ := hybridRankLoop_frame lg cls stats w query ptrs h
  refine ⟨hf, fun r hr => ?_⟩
  have : r ∈ (hybridRankLoop lg cls stats w query h ptrs).2 :=
    (List.mergeSort_perm _ _).mem_iff.mp hr
  exact hm r this

/-- Witness for C10 at a one-chunk heap. -/
theorem C10_witness :
    ((hybrid_rank_chunks_heap (fun _ => 0) (fun _ => ("general")) {} {}
        { mem := fun _ => ({} : Chunk), next := 1 } [0] ("")).1).mem 0 =
      ({ mem := fun _ => ({} : Chunk), next := 1 } : Heap).mem 0 :=
  (C10_hybrid_rank_no_mutation (fun _ => 0) (fun _ => ("general")) {} {}
    { mem := fun _ => ({} : Chunk), next := 1 } [0] ("")).1 0 (by decide)

/-- Witness for C1 at the spec scenario: against a chunk containing `SAVE10`
and `10%`, the case citing `SAVE20`/`20%` is dropped and excluded, the case
citing `SAVE10`/`10%` is not dropped by this check and is kept. -/
theorem C1_witness :
    ((validate_test_case_schema zcNever tcSave20 [chunkPromo]).1._action = some ("drop") ∧
     ("hallucination") ∈ (validate_test_case_schema zcNever tcSave20 [chunkPromo]).2 ∧
     (validationStage zcNever ([] ++ tcSave20 :: []) [chunkPromo]).1 =
       (validationStage zcNever [] [chunkPromo]).1 ++ (validationStage zcNever [] [chunkPromo]).1) ∧
    ((validate_test_case_schema zcNever tcSave10 [chunkPromo]).1._action = tcSave10._action ∧
     (tcSave10._action ≠ some ("drop") →
       ∃ v2, (validationStage zcNever ([] ++ tcSave10 :: []) [chunkPromo]).1 =
         (validationStage zcNever [] [chunkPromo]).1 ++ v2 :: (validationStage zcNever [] [chunkPromo]).1)) :=
  ⟨(C1_hallucination_drop zcNever tcSave20 [chunkPromo] [] []).1 (by decide),
   (C1_hallucination_drop zcNever tcSave10 [chunkPromo] [] []).2 (by decide)⟩

/-- Helper for C7: renumbering preserves the list length. -/
theorem renumberFrom_length (k : ℕ) (l : List TestCase) :
    (renumberFrom k l).length = l.length := by
  induction l generalizing k with
  | nil => rfl
  | cons tc rest ih => simp [renumberFrom, ih]

/-- Helper for C7: the ids produced by the renumbering pass. -/
theorem renumberFrom_map_test_id (k : ℕ) (l : List TestCase) :
    (renumberFrom k l).map (fun tc => tc.test_id) =
      (List.range l.length).map (fun i => some (tcIdFormat (k + i))) := by
  induction l generalizing k with
  | nil => rfl
  | cons tc rest ih =>
    simp only [renumberFrom, List.map_cons, List.length_cons,
      List.range_succ_eq_map, ih (k + 1), List.map_map]
    refine congrArg₂ _ (by simp) ?_
    refine List.map_congr_left (fun i _ => ?_)
    simp only [Function.comp]
    exact congrArg (fun n => some (tcIdFormat n)) (by omega)

theorem digitChar_inj_below_ten :
    ∀ a < 10, ∀ b < 10, Nat.digitChar a = Nat.digitChar b → a = b := by decide

/-- Helper for C7: `%03d` is injective below 1000. -/
theorem pad3_inj {m n : ℕ} (hm : m < 1000) (hn : n < 1000)
    (h : pad3 m = pad3 n) : m = n := by
  simp only [pad3, if_pos hm, if_pos hn] at h
  have h' := congrArg String.data h
  simp only [List.cons.injEq, and_true] at h'
  obtain ⟨h1, h2, h3⟩ := h'
  have e1 := digitChar_inj_below_ten (m / 100) (by omega) (n / 100) (by omega) h1
  have e2 := digitChar_inj_below_ten (m / 10 % 10) (by omega) (n / 10 % 10) (by omega) h2
  have e3 := digitChar_inj_below_ten (m % 10) (by omega) (n % 10) (by omega) h3
  omega

/-- Helper for C7: the full id format is injective below 1000. -/
theorem tcIdFormat_inj {m n : ℕ} (hm : m < 1000) (hn : n < 1000)
    (h : tcIdFormat m = tcIdFormat n) : m = n := by
  refine pad3_inj hm hn ?_
  have h' := congrArg String.data h
  simp only [tcIdFormat, String.data_append] at h'
  exact congrArg String.mk (List.append_cancel_left h')

/-- C7: after the validation pipeline's final stage (duplicate removal then
renumbering), the returned cases carry `test_id` values exactly
`TC-001 … TC-NNN` in order (`%03d` padding), independent of the ids carried
before; and (for any batch of at most 999 cases, which the pipeline's cap of
10 guarantees) these ids have no gaps and no repeats. -/
theorem C7_test_id_renumbering (cases : List TestCase) :
    ((finalizeCases cases).map (fun tc => tc.test_id) =
      (List.range (finalizeCases cases).length).map (fun i => some (tcIdFormat (i + 1)))) ∧
    ((finalizeCases cases).length ≤ 999 →
      ((finalizeCases cases).map (fun tc => tc.test_id)).Nodup) := by
  have hmap : (finalizeCases cases).map (fun tc => tc.test_id) =
      (List.range (finalizeCases cases).length).map (fun i => some (tcIdFormat (i + 1))) := by
    show (renumberFrom 1 (removeDuplicateCases cases)).map (fun tc => tc.test_id) = _
    rw [renumberFrom_map_test_id]
    have hlen : (finalizeCases cases).length = (removeDuplicateCases cases).length := by
      show (renumberFrom 1 (removeDuplicateCases cases)).length = _
      exact renumberFrom_length 1 _
    rw [hlen]
    refine List.map_congr_left (fun i _ => ?_)
    simp [Nat.add_comm]
  refine ⟨hmap, fun hle => ?_⟩
  rw [hmap]
  refine List.Nodup.map_on ?_ (List.nodup_range _)
  intro x hx y hy hxy
  rw [List.mem_range] at hx hy
  have hx1 : x + 1 < 1000 := by omega
  have hy1 : y + 1 < 1000 := by omega
  have hval : tcIdFormat (x + 1) = tcIdFormat (y + 1) := by injection hxy
  have := tcIdFormat_inj hx1 hy1 hval
  omega

/-- Helper for C5: characterisation of the duplicate-index scan.  An index
is emitted iff the signature of its case is in the initial `seen` set or
matches the signature of an earlier case of the scanned list. -/
theorem detectDupGo_mem :
    ∀ (l : List TestCase) (i0 : ℕ) (seen : List (List String)) (k : ℕ),
      (k ∈ detectDupGo l i0 seen ↔
        ∃ d, ∃ hd : d < l.length, k = i0 + d ∧
          (sigOf (l.get ⟨d, hd⟩) ∈ seen ∨
            ∃ e, ∃ he : e < d, sigOf (l.get ⟨e, Nat.lt_trans he hd⟩) = sigOf (l.get ⟨d, hd⟩)))
  | [], i0, seen, k => by simp [detectDupGo]
  | tc :: rest, i0, seen, k => by
    by_cases hs : sigOf tc ∈ seen
    · simp only [detectDupGo, if_pos hs, List.mem_cons, List.length_cons]
      rw [detectDupGo_mem rest (i0 + 1) seen k]
      constructor
      · rintro (rfl | ⟨d, hd, rfl, hcond⟩)
        · exact ⟨0, by omega, by omega, Or.inl hs⟩
        · refine ⟨d + 1, by omega, by omega, ?_⟩
          cases hcond with
          | inl h => exact Or.inl h
          | inr h =>
            obtain ⟨e, he, heq⟩ := h
            exact Or.inr ⟨e + 1, by omega, heq⟩
      · rintro ⟨d, hd, hk, hcond⟩
        cases d with
        | zero => exact Or.inl (by omega)
        | succ d' =>
          refine Or.inr ⟨d', by omega, by omega, ?_⟩
          cases hcond with
          | inl h => exact Or.inl h
          | inr h =>
            obtain ⟨e, he, heq⟩ := h
            cases e with
            | zero => exact Or.inl (heq ▸ hs)
            | succ e' => exact Or.inr ⟨e', by omega, heq⟩
    · simp only [detectDupGo, if_neg hs, List.length_cons]
      rw [detectDupGo_mem rest (i0 + 1) (sigOf tc :: seen) k]
      constructor
      · rintro ⟨d, hd, rfl, hcond⟩
        refine ⟨d + 1, by omega, by omega, ?_⟩
        cases hcond with
        | inl h =>
          rcases List.mem_cons.mp h with h0 | h1
          · exact Or.inr ⟨0, by omega, h0.symm⟩
          · exact Or.inl h1
        | inr h =>
          obtain ⟨e, he, heq⟩ := h
          exact Or.inr ⟨e + 1, by omega, heq⟩
      · rintro ⟨d, hd, hk, hcond⟩
        cases d with
        | zero =>
          exfalso
          cases hcond with
          | inl h => exact hs h
          | inr h => obtain ⟨e, he, -⟩ := h; omega
        | succ d' =>
          refine ⟨d', by omega, by omega, ?_⟩
          cases hcond with
          | inl h => exact Or.inl (List.mem_cons_of_mem _ h)
          | inr h =>
            obtain ⟨e, he, heq⟩ := h
            cases e with
            | zero => exact Or.inl (heq ▸ List.mem_cons_self _ _)
            | succ e' => exact Or.inr ⟨e', by omega, heq⟩

/-- C5 as stated is false on the code: the signature is
`sorted(words)[:25]`, the first 25 distinct long words in ascending
lexicographic order, not the 25 longest.  With 25 short `c`-words plus one
long distinguishing word, the two cases share the lexicographic-first-25
signature (so the code removes the later case) while their 25-longest
signatures differ (each contains its own distinguishing longest word), so
the claim as stated predicts no removal. -/
theorem C5_counterexample :
    detect_semantic_duplicates [tcDupA, tcDupB] = [1] ∧
    sigSpecLongest tcDupA ≠ sigSpecLongest tcDupB := by
  constructor
  · decide
  · decide

/-- C5 amended: the signature is built from the first 25 distinct words of
length > 4 of scenario-plus-steps in ascending lexicographic order, and the
filter emits exactly the indices whose signature equals that of some
earlier case (the first occurrence is kept); in particular, of two cases
with identical scenario-plus-steps text the later one is emitted. -/
theorem C5_duplicate_indices (cases : List TestCase) (i : ℕ) (hi : i < cases.length) :
    i ∈ detect_semantic_duplicates cases ↔
      ∃ j, ∃ hj : j < i,
        sigOf (cases.get ⟨j, Nat.lt_trans hj hi⟩) = sigOf (cases.get ⟨i, hi⟩) := by
  rw [detect_semantic_duplicates, detectDupGo_mem cases 0 [] i]
  constructor
  · rintro ⟨d, hd, hk, hcond⟩
    cases hcond with
    | inl h => exact absurd h (List.not_mem_nil _)
    | inr h =>
      obtain ⟨e, he, heq⟩ := h
      have hdi : d = i := by omega
      subst hdi
      exact ⟨e, he, heq⟩
  · rintro ⟨j, hj, heq⟩
    exact ⟨i, hi, by omega, Or.inr ⟨j, hj, heq⟩⟩

/-- Witness for C5 amended: two cases with identical scenario text and
different ids; the later one is emitted for removal. -/
theorem C5_witness :
    1 ∈ detect_semantic_duplicates
      [{ test_id := some ("TC-001"), test_scenario := some ("apply the discount code") },
       { test_id := some ("TC-002"), test_scenario := some ("apply the discount code") }] :=
  (C5_duplicate_indices _ 1 (by decide)).mpr ⟨0, by decide, by decide⟩

/-- Witness for C7 at a concrete two-case batch. -/
theorem C7_witness :
    ((finalizeCases [{ test_id := some ("TC-009") }, { test_id := some ("foo") }]).map (fun tc => tc.test_id) =
      (List.range (finalizeCases [{ test_id := some ("TC-009") }, { test_id := some ("foo") }]).length).map
        (fun i => some (tcIdFormat (i + 1)))) ∧
    ((finalizeCases [{ test_id := some ("TC-009") }, { test_id := some ("foo") }]).map (fun tc => tc.test_id)).Nodup :=
  ⟨(C7_test_id_renumbering _).1,
   (C7_test_id_renumbering [{ test_id := some ("TC-009") }, { test_id := some ("foo") }]).2 (by decide)⟩

/-- Helper for C9: the comma-close scan passes over a comma-free segment. -/
theorem sccGo_none_app (xs : List Char) (h : ∀ c ∈ xs, c ≠ ',') (l : List Char) :
    sccGo none (xs ++ l) = xs ++ sccGo none l := by
  induction xs with
  | nil => rfl
  | cons a rest ih =>
    have ha : ¬ a = ',' := h a (List.mem_cons_self _ _)
    simp only [List.cons_append, sccGo]
    rw [if_neg ha]
    show a :: sccGo none (rest ++ l) = a :: rest ++ sccGo none l
    rw [ih (fun c hc => h c (List.mem_cons_of_mem _ hc))]
    rfl

/-- Helper for C9: a comma before a pair is kept. -/
theorem scc_comma_quote (X : List Char) :
    sccGo none (',' :: '"' :: X) = ',' :: '"' :: sccGo none X := rfl

/-- Helper for C9: a comma before an object is kept. -/
theorem scc_comma_open (X : List Char) :
    sccGo none (',' :: '\x7b' :: X) = ',' :: '\x7b' :: sccGo none X := rfl

/-- Helper for C9: a trailing comma before a closing brace is deleted. -/
theorem scc_comma_close (X : List Char) :
    sccGo none (',' :: '\x7d' :: X) = '\x7d' :: sccGo none X := rfl

/-- Helper for C9: a tame character is not a comma (nor a quote, bracket,
brace or backslash). -/
theorem tameCh_spec (c : Char) (h : tameCh c = true) :
    0x20 ≤ c.toNat ∧ c ≠ '"' ∧ c ≠ '\\' ∧ c ≠ '\x7b' ∧ c ≠ '\x7d' ∧
      c ≠ '[' ∧ c ≠ ']' ∧ c ≠ ',' := of_decide_eq_true h

/-- Helper for C9: a serialized pair contains no comma. -/
theorem dumpPair_no_comma (p : List Char × List Char)
    (h1 : ∀ c ∈ p.1, tameCh c = true) (h2 : ∀ c ∈ p.2, tameCh c = true) :
    ∀ c ∈ dumpPair p, c ≠ ',' := by
  intro c hc
  have hcc : c = '"' ∨ c = ':' ∨ c ∈ p.1 ∨ c ∈ p.2 := by
    simp only [dumpPair, List.mem_cons, List.mem_append, List.mem_singleton] at hc
    tauto
  rcases hcc with rfl | rfl | hc1 | hc2
  · decide
  · decide
  · exact (tameCh_spec c (h1 c hc1)).2.2.2.2.2.2.2
  · exact (tameCh_spec c (h2 c hc2)).2.2.2.2.2.2.2

/-- Helper for C9: a serialized pair list starts with a quote. -/
theorem pairsDump_cons_head (q : List Char × List Char)
    (rest : List (List Char × List Char)) :
    ∃ T, pairsDump (q :: rest) = '"' :: T := by
  cases rest <;> exact ⟨_, rfl⟩

/-- Helper for C9: the comma-close scan passes over a serialized pair
list (the commas between pairs precede quotes, not closers). -/
theorem scc_pairs (o : List (List Char × List Char))
    (htame : ∀ p ∈ o, (∀ c ∈ p.1, tameCh c = true) ∧ (∀ c ∈ p.2, tameCh c = true)) :
    ∀ l, sccGo none (pairsDump o ++ l) = pairsDump o ++ sccGo none l := by
  induction o with
  | nil => intro l; rfl
  | cons p rest ih =>
    intro l
    cases rest with
    | nil =>
      exact sccGo_none_app (dumpPair p)
        (dumpPair_no_comma p (htame p (List.mem_cons_self _ _)).1
          (htame p (List.mem_cons_self _ _)).2) l
    | cons q rest2 =>
      obtain ⟨T, hT⟩ := pairsDump_cons_head q rest2
      have hrest : ∀ r ∈ q :: rest2,
          (∀ c ∈ r.1, tameCh c = true) ∧ (∀ c ∈ r.2, tameCh c = true) :=
        fun r hr => htame r (List.mem_cons_of_mem _ hr)
      have hjoin : pairsDump (p :: q :: rest2) =
          dumpPair p ++ ',' :: pairsDump (q :: rest2) := rfl
      rw [hjoin, List.append_assoc, List.cons_append]
      rw [sccGo_none_app (dumpPair p)
        (dumpPair_no_comma p (htame p (List.mem_cons_self _ _)).1
          (htame p (List.mem_cons_self _ _)).2)]
      rw [hT, List.cons_append, scc_comma_quote]
      have hstep : sccGo none ('"' :: (T ++ l)) = '"' :: sccGo none (T ++ l) := rfl
      have hih := ih hrest l
      rw [hT] at hih
      rw [List.cons_append, hstep] at hih
      have hTl : sccGo none (T ++ l) = T ++ sccGo none l := by
        injection hih
      rw [hTl]
      simp [List.append_assoc]

/-- Helper for C9: the comma-close scan repairs one damaged object. -/
theorem scc_obj (o : List (List Char × List Char))
    (htame : ∀ p ∈ o, (∀ c ∈ p.1, tameCh c = true) ∧ (∀ c ∈ p.2, tameCh c = true))
    (l : List Char) :
    sccGo none (objDumpDamaged o ++ l) = objDump o ++ sccGo none l := by
  have hopen : sccGo none ('\x7b' :: (pairsDump o ++ (',' :: '\x7d' :: l))) =
      '\x7b' :: sccGo none (pairsDump o ++ (',' :: '\x7d' :: l)) := rfl
  have h1 : objDumpDamaged o ++ l =
      '\x7b' :: (pairsDump o ++ (',' :: '\x7d' :: l)) := by
    simp [objDumpDamaged, List.append_assoc]
  rw [h1, hopen, scc_pairs o htame, scc_comma_close]
  simp [objDump, List.append_assoc]

/-- Helper for C9: the comma-close scan repairs every object of the damaged
array tail. -/
theorem scc_objs (L : List (List (List Char × List Char)))
    (htame : ∀ o ∈ L, ∀ p ∈ o,
      (∀ c ∈ p.1, tameCh c = true) ∧ (∀ c ∈ p.2, tameCh c = true)) :
    ∀ l, sccGo none (joinComma (L.map objDumpDamaged) ++ l) =
      joinComma (L.map objDump) ++ sccGo none l := by
  induction L with
  | nil => intro l; rfl
  | cons o rest ih =>
    intro l
    have hto := htame o (List.mem_cons_self _ _)
    have htrest : ∀ o2 ∈ rest, ∀ p ∈ o2,
        (∀ c ∈ p.1, tameCh c = true) ∧ (∀ c ∈ p.2, tameCh c = true) :=
      fun o2 h2 => htame o2 (List.mem_cons_of_mem _ h2)
    cases rest with
    | nil =>
      have : joinComma ([o].map objDumpDamaged) = objDumpDamaged o := rfl
      rw [this, scc_obj o hto]
      rfl
    | cons o2 rest2 =>
      have hjoin : joinComma ((o :: o2 :: rest2).map objDumpDamaged) =
          objDumpDamaged o ++ ',' :: joinComma ((o2 :: rest2).map objDumpDamaged) := rfl
      rw [hjoin, List.append_assoc, List.cons_append, scc_obj o hto]
      have hhd : ∃ T, joinComma ((o2 :: rest2).map objDumpDamaged) ++ l =
          '\x7b' :: T := by
        cases rest2 <;> exact ⟨_, rfl⟩
      obtain ⟨T, hT⟩ := hhd
      rw [hT, scc_comma_open]
      have hstep : sccGo none ('\x7b' :: T) = '\x7b' :: sccGo none T := rfl
      rw [← hstep, ← hT, ih htrest l]
      have hjoin2 : joinComma ((o :: o2 :: rest2).map objDump) =
          objDump o ++ ',' :: joinComma ((o2 :: rest2).map objDump) := rfl
      rw [hjoin2]
      simp [List.append_assoc]

/-- Helper for C9: the full first regex pass on the damaged array. -/
theorem scc_damaged (L : List (List (List Char × List Char)))
    (htame : ∀ o ∈ L, ∀ p ∈ o,
      (∀ c ∈ p.1, tameCh c = true) ∧ (∀ c ∈ p.2, tameCh c = true)) :
    subCommaClose (dumpArrDamaged L) = '[' :: joinComma (L.map objDump) := by
  have hopen : sccGo none ('[' :: joinComma (L.map objDumpDamaged)) =
      '[' :: sccGo none (joinComma (L.map objDumpDamaged)) := rfl
  have := scc_objs L htame []
  rw [show sccGo none ([] : List Char) = [] from rfl] at this
  simp only [List.append_nil] at this
  show sccGo none ('[' :: joinComma (L.map objDumpDamaged)) = _
  rw [hopen, this]

/-- Helper for C9: the brace-brace scan passes over a closing-brace-free
segment. -/
theorem bbGo_none_app (xs : List Char) (h : ∀ c ∈ xs, c ≠ '\x7d') (l : List Char) :
    bbGo none (xs ++ l) = xs ++ bbGo none l := by
  induction xs with
  | nil => rfl
  | cons a rest ih =>
    have ha : ¬ a = '\x7d' := h a (List.mem_cons_self _ _)
    simp only [List.cons_append, bbGo]
    rw [if_neg ha]
    show a :: bbGo none (rest ++ l) = a :: rest ++ bbGo none l
    rw [ih (fun c hc => h c (List.mem_cons_of_mem _ hc))]
    rfl

/-- Helper for C9: a closing brace before a comma is kept. -/
theorem bb_close_comma (X : List Char) :
    bbGo none ('\x7d' :: ',' :: X) = '\x7d' :: ',' :: bbGo none X := rfl

/-- Helper for C9: a final closing brace is kept. -/
theorem bb_close_nil : bbGo none ['\x7d'] = ['\x7d'] := rfl

/-- Helper for C9: no character of an object's serialization before its
final brace is a closing brace. -/
theorem objDump_prefix_no_close (o : List (List Char × List Char))
    (htame : ∀ p ∈ o, (∀ c ∈ p.1, tameCh c = true) ∧ (∀ c ∈ p.2, tameCh c = true)) :
    ∀ c ∈ '\x7b' :: pairsDump o, c ≠ '\x7d' := by
  intro c hc
  rcases List.mem_cons.mp hc with rfl | hc2
  · decide
  · -- characters of the pair list: quotes, colons, commas, tame characters
    clear hc
    induction o with
    | nil => exact absurd hc2 (List.not_mem_nil c)
    | cons p rest ih =>
      have hp := htame p (List.mem_cons_self _ _)
      have hrest : ∀ q ∈ rest,
          (∀ c ∈ q.1, tameCh c = true) ∧ (∀ c ∈ q.2, tameCh c = true) :=
        fun q hq => htame q (List.mem_cons_of_mem _ hq)
      have hpair : ∀ d ∈ dumpPair p, d ≠ '\x7d' := by
        intro d hd
        have hdd : d = '"' ∨ d = ':' ∨ d ∈ p.1 ∨ d ∈ p.2 := by
          simp only [dumpPair, List.mem_cons, List.mem_append,
            List.mem_singleton] at hd
          tauto
        rcases hdd with rfl | rfl | h1 | h2
        · decide
        · decide
        · exact (tameCh_spec d (hp.1 d h1)).2.2.2.2.1
        · exact (tameCh_spec d (hp.2 d h2)).2.2.2.2.1
      cases rest with
      | nil => exact hpair c hc2
      | cons q rest2 =>
        have hj : pairsDump (p :: q :: rest2) =
            dumpPair p ++ ',' :: pairsDump (q :: rest2) := rfl
        rw [hj] at hc2
        rcases List.mem_append.mp hc2 with h1 | h2
        · exact hpair c h1
        · rcases List.mem_cons.mp h2 with rfl | h3
          · decide
          · exact ih hrest h3

/-- Helper for C9: the brace-brace scan leaves the repaired array tail
unchanged (every closing brace is followed by a comma or ends the text). -/
theorem bb_objs (L : List (List (List Char × List Char)))
    (htame : ∀ o ∈ L, ∀ p ∈ o,
      (∀ c ∈ p.1, tameCh c = true) ∧ (∀ c ∈ p.2, tameCh c = true)) :
    bbGo none (joinComma (L.map objDump)) = joinComma (L.map objDump) := by
  induction L with
  | nil => rfl
  | cons o rest ih =>
    have hto := htame o (List.mem_cons_self _ _)
    have htrest : ∀ o2 ∈ rest, ∀ p ∈ o2,
        (∀ c ∈ p.1, tameCh c = true) ∧ (∀ c ∈ p.2, tameCh c = true) :=
      fun o2 h2 => htame o2 (List.mem_cons_of_mem _ h2)
    cases rest with
    | nil =>
      have h1 : joinComma ([o].map objDump) =
          ('\x7b' :: pairsDump o) ++ ['\x7d'] := by
        simp [objDump, joinComma]
      rw [h1, bbGo_none_app _ (objDump_prefix_no_close o hto), bb_close_nil]
    | cons o2 rest2 =>
      have h1 : joinComma ((o :: o2 :: rest2).map objDump) =
          ('\x7b' :: pairsDump o) ++
            ('\x7d' :: ',' :: joinComma ((o2 :: rest2).map objDump)) := by
        show objDump o ++ ',' :: joinComma ((o2 :: rest2).map objDump) = _
        simp [objDump]
      rw [h1, bbGo_none_app _ (objDump_prefix_no_close o hto), bb_close_comma,
        ih htrest]

/-- Helper for C9: the full second regex pass on the repaired array. -/
theorem bb_clean (L : List (List (List Char × List Char)))
    (htame : ∀ o ∈ L, ∀ p ∈ o,
      (∀ c ∈ p.1, tameCh c = true) ∧ (∀ c ∈ p.2, tameCh c = true)) :
    subBraceBrace ('[' :: joinComma (L.map objDump)) =
      '[' :: joinComma (L.map objDump) := by
  show bbGo none ('[' :: joinComma (L.map objDump)) = _
  have hopen : bbGo none ('[' :: joinComma (L.map objDump)) =
      '[' :: bbGo none (joinComma (L.map objDump)) := rfl
  rw [hopen, bb_objs L htame]

/-- Helper for C9: a character of a joined list is a comma or comes from a
piece. -/
theorem mem_joinComma :
    ∀ (xs : List (List Char)) (c : Char),
      c ∈ joinComma xs → c = ',' ∨ ∃ x ∈ xs, c ∈ x
  | [], c, h => absurd h (List.not_mem_nil c)
  | [x], c, h => Or.inr ⟨x, List.mem_cons_self _ _, h⟩
  | x :: y :: rest, c, h => by
    simp only [joinComma] at h
    rcases List.mem_append.mp h with h1 | h2
    · exact Or.inr ⟨x, List.mem_cons_self _ _, h1⟩
    · rcases List.mem_cons.mp h2 with rfl | h3
      · exact Or.inl rfl
      · rcases mem_joinComma (y :: rest) c h3 with h4 | ⟨z, hz, hcz⟩
        · exact Or.inl h4
        · exact Or.inr ⟨z, List.mem_cons_of_mem _ hz, hcz⟩

/-- Helper for C9: a serialized pair contains no brace or bracket. -/
theorem dumpPair_no_structs (p : List Char × List Char)
    (h1 : ∀ c ∈ p.1, tameCh c = true) (h2 : ∀ c ∈ p.2, tameCh c = true) :
    ∀ c ∈ dumpPair p, c ≠ '\x7b' ∧ c ≠ '\x7d' ∧ c ≠ '[' ∧ c ≠ ']' := by
  intro c hc
  have hdd : c = '"' ∨ c = ':' ∨ c ∈ p.1 ∨ c ∈ p.2 := by
    simp only [dumpPair, List.mem_cons, List.mem_append, List.mem_singleton] at hc
    tauto
  rcases hdd with rfl | rfl | hm1 | hm2
  · exact ⟨by decide, by decide, by decide, by decide⟩
  · exact ⟨by decide, by decide, by decide, by decide⟩
  · have ht := tameCh_spec c (h1 c hm1)
    exact ⟨ht.2.2.2.1, ht.2.2.2.2.1, ht.2.2.2.2.2.1, ht.2.2.2.2.2.2.1⟩
  · have ht := tameCh_spec c (h2 c hm2)
    exact ⟨ht.2.2.2.1, ht.2.2.2.2.1, ht.2.2.2.2.2.1, ht.2.2.2.2.2.2.1⟩

/-- Helper for C9: the pair list of a tame object contains no brace or
bracket. -/
theorem pairsDump_count_zero (o : List (List Char × List Char))
    (htame : ∀ p ∈ o, (∀ c ∈ p.1, tameCh c = true) ∧ (∀ c ∈ p.2, tameCh c = true))
    (c : Char) (hc : c = '\x7b' ∨ c = '\x7d' ∨ c = '[' ∨ c = ']') :
    (pairsDump o).count c = 0 := by
  rw [List.count_eq_zero]
  intro hm
  rcases mem_joinComma _ c hm with rfl | ⟨x, hx, hcx⟩
  · rcases hc with h | h | h | h <;> exact absurd h (by decide)
  · obtain ⟨p, hp, rfl⟩ := List.mem_map.mp hx
    have hne := dumpPair_no_structs p (htame p hp).1 (htame p hp).2 c hcx
    rcases hc with rfl | rfl | rfl | rfl
    · exact hne.1 rfl
    · exact hne.2.1 rfl
    · exact hne.2.2.1 rfl
    · exact hne.2.2.2 rfl

/-- Helper for C9: each serialized object holds one brace pair and no
bracket. -/
theorem objDump_count (o : List (List Char × List Char))
    (htame : ∀ p ∈ o, (∀ c ∈ p.1, tameCh c = true) ∧ (∀ c ∈ p.2, tameCh c = true)) :
    (objDump o).count '\x7b' = 1 ∧ (objDump o).count '\x7d' = 1 ∧
    (objDump o).count '[' = 0 ∧ (objDump o).count ']' = 0 := by
  have ha := pairsDump_count_zero o htame '\x7b' (Or.inl rfl)
  have hb := pairsDump_count_zero o htame '\x7d' (Or.inr (Or.inl rfl))
  have hc2 := pairsDump_count_zero o htame '[' (Or.inr (Or.inr (Or.inl rfl)))
  have hd := pairsDump_count_zero o htame ']' (Or.inr (Or.inr (Or.inr rfl)))
  refine ⟨?_, ?_, ?_, ?_⟩ <;>
    simp [objDump, List.count_cons, List.count_append, ha, hb, hc2, hd]

/-- Helper for C9: the repaired array body holds matching brace counts, one
opening bracket (the leading one is counted by the caller) and no closing
bracket. -/
theorem clean_counts (L : List (List (List Char × List Char)))
    (htame : ∀ o ∈ L, ∀ p ∈ o,
      (∀ c ∈ p.1, tameCh c = true) ∧ (∀ c ∈ p.2, tameCh c = true)) :
    ((joinComma (L.map objDump)).count '\x7b' = L.length) ∧
    ((joinComma (L.map objDump)).count '\x7d' = L.length) ∧
    ((joinComma (L.map objDump)).count '[' = 0) ∧
    ((joinComma (L.map objDump)).count ']' = 0) := by
  induction L with
  | nil => exact ⟨rfl, rfl, rfl, rfl⟩
  | cons o rest ih =>
    have hto := htame o (List.mem_cons_self _ _)
    have htrest : ∀ o2 ∈ rest, ∀ p ∈ o2,
        (∀ c ∈ p.1, tameCh c = true) ∧ (∀ c ∈ p.2, tameCh c = true) :=
      fun o2 h2 => htame o2 (List.mem_cons_of_mem _ h2)
    have ho := objDump_count o hto
    have hi := ih htrest
    cases rest with
    | nil =>
      have hj : joinComma ([o].map objDump) = objDump o := rfl
      rw [hj]
      exact ⟨ho.1, ho.2.1, ho.2.2.1, ho.2.2.2⟩
    | cons o2 rest2 =>
      have hj : joinComma ((o :: o2 :: rest2).map objDump) =
          objDump o ++ ',' :: joinComma ((o2 :: rest2).map objDump) := rfl
      rw [hj]
      refine ⟨?_, ?_, ?_, ?_⟩
      all_goals
        simp only [List.count_append, List.count_cons, ho.1, ho.2.1, ho.2.2.1,
          ho.2.2.2, hi.1, hi.2.1, hi.2.2.1, hi.2.2.2, List.length_cons]
        try simp
        try omega

/-- Helper for C9: stripping a bracketed text is the identity. -/
theorem stripL_bracketed (mid : List Char) :
    stripL ('[' :: (mid ++ [']'])) = '[' :: (mid ++ [']']) := by
  have h1 : ('[' :: (mid ++ [']'])).dropWhile isWs = '[' :: (mid ++ [']']) := rfl
  have h2 : ('[' :: (mid ++ [']'])).reverse = ']' :: (mid.reverse ++ ['[']) := by
    simp
  have h3 : (']' :: (mid.reverse ++ ['['])).dropWhile isWs =
      ']' :: (mid.reverse ++ ['[']) := rfl
  simp only [stripL, h1, h2, h3]
  simp

/-- Helper for C9: `repair_json` turns the damaged serialization back into
the intact one (comma pass deletes the trailing commas, brace pass is inert,
the bracket count appends the lost `]`, and no wrap fires). -/
theorem repair_json_damaged (L : List (List (List Char × List Char)))
    (htame : ∀ o ∈ L, ∀ p ∈ o,
      (∀ c ∈ p.1, tameCh c = true) ∧ (∀ c ∈ p.2, tameCh c = true)) :
    repair_json ⟨dumpArrDamaged L⟩ = ⟨dumpArrClean L⟩ := by
  have hcnt := clean_counts L htame
  have hscc := scc_damaged L htame
  have hbb := bb_clean L htame
  have hc1 : ('[' :: joinComma (L.map objDump)).count '\x7b' = L.length := by
    simp [List.count_cons, hcnt.1]
  have hc2 : ('[' :: joinComma (L.map objDump)).count '\x7d' = L.length := by
    simp [List.count_cons, hcnt.2.1]
  have hc3 : ('[' :: joinComma (L.map objDump)).count '[' = 1 := by
    simp [List.count_cons, hcnt.2.2.1]
  have hc4 : ('[' :: joinComma (L.map objDump)).count ']' = 0 := by
    simp [List.count_cons, hcnt.2.2.2]
  simp only [repair_json]
  rw [hscc, hbb, hc1, hc2]
  rw [if_neg (lt_irrefl L.length)]
  rw [hc3, hc4]
  rw [if_pos (by omega : (0 : ℕ) < 1)]
  have hrep : ('[' :: joinComma (L.map objDump)) ++ List.replicate (1 - 0) ']' =
      '[' :: (joinComma (L.map objDump) ++ [']']) := by
    simp
  rw [hrep, stripL_bracketed]
  rfl

/-- Helper for C9: the string parser returns a tame segment up to its
closing quote. -/
theorem parseStr_roundtrip :
    ∀ (w : List Char), (∀ c ∈ w, tameCh c = true) → ∀ r : List Char,
      parseStr (w ++ '"' :: r) = some (⟨w⟩, r)
  | [], _, r => by
    show parseStr ('"' :: r) = some (⟨[]⟩, r)
    unfold parseStr
    simp
  | c :: w', h, r => by
    have hc := tameCh_spec c (h c (List.mem_cons_self _ _))
    have h20 := hc.1
    have hrest : ∀ d ∈ w', tameCh d = true :=
      fun d hd => h d (List.mem_cons_of_mem _ hd)
    show parseStr (c :: (w' ++ '"' :: r)) = _
    unfold parseStr
    rw [if_neg hc.2.1, if_neg hc.2.2.1, if_neg (by omega : ¬ c.toNat < 0x20)]
    rw [parseStr_roundtrip w' hrest r]
    rfl

/-- Helper for C9: the value parser on a tame string literal. -/
theorem parseVal_str_roundtrip (f : ℕ) (v : List Char)
    (hv : ∀ c ∈ v, tameCh c = true) (r : List Char) :
    parseVal (f + 1) ('"' :: (v ++ '"' :: r)) = some (JValue.str ⟨v⟩, r) := by
  show (parseStr (v ++ '"' :: r)).map (fun p => (JValue.str p.1, p.2)) = _
  rw [parseStr_roundtrip v hv r]
  rfl

/-- Helper for C9: the object-items parser consumes a serialized pair list
up to and including the closing brace. -/
theorem parseObjItems_roundtrip :
    ∀ (o : List (List Char × List Char)) (f : ℕ), o.length ≤ f → o ≠ [] →
      (∀ p ∈ o, (∀ c ∈ p.1, tameCh c = true) ∧ (∀ c ∈ p.2, tameCh c = true)) →
      ∀ (acc : List (String × JValue)) (r : List Char),
      parseObjItems (f + 1) (pairsDump o ++ '\x7d' :: r) acc =
        some (JValue.obj
          (acc.reverse ++ o.map (fun p => (⟨p.1⟩, JValue.str ⟨p.2⟩))), r)
  | [], _, _, hne, _, _, _ => absurd rfl hne
  | p :: rest, f, hf, _, htame, acc, r => by
    have htp := htame p (List.mem_cons_self _ _)
    have htrest : ∀ q ∈ rest,
        (∀ c ∈ q.1, tameCh c = true) ∧ (∀ c ∈ q.2, tameCh c = true) :=
      fun q hq => htame q (List.mem_cons_of_mem _ hq)
    obtain ⟨f1, rfl⟩ : ∃ f1, f = f1 + 1 :=
      ⟨f - 1, by simp at hf; omega⟩
    cases rest with
    | nil =>
      have hL : pairsDump [p] ++ '\x7d' :: r =
          '"' :: (p.1 ++ '"' :: (':' :: ('"' :: (p.2 ++ '"' :: '\x7d' :: r)))) := by
        simp [pairsDump, joinComma, dumpPair]
      rw [hL]
      show (match parseStr (p.1 ++ '"' :: (':' :: ('"' :: (p.2 ++ '"' :: '\x7d' :: r)))) with
        | none => none
        | some (k, r2) =>
          match r2.dropWhile isJsonWs with
          | ':' :: r3 =>
            (match parseVal (f1 + 1) r3 with
             | none => none
             | some (v, r4) =>
               match r4.dropWhile isJsonWs with
               | ',' :: r5 => parseObjItems (f1 + 1) r5 ((k, v) :: acc)
               | '\x7d' :: r5 =>
                 some (JValue.obj (acc.reverse ++ [(k, v)]), r5)
               | _ => none)
          | _ => none) = _
      rw [parseStr_roundtrip p.1 htp.1]
      show (match parseVal (f1 + 1) ('"' :: (p.2 ++ '"' :: '\x7d' :: r)) with
        | none => none
        | some (v, r4) =>
          match r4.dropWhile isJsonWs with
          | ',' :: r5 => parseObjItems (f1 + 1) r5 ((String.mk p.1, v) :: acc)
          | '\x7d' :: r5 =>
            some (JValue.obj (acc.reverse ++ [(String.mk p.1, v)]), r5)
          | _ => none) = _
      rw [parseVal_str_roundtrip f1 p.2 htp.2]
      rfl
    | cons q rest2 =>
      have hL : pairsDump (p :: q :: rest2) ++ '\x7d' :: r =
          '"' :: (p.1 ++ '"' :: (':' :: ('"' :: (p.2 ++ '"' :: ',' ::
            (pairsDump (q :: rest2) ++ '\x7d' :: r))))) := by
        show (dumpPair p ++ ',' :: pairsDump (q :: rest2)) ++ '\x7d' :: r = _
        simp [dumpPair]
      rw [hL]
      show (match parseStr (p.1 ++ '"' :: (':' :: ('"' :: (p.2 ++ '"' :: ',' ::
            (pairsDump (q :: rest2) ++ '\x7d' :: r))))) with
        | none => none
        | some (k, r2) =>
          match r2.dropWhile isJsonWs with
          | ':' :: r3 =>
            (match parseVal (f1 + 1) r3 with
             | none => none
             | some (v, r4) =>
               match r4.dropWhile isJsonWs with
               | ',' :: r5 => parseObjItems (f1 + 1) r5 ((k, v) :: acc)
               | '\x7d' :: r5 =>
                 some (JValue.obj (acc.reverse ++ [(k, v)]), r5)
               | _ => none)
          | _ => none) = _
      rw [parseStr_roundtrip p.1 htp.1]
      show (match parseVal (f1 + 1) ('"' :: (p.2 ++ '"' :: ',' ::
            (pairsDump (q :: rest2) ++ '\x7d' :: r))) with
        | none => none
        | some (v, r4) =>
          match r4.dropWhile isJsonWs with
          | ',' :: r5 => parseObjItems (f1 + 1) r5 ((String.mk p.1, v) :: acc)
          | '\x7d' :: r5 =>
            some (JValue.obj (acc.reverse ++ [(String.mk p.1, v)]), r5)
          | _ => none) = _
      rw [parseVal_str_roundtrip f1 p.2 htp.2]
      show parseObjItems (f1 + 1) (pairsDump (q :: rest2) ++ '\x7d' :: r)
          ((String.mk p.1, JValue.str (String.mk p.2)) :: acc) = _
      rw [parseObjItems_roundtrip (q :: rest2) f1 (by simp at hf ⊢; omega)
        (by simp) htrest ((⟨p.1⟩, JValue.str ⟨p.2⟩) :: acc) r]
      simp

/-- Helper for C9: the value parser on one serialized object. -/
theorem parseVal_obj_roundtrip (o : List (List Char × List Char))
    (ho : o ≠ [])
    (htame : ∀ p ∈ o, (∀ c ∈ p.1, tameCh c = true) ∧ (∀ c ∈ p.2, tameCh c = true))
    (f : ℕ) (hf : o.length + 1 ≤ f) (r : List Char) :
    parseVal (f + 1) (objDump o ++ r) = some (objJ o, r) := by
  obtain ⟨f1, rfl⟩ : ∃ f1, f = f1 + 1 := ⟨f - 1, by omega⟩
  obtain ⟨p, os, rfl⟩ : ∃ p os, o = p :: os := by
    cases o with
    | nil => exact absurd rfl ho
    | cons p os => exact ⟨p, os, rfl⟩
  obtain ⟨T, hT⟩ := pairsDump_cons_head p os
  have hL : objDump (p :: os) ++ r =
      '\x7b' :: (pairsDump (p :: os) ++ '\x7d' :: r) := by
    show ('\x7b' :: pairsDump (p :: os) ++ ['\x7d']) ++ r = _
    simp
  rw [hL]
  have harm : parseVal (f1 + 1 + 1) ('\x7b' :: (pairsDump (p :: os) ++ '\x7d' :: r)) =
      parseObjItems (f1 + 1) (pairsDump (p :: os) ++ '\x7d' :: r) [] := by
    rw [hT]
    rfl
  rw [harm, hT]
  rw [← hT, parseObjItems_roundtrip (p :: os) f1 (by simp at hf ⊢; omega)
    (by simp) htame [] r]
  rfl

/-- Helper for C9: the array-items parser consumes the serialized objects up
to and including the closing bracket. -/
theorem parseArrItems_roundtrip :
    ∀ (L : List (List (List Char × List Char))) (f : ℕ),
      (L.map (fun o => o.length + 3)).sum ≤ f → L ≠ [] →
      (∀ o ∈ L, o ≠ []) →
      (∀ o ∈ L, ∀ p ∈ o,
        (∀ c ∈ p.1, tameCh c = true) ∧ (∀ c ∈ p.2, tameCh c = true)) →
      ∀ (acc : List JValue) (r : List Char),
      parseArrItems (f + 1) (joinComma (L.map objDump) ++ ']' :: r) acc =
        some (JValue.arr (acc.reverse ++ L.map objJ), r)
  | [], _, _, hne, _, _, _, _ => absurd rfl hne
  | o :: rest, f, hf, _, ho, htame, acc, r => by
    have hto := htame o (List.mem_cons_self _ _)
    have hoo := ho o (List.mem_cons_self _ _)
    have htrest : ∀ o2 ∈ rest, ∀ p ∈ o2,
        (∀ c ∈ p.1, tameCh c = true) ∧ (∀ c ∈ p.2, tameCh c = true) :=
      fun o2 h2 => htame o2 (List.mem_cons_of_mem _ h2)
    have horest : ∀ o2 ∈ rest, o2 ≠ [] :=
      fun o2 h2 => ho o2 (List.mem_cons_of_mem _ h2)
    obtain ⟨f1, rfl⟩ : ∃ f1, f = f1 + 1 :=
      ⟨f - 1, by simp at hf; omega⟩
    cases rest with
    | nil =>
      have hL : joinComma ([o].map objDump) ++ ']' :: r =
          objDump o ++ (']' :: r) := rfl
      rw [hL]
      show (match parseVal (f1 + 1) (objDump o ++ (']' :: r)) with
        | none => none
        | some (v, r2) =>
          match r2.dropWhile isJsonWs with
          | ',' :: r3 => parseArrItems (f1 + 1) r3 (v :: acc)
          | ']' :: r3 => some (JValue.arr (acc.reverse ++ [v]), r3)
          | _ => none) = _
      rw [parseVal_obj_roundtrip o hoo hto f1 (by simp at hf; omega) (']' :: r)]
      rfl
    | cons o2 rest2 =>
      have hL : joinComma ((o :: o2 :: rest2).map objDump) ++ ']' :: r =
          objDump o ++ (',' :: (joinComma ((o2 :: rest2).map objDump) ++ ']' :: r)) := by
        show (objDump o ++ ',' :: joinComma ((o2 :: rest2).map objDump)) ++ ']' :: r = _
        simp
      rw [hL]
      show (match parseVal (f1 + 1) (objDump o ++
            (',' :: (joinComma ((o2 :: rest2).map objDump) ++ ']' :: r))) with
        | none => none
        | some (v, r2) =>
          match r2.dropWhile isJsonWs with
          | ',' :: r3 => parseArrItems (f1 + 1) r3 (v :: acc)
          | ']' :: r3 => some (JValue.arr (acc.reverse ++ [v]), r3)
          | _ => none) = _
      rw [parseVal_obj_roundtrip o hoo hto f1 (by simp at hf; omega)]
      show parseArrItems (f1 + 1) (joinComma ((o2 :: rest2).map objDump) ++ ']' :: r)
          (objJ o :: acc) = _
      rw [parseArrItems_roundtrip (o2 :: rest2) f1 (by simp at hf ⊢; omega)
        (by simp) horest htrest (objJ o :: acc) r]
      simp

/-- Helper for C9: a non-empty serialized pair list is at least as long as
its pair count. -/
theorem pairsDump_len : ∀ (o : List (List Char × List Char)), o ≠ [] →
    o.length ≤ (pairsDump o).length
  | [], hne => absurd rfl hne
  | [p], _ => by simp [pairsDump, joinComma, dumpPair]
  | p :: q :: rest, _ => by
    have := pairsDump_len (q :: rest) (by simp)
    have hj : pairsDump (p :: q :: rest) =
        dumpPair p ++ ',' :: pairsDump (q :: rest) := rfl
    rw [hj]
    simp only [List.length_cons, List.length_append, dumpPair] at this ⊢
    simp at this ⊢
    omega

/-- Helper for C9: the parser fuel drawn from the text length covers the
object steps. -/
theorem sum_le_join_len : ∀ (L : List (List (List Char × List Char))),
    (∀ o ∈ L, o ≠ []) →
    (L.map (fun o => o.length + 3)).sum ≤ (joinComma (L.map objDump)).length + 1
  | [], _ => by simp
  | [o], ho => by
    have := pairsDump_len o (ho o (List.mem_cons_self _ _))
    show o.length + 3 + 0 ≤ (objDump o).length + 1
    simp only [objDump, List.length_cons, List.length_append]
    simp
    omega
  | o :: o2 :: rest, ho => by
    have h1 := pairsDump_len o (ho o (List.mem_cons_self _ _))
    have h2 := sum_le_join_len (o2 :: rest)
      (fun x hx => ho x (List.mem_cons_of_mem _ hx))
    have hj : joinComma ((o :: o2 :: rest).map objDump) =
        objDump o ++ ',' :: joinComma ((o2 :: rest).map objDump) := rfl
    rw [List.map_cons, List.sum_cons, hj]
    simp only [objDump, List.length_cons, List.length_append] at h2 ⊢
    simp at h2 ⊢
    omega

/-- Helper for C9: the intact serialization parses back to the list of
dicts. -/
theorem jsonLoads_clean (L : List (List (List Char × List Char)))
    (hL : L ≠ []) (ho : ∀ o ∈ L, o ≠ [])
    (htame : ∀ o ∈ L, ∀ p ∈ o,
      (∀ c ∈ p.1, tameCh c = true) ∧ (∀ c ∈ p.2, tameCh c = true)) :
    jsonLoads ⟨dumpArrClean L⟩ = some (arrJ L) := by
  obtain ⟨o, rest, rfl⟩ : ∃ o rest, L = o :: rest := by
    cases L with
    | nil => exact absurd rfl hL
    | cons o rest => exact ⟨o, rest, rfl⟩
  obtain ⟨p, os, rfl⟩ : ∃ p os, o = p :: os := by
    cases o with
    | nil => exact absurd rfl (ho _ (List.mem_cons_self _ _))
    | cons p os => exact ⟨p, os, rfl⟩
  have hsum := sum_le_join_len ((p :: os) :: rest) ho
  have hhd : ∃ T, joinComma (((p :: os) :: rest).map objDump) = '\x7b' :: T := by
    cases rest with
    | nil => exact ⟨_, rfl⟩
    | cons y ys => exact ⟨_, rfl⟩
  obtain ⟨T, hT⟩ := hhd
  have hlen : (⟨dumpArrClean ((p :: os) :: rest)⟩ : String).length =
      (joinComma (((p :: os) :: rest).map objDump)).length + 2 := by
    show (('[' :: joinComma (((p :: os) :: rest).map objDump)) ++ [']']).length = _
    simp
  have hdata : (⟨dumpArrClean ((p :: os) :: rest)⟩ : String).data =
      '[' :: (joinComma (((p :: os) :: rest).map objDump) ++ ']' :: []) := by
    show ('[' :: joinComma (((p :: os) :: rest).map objDump)) ++ [']'] = _
    simp
  show (match parseVal ((⟨dumpArrClean ((p :: os) :: rest)⟩ : String).length + 1)
      (⟨dumpArrClean ((p :: os) :: rest)⟩ : String).data with
    | some (v, rest2) =>
      if (rest2.dropWhile isJsonWs).isEmpty then some v else none
    | none => none) = _
  rw [hdata, hlen, hT]
  have harm : ∀ (g : ℕ) (X : List Char),
      parseVal (g + 1) ('[' :: (('\x7b' :: X) ++ ']' :: [])) =
        parseArrItems g (('\x7b' :: X) ++ ']' :: []) [] := fun g X => rfl
  rw [harm]
  rw [← hT]
  rw [show (joinComma (((p :: os) :: rest).map objDump)).length + 2 =
      ((joinComma (((p :: os) :: rest).map objDump)).length + 1) + 1 from rfl]
  rw [parseArrItems_roundtrip ((p :: os) :: rest)
    ((joinComma (((p :: os) :: rest).map objDump)).length + 1)
    hsum (by simp) ho htame [] []]
  rfl

/-- C9 counterexample to the claim as stated: the string
`[{"a": ",}["}]` is a serialized JSON array of objects (it parses to a
one-dict list) with exactly one closing `]`; removing that `]` leaves a text
that contains a comma immediately before a `}` (inside the string value), and
`repair_json` of that text does not parse: the comma pass deletes the comma
inside the string literal and the bracket count (the value holds a `[`)
appends two `]`, so `json.loads` fails. -/
theorem C9_counterexample :
    jsonLoads ("[\x7b\"a\": \",\x7d[\"\x7d]") =
      some (JValue.arr [JValue.obj [(("a"), JValue.str (",\x7d["))]]) ∧
    subL ((",\x7d").data) (("[\x7b\"a\": \",\x7d[\"\x7d").data) = true ∧
    ("[\x7b\"a\": \",\x7d[\"\x7d]").data =
      ("[\x7b\"a\": \",\x7d[\"\x7d").data ++ [']'] ∧
    ("[\x7b\"a\": \",\x7d[\"\x7d").data.count ']' = 0 ∧
    jsonLoads (repair_json ("[\x7b\"a\": \",\x7d[\"\x7d")) = none :=
  ⟨rfl, rfl, rfl, rfl, rfl⟩

/-- C9 (amended): for a compactly serialized JSON array of non-empty
string-valued objects whose keys and values avoid quotes, backslashes,
braces, brackets, commas and control characters, removing the single closing
`]` and adding a trailing comma before each object's `}` is repaired by
`repair_json`: the result parses successfully and is exactly the original
list of dicts. -/
theorem C9_repair_roundtrip (L : List (List (List Char × List Char)))
    (hL : L ≠ []) (ho : ∀ o ∈ L, o ≠ [])
    (htame : ∀ o ∈ L, ∀ p ∈ o,
      (∀ c ∈ p.1, tameCh c = true) ∧ (∀ c ∈ p.2, tameCh c = true)) :
    jsonLoads (repair_json ⟨dumpArrDamaged L⟩) = some (arrJ L) := by
  rw [repair_json_damaged L htame, jsonLoads_clean L hL ho htame]

/-- Witness for C9 at the one-object array `[\x7b"a":"x"\x7d]`. -/
theorem C9_witness :
    (([[(['a'], ['x'])]] : List (List (List Char × List Char))) ≠ [] ∧
      (∀ o ∈ ([[(['a'], ['x'])]] : List (List (List Char × List Char))), o ≠ []) ∧
      (∀ o ∈ ([[(['a'], ['x'])]] : List (List (List Char × List Char))), ∀ p ∈ o,
        (∀ c ∈ p.1, tameCh c = true) ∧ (∀ c ∈ p.2, tameCh c = true))) ∧
    jsonLoads (repair_json ⟨dumpArrDamaged [[(['a'], ['x'])]]⟩) =
      some (arrJ [[(['a'], ['x'])]]) :=
  ⟨⟨by decide, by decide, by decide⟩,
   C9_repair_roundtrip [[(['a'], ['x'])]] (by decide) (by decide) (by decide)⟩

end QAAgent